import Mathlib

/-!
# Time-Tracker: duration and timer reconciliation

A shallow embedding of `app.js` (class `TimeTracker`): the duration calculator,
the entry store, the per-entry timers, the singleton stopwatch, grouping by
date, the backup merge and the loading of the store; and of the PTO ledger, as
written by `addOrUpdatePtoEntry` of `app.js` and by `PtoTracker.saveEntry` of
`pto.js`.

Modelling conventions.

* Time-of-day strings are Lean strings. `String.prototype.split(':')` is
  `splitOnColon`; `Number` is `jsNumber`, which reads strings of ASCII decimal
  digits and the empty string. Arithmetic is integer arithmetic. The code
  computes in IEEE doubles and `Number` also reads signs, fractions and
  exponents: the model is the code on components that are strings of digits, as
  long as every number formed has magnitude at most `maxExactSeconds` (2^53).
  The statements about the values of durations carry these two conditions
  (`clockSeconds`, `readingsTotal`).
* `Math.floor(a / b)` is `Int.fdiv`, the remainder operator is `Int.tmod`
  (sign of the dividend).
* `undefined` is `none`; a field that the code also sets to `null` and later
  tests with `=== undefined` is a `Nullable`.
* The wall clock is explicit: every operation that reads the clock takes the
  reading `now` (epoch milliseconds, `Date.now()`), and a `Platform` gives the
  local calendar fields of a timestamp. One reading is used per operation.
* A `TypeError` is an `Except.error` carrying the state left behind by the
  statements executed before the throw.
* The operators `<` and `>=` on strings are `compare` on strings, the
  lexicographic ordering by code points. `localeCompare` is modelled by the same
  ordering: the two agree on the strings the application writes, that is on
  dates `YYYY-MM-DD`, on the empty string and on zero-padded clock strings
  `HH:MM` and `HH:MM:SS` (`clockStart`), and the statements about a sorted order
  are made for such strings. `Array.prototype.sort` is the stable insertion
  sort.
* `JSON.stringify` is modelled on the typed records: strings are quoted with
  the escapes of the language definition, a period is serialised with its two
  fields in the order `startTime`, `endTime`.
* A plain object used as a map is an association list of its own properties;
  the property names inherited from `Object.prototype` are listed in
  `inheritedProperty`.
* `JSON.parse` is not modelled: a document of the storage carries its text
  together with the outcome of `JSON.parse` on that text. A `confirm` prompt is
  modelled as accepted.
-/

namespace TimeTracker

/-! ## Data model -/

/-- A time period `{ startTime, endTime }`. -/
structure Period where
  startTime : String
  endTime : String
deriving DecidableEq, Repr

/-- The duration record `{ hours, minutes, seconds, totalSeconds, totalMinutes }`.
`totalSeconds` is `none` for a legacy record that has no such field. -/
structure Duration where
  hours : Int
  minutes : Int
  seconds : Int
  totalSeconds : Option Int
  totalMinutes : Int
deriving DecidableEq, Repr

/-- The three timer states. -/
inductive TimerState where
  | stopped
  | running
  | paused
deriving DecidableEq, Repr

/-- A field that may be `undefined`, `null` or hold a value. -/
inductive Nullable (α : Type) where
  | undefined
  | null
  | val (a : α)
deriving DecidableEq, Repr

/-- An entry record. `startTime` and `endTime` are the legacy flat fields. -/
structure Entry where
  id : Int
  date : String
  day : String
  timePeriods : Option (List Period)
  duration : Option Duration
  description : String
  timerState : Option TimerState
  timerElapsed : Int
  timerStartTime : Option Int
  timerActualStartTime : Nullable String
  baseDurationMinutes : Option Int
  stopwatchPeriodIndex : Option Nat
  completed : Option Bool
  startTime : Option String
  endTime : Option String
deriving DecidableEq, Repr

/-- The fields of the `TimeTracker` instance. `stopwatchInterval` records
whether the stopwatch's periodic callback is installed. -/
structure Store where
  entries : List Entry
  stopwatchInterval : Bool
  stopwatchStartTime : Option Int
  stopwatchElapsed : Int
  isRunning : Bool
  isPaused : Bool
  stopwatchEntryId : Option Int
deriving DecidableEq, Repr

/-- Local hour, minute and second of a `Date`. -/
structure TimeOfDay where
  hours : Fin 24
  minutes : Fin 60
  seconds : Fin 60
deriving DecidableEq, Repr

/-- The platform's date library: local fields of a timestamp
(`new Date(ts).getHours()` etc.), the local `YYYY-MM-DD` string of a timestamp
(`getTodayDateString`) and the weekday name of a date string
(`parseLocalDate(d).toLocaleDateString('en-US', { weekday: 'long' })`). -/
structure Platform where
  localTime : Int → TimeOfDay
  dateString : Int → String
  weekday : String → String

/-! ## JavaScript primitives -/

/-- Truthiness of a string: non-empty. -/
def truthyStr (s : String) : Bool := s != ""

/-- Truthiness of an optional string field. -/
def truthyOptStr : Option String → Bool
  | some s => truthyStr s
  | none => false

/-- Truthiness of an optional number: present and non-zero. -/
def truthyNum : Option Int → Bool
  | some n => n != 0
  | none => false

/-- Truthiness of a nullable string. -/
def Nullable.truthy : Nullable String → Bool
  | .val s => truthyStr s
  | _ => false

/-- The pieces of a string between colons: `str.split(':')` on the characters. -/
def splitOnColon : List Char → List (List Char)
  | [] => [[]]
  | c :: cs =>
    if c = ':' then [] :: splitOnColon cs
    else match splitOnColon cs with
      | [] => [[c]]
      | p :: ps => (c :: p) :: ps

/-- Value of an ASCII decimal digit. -/
def digitVal (c : Char) : Option Nat :=
  if '0' ≤ c ∧ c ≤ '9' then some (c.toNat - 48) else none

/-- Reads a string of decimal digits, most significant first. -/
def readDigits : List Char → Nat → Option Nat
  | [], acc => some acc
  | c :: cs, acc =>
    match digitVal c with
    | some d => readDigits cs (10 * acc + d)
    | none => none

/-- `Number(str)` on a string of ASCII decimal digits: its value, 0 for the
empty string. The value is exact as long as it is at most 2^53. Every other
string is outside the model and yields `none`, which `component` reads as 0;
statements about values are made for components that are strings of digits. -/
def jsNumber (cs : List Char) : Option Nat := readDigits cs 0

/-- `parts[i] || 0` for `parts = time.split(':').map(Number)`. -/
def component (parts : List (List Char)) (i : Nat) : Int :=
  match parts[i]? with
  | some cs => match jsNumber cs with
    | some n => (n : Int)
    | none => 0
  | none => 0

/-- `String(n).padStart(2, '0')`. -/
def pad2 (n : Nat) : String :=
  let s := toString n
  if s.length < 2 then "0" ++ s else s

/-- The clock string `HH:MM:SS`. -/
def formatHMS (t : TimeOfDay) : String :=
  pad2 t.hours.val ++ ":" ++ pad2 t.minutes.val ++ ":" ++ pad2 t.seconds.val

/-- The clock string `HH:MM`. -/
def formatHM (t : TimeOfDay) : String :=
  pad2 t.hours.val ++ ":" ++ pad2 t.minutes.val

/-- Seconds since local midnight of a clock reading. -/
def secondsOfDay (t : TimeOfDay) : Int :=
  3600 * (t.hours.val : Int) + 60 * (t.minutes.val : Int) + (t.seconds.val : Int)

/-! ## Duration calculator -/

/-- `timeToSeconds(time)`. -/
def timeToSeconds (time : String) : Int :=
  let parts := splitOnColon time.data
  component parts 0 * 3600 + component parts 1 * 60 + component parts 2

/-- The decomposition shared by `calculateDuration` and
`calculateDurationFromPeriods`. -/
def decompose (totalSeconds : Int) : Duration :=
  { hours := Int.fdiv totalSeconds 3600
    minutes := Int.fdiv (Int.tmod totalSeconds 3600) 60
    seconds := Int.tmod totalSeconds 60
    totalSeconds := some totalSeconds
    totalMinutes := Int.fdiv totalSeconds 60 }

/-- `calculateDuration(startTime, endTime)`. -/
def calculateDuration (startTime endTime : String) : Duration :=
  decompose (timeToSeconds endTime - timeToSeconds startTime)

/-- The value of `totalSeconds` after the loop of
`calculateDurationFromPeriods`, started at `acc`. -/
def sumPeriods : List Period → Int → Int
  | [], acc => acc
  | p :: ps, acc =>
    if truthyStr p.startTime && truthyStr p.endTime then
      sumPeriods ps (acc + ((calculateDuration p.startTime p.endTime).totalSeconds).getD 0)
    else sumPeriods ps acc

/-- `calculateDurationFromPeriods(timePeriods)`. -/
def calculateDurationFromPeriods (timePeriods : List Period) : Duration :=
  decompose (sumPeriods timePeriods 0)

/-! ## Entry store helpers -/

/-- `entries.find(e => e.id === id)`. -/
def findEntry (id : Int) : List Entry → Option Entry
  | [] => none
  | e :: es => if e.id = id then some e else findEntry id es

/-- In-place mutation of the object returned by `entries.find(e => e.id === id)`:
the first entry with that id is replaced by its image, the rest is untouched. -/
def updateById (id : Int) (f : Entry → Entry) : List Entry → List Entry
  | [] => []
  | e :: es => if e.id = id then f e :: es else e :: updateById id f es

/-- `entries.filter(e => e.id !== id)`. -/
def removeById (id : Int) (es : List Entry) : List Entry :=
  es.filter (fun e => e.id != id)

/-- The state an operation leaves behind, whether it returned or threw. -/
def outcome : Except Store Store → Store
  | .ok s => s
  | .error s => s

/-! ## Per-entry timers -/

/-- The mutation `startEntryTimer` applies to the entry it found. -/
def startEntry (pf : Platform) (now : Int) (e : Entry) : Entry :=
  { e with
    timerActualStartTime := .val (formatHMS (pf.localTime now))
    timerState := some .running
    timerStartTime := some now }

/-- `startEntryTimer(id)`. -/
def startEntryTimer (pf : Platform) (now : Int) (id : Int) (s : Store) : Store :=
  { s with entries := updateById id (startEntry pf now) s.entries }

/-- The recomputation guarded by
`entry.timePeriods && entry.timePeriods.length > 0`. -/
def recomputeDuration (e : Entry) : Entry :=
  match e.timePeriods with
  | some (p :: ps) => { e with duration := some (calculateDurationFromPeriods (p :: ps)) }
  | _ => e

/-- The mutation `pauseEntryTimer` applies to the entry it found. -/
def pauseEntry (now : Int) (e : Entry) : Entry :=
  if e.timerState ≠ some .running then e
  else
    let e1 :=
      if truthyNum e.timerStartTime then
        { e with
          timerElapsed := e.timerElapsed + (now - e.timerStartTime.getD 0)
          timerStartTime := none }
      else e
    let e2 := recomputeDuration e1
    { e2 with timerState := some .paused }

/-- `pauseEntryTimer(id)`. -/
def pauseEntryTimer (now : Int) (id : Int) (s : Store) : Store :=
  { s with entries := updateById id (pauseEntry now) s.entries }

/-- The mutation `resumeEntryTimer` applies to the entry it found. -/
def resumeEntry (pf : Platform) (now : Int) (e : Entry) : Entry :=
  if e.timerState ≠ some .paused then e
  else
    let e1 :=
      if e.timerActualStartTime.truthy then e
      else { e with timerActualStartTime := .val (formatHMS (pf.localTime now)) }
    { e1 with timerState := some .running, timerStartTime := some now }

/-- `resumeEntryTimer(id)`. -/
def resumeEntryTimer (pf : Platform) (now : Int) (id : Int) (s : Store) : Store :=
  { s with entries := updateById id (resumeEntry pf now) s.entries }

/-- The start time of the period that `stopEntryTimer` appends: the recorded
`timerActualStartTime`, completed with a seconds component when it has exactly
two colon-separated parts. `e` is the entry after the running segment was folded
into `timerElapsed`. -/
def stopStartTime (pf : Platform) (now : Int) (e : Entry) (actual : String) : String :=
  if (splitOnColon actual.data).length = 2 then
    let timerStartTimestamp := if truthyNum e.timerStartTime then e.timerStartTime.getD 0 else now
    let actualStartTimestamp := timerStartTimestamp - e.timerElapsed
    actual ++ ":" ++ pad2 (pf.localTime actualStartTimestamp).seconds.val
  else actual

/-- First block of `stopEntryTimer`: a running segment is added to
`timerElapsed`. -/
def foldRunning (now : Int) (e : Entry) : Entry :=
  if e.timerState = some .running && truthyNum e.timerStartTime then
    { e with timerElapsed := e.timerElapsed + (now - e.timerStartTime.getD 0) }
  else e

/-- Second block of `stopEntryTimer`: under `if (entry.timerActualStartTime)` a
period is pushed, the start time is cleared and `timerElapsed` is reset. -/
def flushPeriod (pf : Platform) (now : Int) (e : Entry) : Entry :=
  match e.timerActualStartTime with
  | .val actual =>
    if truthyStr actual then
      { e with
        timePeriods := some (e.timePeriods.getD [] ++
          [{ startTime := stopStartTime pf now e actual
             endTime := formatHMS (pf.localTime now) }])
        timerActualStartTime := .null
        timerElapsed := 0 }
    else e
  | _ => e

/-- The mutation `stopEntryTimer` applies to the entry it found. -/
def stopEntry (pf : Platform) (now : Int) (e : Entry) : Entry :=
  let e3 := recomputeDuration (flushPeriod pf now (foldRunning now e))
  { e3 with timerState := some .stopped, timerStartTime := none }

/-- `stopEntryTimer(id)`. -/
def stopEntryTimer (pf : Platform) (now : Int) (id : Int) (s : Store) : Store :=
  { s with entries := updateById id (stopEntry pf now) s.entries }

/-- `toggleCompletion(id)`. -/
def toggleCompletion (id : Int) (s : Store) : Store :=
  { s with entries :=
      updateById id (fun e => { e with completed := some (!(e.completed.getD false)) }) s.entries }

/-! ## Singleton stopwatch -/

/-- The entry object built by `createStopwatchEntry`. -/
def newStopwatchEntry (pf : Platform) (now : Int) : Entry :=
  let today := pf.dateString now
  let startTime := formatHM (pf.localTime now)
  { id := now
    date := today
    day := pf.weekday today
    timePeriods := some [{ startTime := startTime, endTime := startTime }]
    duration := some
      { hours := 0, minutes := 0, seconds := 0, totalSeconds := some 0, totalMinutes := 0 }
    description := "Stopwatch Entry"
    timerState := some .stopped
    timerElapsed := 0
    timerStartTime := none
    timerActualStartTime := .undefined
    baseDurationMinutes := some 0
    stopwatchPeriodIndex := some 0
    completed := some false
    startTime := none
    endTime := none }

/-- `createStopwatchEntry()`. -/
def createStopwatchEntry (pf : Platform) (now : Int) (s : Store) : Store :=
  { s with
    entries := s.entries ++ [newStopwatchEntry pf now]
    stopwatchEntryId := some now }

/-- `startStopwatch()`. -/
def startStopwatch (pf : Platform) (now : Int) (s : Store) : Store :=
  if s.isRunning then s
  else
    let s1 := if !truthyNum s.stopwatchEntryId then createStopwatchEntry pf now s else s
    { s1 with
      isRunning := true
      isPaused := false
      stopwatchStartTime := some (now - s1.stopwatchElapsed)
      stopwatchInterval := true }

/-- The mutation `updateStopwatchEntry` applies to the tracked entry; `none`
when `entry.timePeriods[entry.stopwatchPeriodIndex]` is `undefined` and the
assignment to its `endTime` throws. -/
def tickEntry (pf : Platform) (now : Int) (stopwatchStartTime : Option Int) (entry : Entry) :
    Option Entry :=
  let periods := entry.timePeriods.getD []
  let endTime := formatHMS (pf.localTime now)
  match periods, entry.stopwatchPeriodIndex with
  | _ :: _, some idx =>
    match periods[idx]? with
    | some p =>
      let periods1 := periods.set idx { p with endTime := endTime }
      some { entry with
        timePeriods := some periods1
        duration := some (calculateDurationFromPeriods periods1) }
    | none => none
  | _, _ =>
    let started := if truthyNum stopwatchStartTime then stopwatchStartTime.getD 0 else now
    let periods1 := periods ++ [{ startTime := formatHMS (pf.localTime started), endTime := endTime }]
    some { entry with
      timePeriods := some periods1
      stopwatchPeriodIndex := some (periods1.length - 1)
      duration := some (calculateDurationFromPeriods periods1) }

/-- `updateStopwatchEntry()`. -/
def updateStopwatchEntry (pf : Platform) (now : Int) (s : Store) : Except Store Store :=
  if !truthyNum s.stopwatchEntryId then .ok s
  else
    let id := s.stopwatchEntryId.getD 0
    match findEntry id s.entries with
    | none => .ok s
    | some entry =>
      match tickEntry pf now s.stopwatchStartTime entry with
      | none => .error s
      | some entry1 => .ok { s with entries := updateById id (fun _ => entry1) s.entries }

/-- The callback installed by `startStopwatch` with `setInterval`; it does
nothing once the interval has been cleared. -/
def stopwatchTick (pf : Platform) (now : Int) (s : Store) : Except Store Store :=
  if s.stopwatchInterval && truthyNum s.stopwatchEntryId then
    updateStopwatchEntry pf now
      { s with stopwatchElapsed := now - s.stopwatchStartTime.getD 0 }
  else .ok s

/-- `pauseStopwatch()`. -/
def pauseStopwatch (pf : Platform) (now : Int) (s : Store) : Except Store Store :=
  if !s.isRunning || !truthyNum s.stopwatchEntryId then .ok s
  else
    updateStopwatchEntry pf now
      { s with isRunning := false, isPaused := true, stopwatchInterval := false }

/-- `stopStopwatch()`; `formDescription` is the trimmed value of the description
field of the form. -/
def stopStopwatch (pf : Platform) (now : Int) (formDescription : String) (s : Store) :
    Except Store Store :=
  if !truthyNum s.stopwatchEntryId then .ok s
  else
    let id := s.stopwatchEntryId.getD 0
    let s1 := { s with isRunning := false, isPaused := false, stopwatchInterval := false }
    match findEntry id s1.entries with
    | none => .ok s1
    | some _ =>
      let s2 :=
        if truthyStr formDescription && formDescription != "" &&
            formDescription != "Stopwatch Entry" then
          { s1 with entries :=
              updateById id (fun e => { e with description := formDescription }) s1.entries }
        else s1
      match updateStopwatchEntry pf now s2 with
      | .error s3 => .error s3
      | .ok s3 =>
        .ok { s3 with stopwatchEntryId := none, stopwatchElapsed := 0, stopwatchStartTime := none }

/-- `resetStopwatch()`. Reading `entry.duration.totalSeconds` throws when no
entry has the tracked id or when the entry has no `duration`. -/
def resetStopwatch (s : Store) : Except Store Store :=
  let s1 := { s with isRunning := false, isPaused := false, stopwatchInterval := false }
  if truthyNum s1.stopwatchEntryId then
    let id := s1.stopwatchEntryId.getD 0
    match findEntry id s1.entries with
    | none => .error s1
    | some entry =>
      match entry.duration with
      | none => .error s1
      | some d =>
        let entrySeconds : Int :=
          match d.totalSeconds with
          | some t => t
          | none => d.totalMinutes * 60
        let s2 := if entrySeconds = 0 then { s1 with entries := removeById id s1.entries } else s1
        .ok { s2 with stopwatchEntryId := none, stopwatchElapsed := 0, stopwatchStartTime := none }
  else
    .ok { s1 with stopwatchElapsed := 0, stopwatchStartTime := none }

/-- The first statement of `deleteEntry`: stop the entry's timer if it runs. -/
def stopIfRunning (pf : Platform) (now : Int) (id : Int) (s : Store) : Store :=
  match findEntry id s.entries with
  | some entry => if entry.timerState = some .running then stopEntryTimer pf now id s else s
  | none => s

/-- The second statement of `deleteEntry`: reset the stopwatch if it tracks the
entry. -/
def resetIfTracked (id : Int) (s : Store) : Except Store Store :=
  if s.stopwatchEntryId = some id then resetStopwatch s else .ok s

/-- `deleteEntry(id)` once the confirmation prompt was accepted. -/
def deleteEntry (pf : Platform) (now : Int) (id : Int) (s : Store) : Except Store Store :=
  match resetIfTracked id (stopIfRunning pf now id s) with
  | .error s2 => .error s2
  | .ok s2 => .ok { s2 with entries := removeById id s2.entries }

/-! ## Manual entries -/

/-- The values read from the entry form or from the inline edit form:
`description` is the trimmed text, `periods` the start and end input values of
the period items in document order. -/
structure EntryForm where
  date : String
  description : String
  periods : List Period
deriving DecidableEq, Repr

/-- The loop that collects the periods of a form; `none` when it alerts and
returns. The test `startTime >= endTime` on strings is the negation of
`startTime < endTime` in the ordering of strings by code points. -/
def collectPeriods : List Period → Option (List Period)
  | [] => some []
  | item :: rest =>
    if !truthyStr item.startTime || !truthyStr item.endTime then none
    else if compare item.startTime item.endTime ≠ .lt then none
    else (collectPeriods rest).map (fun ps => { startTime := item.startTime, endTime := item.endTime } :: ps)

/-- The start time the sort comparator reads from an entry. -/
def firstStart (e : Entry) : String :=
  match e.timePeriods with
  | some (p :: _) => p.startTime
  | _ => ""

/-- The comparator passed to `entries.sort` in `addEntry`. `localeCompare` is
modelled by the ordering of strings by code points, with which it agrees on
dates `YYYY-MM-DD` and on zero-padded clock strings. -/
def compareEntries (a b : Entry) : Ordering :=
  if a.date ≠ b.date then compare b.date a.date
  else compare (firstStart b) (firstStart a)

/-- The entry `a` may stand before `b`: the comparator is not positive. -/
def entryLe (a b : Entry) : Prop := compareEntries a b ≠ .gt

instance : DecidableRel entryLe := fun a b => by
  unfold entryLe
  exact inferInstance

/-- `entries.sort(comparator)`, a stable sort. -/
def sortEntries (es : List Entry) : List Entry := es.insertionSort entryLe

/-- `description || 'No description'`. -/
def descriptionOrDefault (description : String) : String :=
  if truthyStr description then description else "No description"

/-- `addEntry()`. -/
def addEntry (pf : Platform) (now : Int) (form : EntryForm) (s : Store) : Store :=
  match collectPeriods form.periods with
  | none => s
  | some [] => s
  | some (p :: ps) =>
    let timePeriods := p :: ps
    let duration := calculateDurationFromPeriods timePeriods
    let entry : Entry :=
      { id := now
        date := form.date
        day := pf.weekday form.date
        timePeriods := some timePeriods
        duration := some duration
        description := descriptionOrDefault form.description
        timerState := some .stopped
        timerElapsed := 0
        timerStartTime := none
        timerActualStartTime := .null
        baseDurationMinutes := some (Int.fdiv (duration.totalSeconds.getD 0) 60)
        stopwatchPeriodIndex := none
        completed := some false
        startTime := none
        endTime := none }
    { s with entries := sortEntries (s.entries ++ [entry]) }

/-- `saveInlineEdit(id)` for an entry whose edit form is in the document. -/
def saveInlineEdit (pf : Platform) (id : Int) (form : EntryForm) (s : Store) : Store :=
  match findEntry id s.entries with
  | none => s
  | some _ =>
    match collectPeriods form.periods with
    | none => s
    | some [] => s
    | some (p :: ps) =>
      let timePeriods := p :: ps
      let duration := calculateDurationFromPeriods timePeriods
      { s with entries :=
          updateById id (fun e =>
            { e with
              date := form.date
              day := pf.weekday form.date
              timePeriods := some timePeriods
              duration := some duration
              description := descriptionOrDefault form.description
              baseDurationMinutes := some (Int.fdiv (duration.totalSeconds.getD 0) 60)
              completed := some (e.completed.getD false) }) s.entries }

/-! ## Validation alerts -/

/-- The message of the first `alert` raised by the loop that collects the
periods of a form, `none` when the loop completes. -/
def periodsAlert : List Period → Option String
  | [] => none
  | item :: rest =>
    if !truthyStr item.startTime || !truthyStr item.endTime then
      some "Please fill in all time periods (Start Time and End Time are required)"
    else if compare item.startTime item.endTime ≠ .lt then
      some "End time must be after start time for each period"
    else periodsAlert rest

/-- The message of the `alert` with which `addEntry` and `saveInlineEdit` return
early, `none` when the form passes validation. -/
def formAlert (form : EntryForm) : Option String :=
  match periodsAlert form.periods with
  | some message => some message
  | none => if form.periods.length = 0 then some "Please add at least one time period" else none

/-! ## Entry time range and grouping -/

/-- The comparator `a.startTime.localeCompare(b.startTime)` is not positive.
`localeCompare` is modelled by the ordering by code points, with which it agrees
on the empty string and on zero-padded clock strings. -/
def periodStartLe (a b : Period) : Prop := compare a.startTime b.startTime ≠ .gt

instance : DecidableRel periodStartLe := fun a b => by
  unfold periodStartLe
  exact inferInstance

/-- `getEntryTimeRange(entry)`; the periods are sorted with `periodStartLe`,
which is the code's order when the start times are zero-padded clock strings. -/
def getEntryTimeRange (entry : Entry) : Period :=
  match entry.timePeriods with
  | some (p :: ps) =>
    let sortedPeriods := (p :: ps).insertionSort periodStartLe
    { startTime := (sortedPeriods.head?.map (fun q => q.startTime)).getD ""
      endTime := (sortedPeriods.getLast?.map (fun q => q.endTime)).getD "" }
  | _ =>
    if truthyOptStr entry.startTime && truthyOptStr entry.endTime then
      { startTime := entry.startTime.getD "", endTime := entry.endTime.getD "" }
    else { startTime := "", endTime := "" }

/-- The comparator of `groupByDate`,
`bRange.startTime.localeCompare(aRange.startTime)`, is not positive;
`localeCompare` as in `periodStartLe`. -/
def rangeStartGe (a b : Entry) : Prop :=
  compare (getEntryTimeRange b).startTime (getEntryTimeRange a).startTime ≠ .gt

instance : DecidableRel rangeStartGe := fun a b => by
  unfold rangeStartGe
  exact inferInstance

/-- Property names that a plain object inherits from `Object.prototype`: for
these `grouped[name]` is an inherited member, not `undefined`, in an object that
has no own property of that name. -/
def inheritedProperty (name : String) : Bool :=
  name ∈ ["constructor", "hasOwnProperty", "isPrototypeOf", "propertyIsEnumerable",
    "toLocaleString", "toString", "valueOf", "__proto__", "__defineGetter__",
    "__defineSetter__", "__lookupGetter__", "__lookupSetter__"]

/-- `grouped[date].push(entry)` on the own properties of `grouped`, creating the
array when the property is absent. -/
def pushToGroup (date : String) (entry : Entry) :
    List (String × List Entry) → List (String × List Entry)
  | [] => [(date, [entry])]
  | (key, group) :: rest =>
    if key = date then (key, group ++ [entry]) :: rest
    else (key, group) :: pushToGroup date entry rest

/-- The body of the first `forEach` of `groupByDate`; `none` when
`grouped[entry.date]` is an inherited member and `push` is not a function. -/
def groupStep (grouped : Option (List (String × List Entry))) (entry : Entry) :
    Option (List (String × List Entry)) :=
  match grouped with
  | none => none
  | some g => if inheritedProperty entry.date then none else some (pushToGroup entry.date entry g)

/-- `groupByDate(entries)`: the own properties of the returned object with their
arrays, `none` when a `TypeError` is thrown. The list holds the properties in
order of creation, which is not the order in which the object enumerates its
keys (integer-like keys come first there); no statement depends on it. -/
def groupByDate (entries : List Entry) : Option (List (String × List Entry)) :=
  (entries.foldl groupStep (some [])).map
    (fun g => g.map (fun kv => (kv.1, kv.2.insertionSort rangeStartGe)))

/-! ## Backup merge -/

/-- Lower-case hexadecimal digit. -/
def hexDigit (n : Nat) : Char :=
  if n < 10 then Char.ofNat (48 + n) else Char.ofNat (87 + n)

/-- The escape of one character in `JSON.stringify` of a string. -/
def jsonEscape (c : Char) : List Char :=
  if c = '"' then ['\\', '"']
  else if c = '\\' then ['\\', '\\']
  else if c = Char.ofNat 8 then ['\\', 'b']
  else if c = Char.ofNat 12 then ['\\', 'f']
  else if c = Char.ofNat 10 then ['\\', 'n']
  else if c = Char.ofNat 13 then ['\\', 'r']
  else if c = Char.ofNat 9 then ['\\', 't']
  else if c.toNat < 32 then
    ['\\', 'u', '0', '0', hexDigit (c.toNat / 16), hexDigit (c.toNat % 16)]
  else [c]

/-- The characters between the quotes of `JSON.stringify(str)`. -/
def jsonBody : List Char → List Char
  | [] => []
  | c :: cs => jsonEscape c ++ jsonBody cs

/-- `JSON.stringify(str)` for a string. -/
def jsonQuote (s : String) : List Char :=
  '"' :: (jsonBody s.data ++ ['"'])

/-- `JSON.stringify` of a period object. -/
def jsonPeriod (p : Period) : List Char :=
  "\x7b\"startTime\":".data ++ (jsonQuote p.startTime ++
    (",\"endTime\":".data ++ (jsonQuote p.endTime ++ "\x7d".data)))

/-- The elements of a serialised array of periods, separated by commas. -/
def jsonItems : List Period → List Char
  | [] => []
  | [p] => jsonPeriod p
  | p :: q :: rest => jsonPeriod p ++ ',' :: jsonItems (q :: rest)

/-- `JSON.stringify` of an array of periods. -/
def jsonPeriods (ps : List Period) : List Char :=
  '[' :: (jsonItems ps ++ [']'])

/-- `buildEntryKey(entry)`: `JSON.stringify({ date, description, timePeriods })`
with `date` and `description` defaulting to the empty string and `timePeriods`
to the empty array. -/
def buildEntryKey (entry : Entry) : String :=
  String.mk ("\x7b\"date\":".data ++ (jsonQuote entry.date ++
    (",\"description\":".data ++ (jsonQuote entry.description ++
      (",\"timePeriods\":".data ++ (jsonPeriods (entry.timePeriods.getD []) ++ "\x7d".data))))))

/-- The variables of `mergeEntries`: the key set, the entries and the two
counters. -/
structure MergeState where
  existingKeys : List String
  entries : List Entry
  addedCount : Nat
  skippedCount : Nat
deriving DecidableEq, Repr

/-- The body of the `forEach` of `mergeEntries`. -/
def mergeStep (st : MergeState) (entry : Entry) : MergeState :=
  let key := buildEntryKey entry
  if key ∈ st.existingKeys then { st with skippedCount := st.skippedCount + 1 }
  else
    { existingKeys := st.existingKeys ++ [key]
      entries := st.entries ++ [entry]
      addedCount := st.addedCount + 1
      skippedCount := st.skippedCount }

/-- The variables of `mergeEntries` before the loop. -/
def mergeInit (s : Store) : MergeState :=
  { existingKeys := s.entries.map buildEntryKey
    entries := s.entries
    addedCount := 0
    skippedCount := 0 }

/-- The variables of `mergeEntries` after the loop over `importedEntries`. -/
def mergeRun (s : Store) (importedEntries : List Entry) : MergeState :=
  importedEntries.foldl mergeStep (mergeInit s)

/-- The value `{ addedCount, skippedCount }` returned by `mergeEntries` together
with the store it leaves. -/
structure MergeResult where
  store : Store
  addedCount : Nat
  skippedCount : Nat
deriving DecidableEq, Repr

/-- `mergeEntries(importedEntries)`. -/
def mergeEntries (importedEntries : List Entry) (s : Store) : MergeResult :=
  let st := mergeRun s importedEntries
  { store := { s with entries := st.entries }
    addedCount := st.addedCount
    skippedCount := st.skippedCount }

/-- Value of a lower-case hexadecimal digit. -/
def hexVal (c : Char) : Nat :=
  if c.toNat < 58 then c.toNat - 48 else c.toNat - 87

/-- Reads back the first character of a string body written with `jsonEscape`
and returns it with the rest; it is a left inverse of `jsonEscape` and is used
to show that the serialisation is unambiguous. -/
def jsonUnescape : List Char → Option (Char × List Char)
  | [] => none
  | c :: rest =>
    if c = '\\' then
      match rest with
      | [] => none
      | e :: rest2 =>
        if e = '"' then some ('"', rest2)
        else if e = '\\' then some ('\\', rest2)
        else if e = 'b' then some (Char.ofNat 8, rest2)
        else if e = 'f' then some (Char.ofNat 12, rest2)
        else if e = 'n' then some (Char.ofNat 10, rest2)
        else if e = 'r' then some (Char.ofNat 13, rest2)
        else if e = 't' then some (Char.ofNat 9, rest2)
        else
          match rest2 with
          | _ :: _ :: h1 :: h2 :: rest3 => some (Char.ofNat (16 * hexVal h1 + hexVal h2), rest3)
          | _ => none
    else some (c, rest)

/-! ## Migration on load -/

/-- The value the migration gives `baseDurationMinutes`, from the stored
`duration` if there is one. -/
def legacyBaseMinutes : Option Duration → Int
  | some d =>
    match d.totalSeconds with
    | some t => Int.fdiv t 60
    | none => d.totalMinutes
  | none => 0

/-- Migration, first block: `if (!entry.timerState) { ... }`. -/
def migrateTimer (e : Entry) : Entry :=
  if e.timerState.isNone then
    { e with
      timerState := some .stopped
      timerElapsed := 0
      timerStartTime := none
      timerActualStartTime := .null }
  else e

/-- Migration, second block: `if (entry.timerActualStartTime === undefined)`. -/
def migrateActualStart (e : Entry) : Entry :=
  if e.timerActualStartTime = .undefined then { e with timerActualStartTime := .null } else e

/-- Migration, third block: `if (entry.baseDurationMinutes === undefined)`. -/
def migrateBase (e : Entry) : Entry :=
  if e.baseDurationMinutes.isNone then
    { e with baseDurationMinutes := some (legacyBaseMinutes e.duration) }
  else e

/-- Migration, fourth block: the legacy `startTime`/`endTime` fold. -/
def migratePeriods (e : Entry) : Entry :=
  match e.timePeriods with
  | some _ => e
  | none =>
    if truthyOptStr e.startTime && truthyOptStr e.endTime then
      let timePeriods : List Period :=
        [{ startTime := e.startTime.getD "", endTime := e.endTime.getD "" }]
      { e with
        timePeriods := some timePeriods
        duration := some (calculateDurationFromPeriods timePeriods) }
    else { e with timePeriods := some [] }

/-- Migration, fifth block: `if (entry.completed === undefined)`. -/
def migrateCompleted (e : Entry) : Entry :=
  if e.completed.isNone then { e with completed := some false } else e

/-- The body of the `forEach` in `initializeApp` that migrates one entry. -/
def migrateEntry (e : Entry) : Entry :=
  migrateCompleted (migratePeriods (migrateBase (migrateActualStart (migrateTimer e))))

/-- The migration loop of `initializeApp`. -/
def migrate (s : Store) : Store :=
  { s with entries := s.entries.map migrateEntry }

/-- The state of a freshly constructed `TimeTracker` whose storage is empty. -/
def emptyStore : Store :=
  { entries := []
    stopwatchInterval := false
    stopwatchStartTime := none
    stopwatchElapsed := 0
    isRunning := false
    isPaused := false
    stopwatchEntryId := none }

/-! ## Reachable states -/

/-- The stored duration agrees with the periods whenever there is a period. -/
def durationConsistent (e : Entry) : Prop :=
  ∀ P : List Period, e.timePeriods = some P → P ≠ [] →
    e.duration = some (calculateDurationFromPeriods P)

/-- Every entry of the store has a duration consistent with its periods. -/
def storeConsistent (s : Store) : Prop := ∀ e ∈ s.entries, durationConsistent e

/-- One user action or timer callback of the application. -/
inductive Step (pf : Platform) : Store → Store → Prop where
  | addEntry (now : Int) (form : EntryForm) (s : Store) :
      Step pf s (TimeTracker.addEntry pf now form s)
  | saveInlineEdit (id : Int) (form : EntryForm) (s : Store) :
      Step pf s (TimeTracker.saveInlineEdit pf id form s)
  | toggleCompletion (id : Int) (s : Store) :
      Step pf s (TimeTracker.toggleCompletion id s)
  | deleteEntry (now : Int) (id : Int) (s : Store) :
      Step pf s (outcome (TimeTracker.deleteEntry pf now id s))
  | startEntryTimer (now : Int) (id : Int) (s : Store) :
      Step pf s (TimeTracker.startEntryTimer pf now id s)
  | pauseEntryTimer (now : Int) (id : Int) (s : Store) :
      Step pf s (TimeTracker.pauseEntryTimer now id s)
  | resumeEntryTimer (now : Int) (id : Int) (s : Store) :
      Step pf s (TimeTracker.resumeEntryTimer pf now id s)
  | stopEntryTimer (now : Int) (id : Int) (s : Store) :
      Step pf s (TimeTracker.stopEntryTimer pf now id s)
  | startStopwatch (now : Int) (s : Store) :
      Step pf s (TimeTracker.startStopwatch pf now s)
  | stopwatchTick (now : Int) (s : Store) :
      Step pf s (outcome (TimeTracker.stopwatchTick pf now s))
  | pauseStopwatch (now : Int) (s : Store) :
      Step pf s (outcome (TimeTracker.pauseStopwatch pf now s))
  | stopStopwatch (now : Int) (formDescription : String) (s : Store) :
      Step pf s (outcome (TimeTracker.stopStopwatch pf now formDescription s))
  | resetStopwatch (s : Store) :
      Step pf s (outcome (TimeTracker.resetStopwatch s))
  | migrate (s : Store) :
      Step pf s (TimeTracker.migrate s)

/-- The states the application can be in, starting with empty storage. -/
inductive Reachable (pf : Platform) : Store → Prop where
  | init : Reachable pf emptyStore
  | step {s t : Store} : Reachable pf s → Step pf s t → Reachable pf t

/-- The store `t` differs from `s` at most in entries whose id is `id`: same ids
in the same order, every entry with another id unchanged at its position, and
the stopwatch fields unchanged. -/
def sameExceptEntry (id : Int) (s t : Store) : Prop :=
  t.entries.map (fun e => e.id) = s.entries.map (fun e => e.id) ∧
  (∀ (i : Nat) (e : Entry), s.entries[i]? = some e → e.id ≠ id → t.entries[i]? = some e) ∧
  t.stopwatchEntryId = s.stopwatchEntryId ∧
  t.stopwatchStartTime = s.stopwatchStartTime ∧
  t.stopwatchElapsed = s.stopwatchElapsed ∧
  t.stopwatchInterval = s.stopwatchInterval ∧
  t.isRunning = s.isRunning ∧
  t.isPaused = s.isPaused

/-- A platform in which local time is UTC; dates and weekday names are left
blank. -/
def utcPlatform : Platform :=
  { localTime := fun ts =>
      { hours := Fin.ofNat (ts.toNat / 3600000 % 24)
        minutes := Fin.ofNat (ts.toNat / 60000 % 60)
        seconds := Fin.ofNat (ts.toNat / 1000 % 60) }
    dateString := fun _ => ""
    weekday := fun _ => "" }

/-- The store after the stopwatch was started at 10:00:00 and ticked at
10:00:30, on the UTC platform. -/
def demoStopwatchStore : Store :=
  outcome (stopwatchTick utcPlatform 36030000 (startStopwatch utcPlatform 36000000 emptyStore))

/-- The entry the stopwatch tracks in `demoStopwatchStore`. -/
def demoStopwatchEntry : Entry :=
  { newStopwatchEntry utcPlatform 36000000 with
    timePeriods := some [{ startTime := "10:00", endTime := "10:00:30" }]
    duration := some
      { hours := 0, minutes := 0, seconds := 30, totalSeconds := some 30, totalMinutes := 0 } }

/-- A stopped entry with the given id and periods, as `addEntry` builds it. -/
def demoEntry (id : Int) (periods : List Period) : Entry :=
  { id := id
    date := "2024-01-01"
    day := "Monday"
    timePeriods := some periods
    duration := some (calculateDurationFromPeriods periods)
    description := "No description"
    timerState := some .stopped
    timerElapsed := 0
    timerStartTime := none
    timerActualStartTime := .null
    baseDurationMinutes := some 0
    stopwatchPeriodIndex := none
    completed := some false
    startTime := none
    endTime := none }

/-- A store holding the given entries and an idle stopwatch. -/
def storeOf (entries : List Entry) : Store :=
  { emptyStore with entries := entries }

/-- A record of an older schema: a one-hour duration, no periods, no timer
fields. -/
def legacyEntry : Entry :=
  { id := 7
    date := "2024-01-01"
    day := "Monday"
    timePeriods := none
    duration := some
      { hours := 1, minutes := 0, seconds := 0, totalSeconds := none, totalMinutes := 60 }
    description := "Legacy"
    timerState := none
    timerElapsed := 0
    timerStartTime := none
    timerActualStartTime := .undefined
    baseDurationMinutes := none
    stopwatchPeriodIndex := none
    completed := none
    startTime := none
    endTime := none }

/-- A record of an older schema whose timer was paused after five seconds and
that has no `timerActualStartTime`. -/
def legacyPausedEntry : Entry :=
  { demoEntry 8 [{ startTime := "09:00", endTime := "10:00" }] with
    timerState := some .paused
    timerElapsed := 5000
    timerActualStartTime := .undefined }

/-- The entry `a` may stand before `b` when entries are ordered by date
descending and, within a date, by `start` descending (strings compared by code
points). -/
def dateThenStartDesc (start : Entry → String) (a b : Entry) : Prop :=
  compare b.date a.date = .lt ∨ (a.date = b.date ∧ compare (start b) (start a) ≠ .gt)

instance (start : Entry → String) : DecidableRel (dateThenStartDesc start) := fun a b => by
  unfold dateThenStartDesc
  exact inferInstance

/-- The earliest period start of an entry, as `getEntryTimeRange` returns it. -/
def earliestStart (e : Entry) : String := (getEntryTimeRange e).startTime

/-- The entry object that `addEntry` builds from the form and the collected
periods. -/
def newEntry (pf : Platform) (now : Int) (form : EntryForm) (timePeriods : List Period) : Entry :=
  { id := now
    date := form.date
    day := pf.weekday form.date
    timePeriods := some timePeriods
    duration := some (calculateDurationFromPeriods timePeriods)
    description := descriptionOrDefault form.description
    timerState := some .stopped
    timerElapsed := 0
    timerStartTime := none
    timerActualStartTime := .null
    baseDurationMinutes := some
      (Int.fdiv ((calculateDurationFromPeriods timePeriods).totalSeconds.getD 0) 60)
    stopwatchPeriodIndex := none
    completed := some false
    startTime := none
    endTime := none }

/-- Three entries of two dates, used to illustrate `groupByDate`. -/
def demoEntries : List Entry :=
  [demoEntry 1 [{ startTime := "09:00", endTime := "12:00" }],
    { demoEntry 2 [{ startTime := "08:00", endTime := "09:00" }] with date := "2024-01-02" },
    demoEntry 3 [{ startTime := "10:00", endTime := "12:00" }]]

/-! ## Loading the store -/

/-- A document of the browser storage: its text, and what `JSON.parse` makes of
that text, `none` when `JSON.parse` throws a `SyntaxError`. -/
structure StoredDocument where
  text : String
  parsed : Option (List Entry)
deriving DecidableEq, Repr

/-- `loadEntries()`; `saved` is the value of
`localStorage.getItem('timeTrackerEntries')`, `none` for `null`. The result is
`none` when the exception of `JSON.parse` leaves the function. -/
def loadEntries (saved : Option StoredDocument) : Option (List Entry) :=
  match saved with
  | none => some []
  | some doc => if truthyStr doc.text then doc.parsed else some []

/-- The fields set by the constructor of `TimeTracker` before `initializeApp`
runs; `none` when `loadEntries` throws. -/
def newTimeTracker (saved : Option StoredDocument) : Option Store :=
  match loadEntries saved with
  | none => none
  | some entries => some { emptyStore with entries := entries }

/-! ## PTO ledger -/

/-- A PTO record `{ id, date, type, notes, createdAt }`. -/
structure PtoEntry where
  id : Int
  date : String
  type : String
  notes : String
  createdAt : String
deriving DecidableEq, Repr

/-- `entries.findIndex(entry => entry.date === date)`; `none` is `-1`. -/
def findIndexByDate (date : String) : List PtoEntry → Option Nat
  | [] => none
  | e :: es => if e.date = date then some 0 else (findIndexByDate date es).map (fun i => i + 1)

/-- `PtoTracker.saveEntry()` of `pto.js` on the entries of the loaded document,
with the confirmation prompt accepted whenever it is shown. `now` is
`Date.now()`, `nowIso` is `new Date().toISOString()`, `notes` is the trimmed
text of the notes field. -/
def saveEntry (editingId : Option Int) (now : Int) (nowIso : String)
    (date type notes : String) (entries : List PtoEntry) : List PtoEntry :=
  if !truthyStr date || !truthyStr type then entries
  else
    match findIndexByDate date entries with
    | some existingIndex =>
      match entries[existingIndex]? with
      | some existing =>
        entries.set existingIndex
          { id := if truthyNum editingId then editingId.getD 0 else existing.id
            date := date
            type := type
            notes := notes
            createdAt := existing.createdAt }
      | none => entries
    | none =>
      entries ++
        [{ id := if truthyNum editingId then editingId.getD 0 else now
           date := date
           type := type
           notes := notes
           createdAt := nowIso }]

/-- `addOrUpdatePtoEntry(date, type)` of `app.js` on the entries of the loaded
document, with the confirmation prompt accepted. -/
def addOrUpdatePtoEntry (now : Int) (nowIso : String) (date type : String)
    (entries : List PtoEntry) : List PtoEntry :=
  if !truthyStr date || !truthyStr type then entries
  else
    match findIndexByDate date entries with
    | some existingIndex =>
      match entries[existingIndex]? with
      | some existing =>
        entries.set existingIndex
          { id := existing.id
            date := date
            type := type
            notes := ""
            createdAt := existing.createdAt }
      | none => entries
    | none =>
      entries ++ [{ id := now, date := date, type := type, notes := "", createdAt := nowIso }]

/-- The entries of a PTO ledger recorded for the date `d`. -/
def entriesOn (d : String) (entries : List PtoEntry) : List PtoEntry :=
  entries.filter (fun e => e.date = d)

/-- At most one PTO entry per date. -/
def onePerDate (entries : List PtoEntry) : Prop :=
  (entries.map (fun e => e.date)).Nodup

instance : DecidablePred onePerDate := fun entries => by
  unfold onePerDate
  exact inferInstance

/-- The ledger `result` left by a save for the date `d` with the type `t` on
the ledger `es`: one entry per date, the entries of the other dates as they
were, a single entry for `d`, of type `t`; an entry that existed for `d` is
replaced in place and hands over its `createdAt`, the saved id is `idOf` of that
entry; without such an entry the saved entry is appended. -/
def ledgerAfterSave (d t : String) (idOf : PtoEntry → Int) (es result : List PtoEntry) : Prop :=
  onePerDate result ∧
  result.filter (fun e => e.date ≠ d) = es.filter (fun e => e.date ≠ d) ∧
  ∃ saved : PtoEntry,
    entriesOn d result = [saved] ∧ saved.type = t ∧
    (∀ ex ∈ es, ex.date = d →
      result.length = es.length ∧ saved.id = idOf ex ∧ saved.createdAt = ex.createdAt) ∧
    ((∀ ex ∈ es, ex.date ≠ d) → result = es ++ [saved])

/-- A ledger with a vacation day and a sick day. -/
def demoLedger : List PtoEntry :=
  [{ id := 1, date := "2024-06-01", type := "vacation", notes := "", createdAt := "A" },
    { id := 2, date := "2024-06-02", type := "sick", notes := "", createdAt := "B" }]

/-! ## Well-formed clock strings and tracked entries -/

/-- The text `H:M` or `H:M:S` built from its components. -/
def clockString (h m : List Char) (s : Option (List Char)) : String :=
  String.mk (h ++ ':' :: (m ++ match s with
    | none => []
    | some x => ':' :: x))

/-- The value of an optional seconds component; a missing one counts as 0. -/
def secondsComponent : Option (List Char) → Option Nat
  | none => some 0
  | some x => jsNumber x

/-- The bound under which the integer model is the arithmetic of the code:
integers of magnitude at most 2^53 are doubles, and their sums, differences and
floored quotients by 60 and 3600 are computed exactly. -/
def maxExactSeconds : Nat := 2 ^ 53

/-- The reading in seconds of a well-formed time string `H:M` or `H:M:S` whose
components are strings of decimal digits; `none` for every other string. -/
def clockSeconds (time : String) : Option Nat :=
  match splitOnColon time.data with
  | [h, m] =>
    match jsNumber h, jsNumber m with
    | some H, some M => some (3600 * H + 60 * M)
    | _, _ => none
  | [h, m, s] =>
    match jsNumber h, jsNumber m, jsNumber s with
    | some H, some M, some S => some (3600 * H + 60 * M + S)
    | _, _, _ => none
  | _ => none

/-- The sum of the start and end readings of the periods that
`calculateDurationFromPeriods` counts, those with both fields non-empty; `none`
when a field of a counted period is not a well-formed time string. Every partial
sum of the durations of these periods, taken in any order, has a magnitude of at
most this sum. -/
def readingsTotal : List Period → Option Nat
  | [] => some 0
  | p :: ps =>
    if truthyStr p.startTime && truthyStr p.endTime then
      match clockSeconds p.startTime, clockSeconds p.endTime, readingsTotal ps with
      | some a, some b, some r => some (a + b + r)
      | _, _, _ => none
    else readingsTotal ps

/-- The time of day that lies `n` seconds after midnight. -/
def timeOfSeconds (n : Nat) : TimeOfDay :=
  { hours := Fin.ofNat (n / 3600 % 24)
    minutes := Fin.ofNat (n / 60 % 60)
    seconds := Fin.ofNat (n % 60) }

/-- A start time as the application writes it: empty, or the zero-padded clock
string `HH:MM` (form inputs, stopwatch) or `HH:MM:SS` (timers) of a time of
day. -/
def clockStart (s : String) : Bool :=
  s == "" ||
    match clockSeconds s with
    | some n => s == formatHM (timeOfSeconds n) || s == formatHMS (timeOfSeconds n)
    | none => false

/-- Every start time that `getEntryTimeRange` may read from the entry, the
period starts and the legacy `startTime`, is a `clockStart`. -/
def clockStarts (e : Entry) : Bool :=
  (e.timePeriods.getD []).all (fun p => clockStart p.startTime) &&
    match e.startTime with
    | some s => clockStart s
    | none => true

/-- A period list with two counted periods, 09:00 to 10:30:15 and 13:00 to
13:45, and one skipped period. -/
def demoPeriods : List Period :=
  [{ startTime := "09:00", endTime := "10:30:15" }, { startTime := "", endTime := "11:00" },
    { startTime := "13:00", endTime := "13:45" }]

/-- A period list with the single period 14:00 to 14:30. -/
def demoAfternoon : List Period := [{ startTime := "14:00", endTime := "14:30" }]

/-- The period entered in a form through two `<input type="time">` controls
showing the clock readings `a` and `b`. -/
def hmPeriod (ab : TimeOfDay × TimeOfDay) : Period :=
  { startTime := formatHM ab.1, endTime := formatHM ab.2 }

/-- Every period of the entry has a strictly positive duration, and so has the
entry's stored total. -/
def positiveDurations (e : Entry) : Prop :=
  ∃ (P : List Period) (d : Duration), e.timePeriods = some P ∧ e.duration = some d ∧
    (∀ q ∈ P, ∃ n : Int,
      (calculateDuration q.startTime q.endTime).totalSeconds = some n ∧ 0 < n) ∧
    ∃ n : Int, d.totalSeconds = some n ∧ 0 < n

/-- A form with one period, 09:00 to 10:30. -/
def demoForm : EntryForm :=
  { date := "2024-01-01"
    description := ""
    periods := [{ startTime := "09:00", endTime := "10:30" }] }

/-- The clock readings shown by the two time inputs of `demoForm`. -/
def demoClock : List (TimeOfDay × TimeOfDay) :=
  [({ hours := 9, minutes := 0, seconds := 0 }, { hours := 10, minutes := 30, seconds := 0 })]

/-- The tracked entry is bound as `createStopwatchEntry` bound it: its period
index is 0, it has a period and a duration. -/
def stopwatchBound (e : Entry) : Prop :=
  e.stopwatchPeriodIndex = some 0 ∧ (∃ p ps, e.timePeriods = some (p :: ps)) ∧
    e.duration.isSome = true

/-- The list holds an entry with the id `id`, and the one found is bound. -/
def boundAt (id : Int) (es : List Entry) : Prop :=
  ∃ e, findEntry id es = some e ∧ stopwatchBound e

/-- A tracked id, that is a `stopwatchEntryId` that the code does not treat as
`null`, is the id of an entry of the store, and that entry is bound. -/
def trackedBound (s : Store) : Prop :=
  ∀ id, s.stopwatchEntryId = some id → id ≠ 0 → boundAt id s.entries

/-- The states reached from empty storage through steps that keep the entry ids
pairwise distinct. -/
inductive ReachableDistinct (pf : Platform) : Store → Prop where
  | init : ReachableDistinct pf emptyStore
  | step {s t : Store} : ReachableDistinct pf s → Step pf s t →
      (t.entries.map (fun e => e.id)).Nodup → ReachableDistinct pf t

/-! ## List lemmas -/

theorem mem_updateById {id : Int} {f : Entry → Entry} {es : List Entry} {e : Entry}
    (h : e ∈ updateById id f es) : e ∈ es ∨ ∃ e0 ∈ es, e0.id = id ∧ e = f e0 := by
  induction es with
  | nil => simp [updateById] at h
  | cons a as ih =>
    unfold updateById at h
    split at h
    · rename_i ha
      rcases List.mem_cons.mp h with h1 | h1
      · exact Or.inr ⟨a, List.mem_cons_self _ _, ha, h1⟩
      · exact Or.inl (List.mem_cons_of_mem _ h1)
    · rcases List.mem_cons.mp h with h1 | h1
      · exact Or.inl (h1 ▸ List.mem_cons_self _ _)
      · rcases ih h1 with h2 | ⟨e0, h2, h3, h4⟩
        · exact Or.inl (List.mem_cons_of_mem _ h2)
        · exact Or.inr ⟨e0, List.mem_cons_of_mem _ h2, h3, h4⟩

theorem forall_updateById {P : Entry → Prop} {id : Int} {f : Entry → Entry} {es : List Entry}
    (hf : ∀ e ∈ es, P e → P (f e)) (h : ∀ e ∈ es, P e) :
    ∀ e ∈ updateById id f es, P e := by
  intro e he
  rcases mem_updateById he with h1 | ⟨e0, h1, _, h3⟩
  · exact h e h1
  · exact h3 ▸ hf e0 h1 (h e0 h1)

theorem findEntry_some {id : Int} {es : List Entry} {e : Entry}
    (h : findEntry id es = some e) : e ∈ es ∧ e.id = id := by
  induction es with
  | nil => simp [findEntry] at h
  | cons a as ih =>
    unfold findEntry at h
    split at h
    · rename_i ha
      cases h
      exact ⟨List.mem_cons_self _ _, ha⟩
    · exact ⟨List.mem_cons_of_mem _ (ih h).1, (ih h).2⟩

theorem mem_removeById {id : Int} {es : List Entry} {e : Entry}
    (h : e ∈ removeById id es) : e ∈ es :=
  (List.mem_filter.mp h).1

/-! ## The duration invariant, operation by operation -/

theorem durationConsistent_recompute (e : Entry) : durationConsistent (recomputeDuration e) := by
  intro P hP hne
  unfold recomputeDuration at hP ⊢
  split at hP
  · rename_i p ps heq
    simp only at hP ⊢
    rw [heq] at hP
    cases hP
    rfl
  · rename_i hno
    cases P with
    | nil => exact absurd rfl hne
    | cons p ps => exact absurd hP (hno p ps)

theorem durationConsistent_startEntry (pf : Platform) (now : Int) (e : Entry)
    (h : durationConsistent e) : durationConsistent (startEntry pf now e) := h

theorem durationConsistent_pauseEntry (now : Int) (e : Entry)
    (h : durationConsistent e) : durationConsistent (pauseEntry now e) := by
  unfold pauseEntry
  split
  · exact h
  · exact durationConsistent_recompute _

theorem durationConsistent_resumeEntry (pf : Platform) (now : Int) (e : Entry)
    (h : durationConsistent e) : durationConsistent (resumeEntry pf now e) := by
  unfold resumeEntry
  split
  · exact h
  · split <;> exact h

theorem durationConsistent_stopEntry (pf : Platform) (now : Int) (e : Entry) :
    durationConsistent (stopEntry pf now e) :=
  durationConsistent_recompute _

theorem sumPeriods_same (t : String) : sumPeriods [{ startTime := t, endTime := t }] 0 = 0 := by
  simp [sumPeriods, calculateDuration, decompose]

theorem decompose_zero :
    decompose 0 =
      { hours := 0, minutes := 0, seconds := 0, totalSeconds := some 0, totalMinutes := 0 } := by
  decide

theorem durationConsistent_newStopwatchEntry (pf : Platform) (now : Int) :
    durationConsistent (newStopwatchEntry pf now) := by
  intro P hP _
  simp only [newStopwatchEntry, Option.some.injEq] at hP ⊢
  subst hP
  simp only [calculateDurationFromPeriods, sumPeriods_same, decompose_zero]

theorem durationConsistent_tickEntry (pf : Platform) (now : Int) (started : Option Int)
    (e e1 : Entry) (h : tickEntry pf now started e = some e1) : durationConsistent e1 := by
  unfold tickEntry at h
  simp only at h
  split at h
  · split at h
    · cases h
      intro P hP _
      simp only [Option.some.injEq] at hP
      subst hP
      rfl
    · cases h
  · cases h
    intro P hP _
    simp only [Option.some.injEq] at hP
    subst hP
    rfl

theorem storeConsistent_updateStopwatchEntry (pf : Platform) (now : Int) (s : Store)
    (h : storeConsistent s) : storeConsistent (outcome (updateStopwatchEntry pf now s)) := by
  unfold updateStopwatchEntry
  split
  · exact h
  · simp only
    split
    · exact h
    · rename_i entry _
      split
      · exact h
      · rename_i entry1 htick
        exact forall_updateById
          (fun _ _ _ => durationConsistent_tickEntry pf now _ entry entry1 htick) h

theorem storeConsistent_stopwatchTick (pf : Platform) (now : Int) (s : Store)
    (h : storeConsistent s) : storeConsistent (outcome (stopwatchTick pf now s)) := by
  unfold stopwatchTick
  split
  · exact storeConsistent_updateStopwatchEntry pf now _ h
  · exact h

theorem storeConsistent_pauseStopwatch (pf : Platform) (now : Int) (s : Store)
    (h : storeConsistent s) : storeConsistent (outcome (pauseStopwatch pf now s)) := by
  unfold pauseStopwatch
  split
  · exact h
  · exact storeConsistent_updateStopwatchEntry pf now _ h

theorem storeConsistent_stopStopwatch (pf : Platform) (now : Int) (d : String) (s : Store)
    (h : storeConsistent s) : storeConsistent (outcome (stopStopwatch pf now d s)) := by
  unfold stopStopwatch
  split
  · exact h
  · simp only
    split
    · exact h
    · have h2 : storeConsistent
          (if (truthyStr d && d != "" && d != "Stopwatch Entry") = true then
            { s with
              isRunning := false, isPaused := false, stopwatchInterval := false
              entries := updateById (s.stopwatchEntryId.getD 0)
                (fun e => { e with description := d }) s.entries }
          else { s with isRunning := false, isPaused := false, stopwatchInterval := false }) := by
        split
        · exact forall_updateById (fun _ _ he => he) h
        · exact h
      have h3 := storeConsistent_updateStopwatchEntry pf now _ h2
      revert h3
      generalize updateStopwatchEntry pf now _ = r
      intro h3
      cases r with
      | error s3 => exact h3
      | ok s3 => exact h3

theorem storeConsistent_resetStopwatch (s : Store)
    (h : storeConsistent s) : storeConsistent (outcome (resetStopwatch s)) := by
  unfold resetStopwatch
  simp only
  split
  · split
    · exact h
    · split
      · exact h
      · simp only [outcome]
        split
        · exact fun e he => h e (mem_removeById he)
        · exact h
  · exact h

theorem storeConsistent_stopEntryTimer (pf : Platform) (now : Int) (id : Int) (s : Store)
    (h : storeConsistent s) : storeConsistent (stopEntryTimer pf now id s) :=
  forall_updateById (fun e _ _ => durationConsistent_stopEntry pf now e) h

theorem storeConsistent_deleteEntry (pf : Platform) (now : Int) (id : Int) (s : Store)
    (h : storeConsistent s) : storeConsistent (outcome (deleteEntry pf now id s)) := by
  have h1 : storeConsistent (stopIfRunning pf now id s) := by
    unfold stopIfRunning
    split
    · split
      · exact storeConsistent_stopEntryTimer pf now id s h
      · exact h
    · exact h
  have h2 : storeConsistent (outcome (resetIfTracked id (stopIfRunning pf now id s))) := by
    unfold resetIfTracked
    split
    · exact storeConsistent_resetStopwatch _ h1
    · exact h1
  unfold deleteEntry
  revert h2
  generalize resetIfTracked id (stopIfRunning pf now id s) = r
  intro h2
  cases r with
  | error s2 => exact h2
  | ok s2 => exact fun e he => h2 e (mem_removeById he)

theorem storeConsistent_startStopwatch (pf : Platform) (now : Int) (s : Store)
    (h : storeConsistent s) : storeConsistent (startStopwatch pf now s) := by
  unfold startStopwatch
  split
  · exact h
  · simp only
    split
    · intro e he
      simp only [createStopwatchEntry, List.mem_append, List.mem_singleton] at he
      rcases he with he | he
      · exact h e he
      · exact he ▸ durationConsistent_newStopwatchEntry pf now
    · exact h

theorem mem_addEntry (pf : Platform) (now : Int) (form : EntryForm) (s : Store) (e : Entry)
    (he : e ∈ (addEntry pf now form s).entries) : e ∈ s.entries ∨ durationConsistent e := by
  unfold addEntry at he
  split at he
  · exact Or.inl he
  · exact Or.inl he
  · simp only [sortEntries] at he
    have he2 := (List.perm_insertionSort entryLe _).mem_iff.mp he
    rcases List.mem_append.mp he2 with h1 | h1
    · exact Or.inl h1
    · right
      rw [List.mem_singleton.mp h1]
      intro P hP _
      simp only [Option.some.injEq] at hP
      subst hP
      rfl

theorem storeConsistent_addEntry (pf : Platform) (now : Int) (form : EntryForm) (s : Store)
    (h : storeConsistent s) : storeConsistent (addEntry pf now form s) := by
  intro e he
  rcases mem_addEntry pf now form s e he with h1 | h1
  · exact h e h1
  · exact h1

theorem mem_saveInlineEdit (pf : Platform) (id : Int) (form : EntryForm) (s : Store) (e : Entry)
    (he : e ∈ (saveInlineEdit pf id form s).entries) : e ∈ s.entries ∨ durationConsistent e := by
  unfold saveInlineEdit at he
  split at he
  · exact Or.inl he
  · split at he
    · exact Or.inl he
    · exact Or.inl he
    · rcases mem_updateById he with h1 | ⟨e0, _, _, h3⟩
      · exact Or.inl h1
      · right
        rw [h3]
        intro P hP _
        simp only [Option.some.injEq] at hP
        subst hP
        rfl

theorem storeConsistent_saveInlineEdit (pf : Platform) (id : Int) (form : EntryForm) (s : Store)
    (h : storeConsistent s) : storeConsistent (saveInlineEdit pf id form s) := by
  intro e he
  rcases mem_saveInlineEdit pf id form s e he with h1 | h1
  · exact h e h1
  · exact h1

theorem durationConsistent_congr {e e1 : Entry} (h : durationConsistent e)
    (h1 : e1.timePeriods = e.timePeriods) (h2 : e1.duration = e.duration) :
    durationConsistent e1 := by
  intro P hP hne
  rw [h2]
  exact h P (h1 ▸ hP) hne

theorem durationConsistent_migrateTimer (e : Entry) (h : durationConsistent e) :
    durationConsistent (migrateTimer e) := by
  unfold migrateTimer
  split
  · exact durationConsistent_congr h rfl rfl
  · exact h

theorem durationConsistent_migrateActualStart (e : Entry) (h : durationConsistent e) :
    durationConsistent (migrateActualStart e) := by
  unfold migrateActualStart
  split
  · exact durationConsistent_congr h rfl rfl
  · exact h

theorem durationConsistent_migrateBase (e : Entry) (h : durationConsistent e) :
    durationConsistent (migrateBase e) := by
  unfold migrateBase
  split
  · exact durationConsistent_congr h rfl rfl
  · exact h

theorem durationConsistent_migratePeriods (e : Entry) (h : durationConsistent e) :
    durationConsistent (migratePeriods e) := by
  unfold migratePeriods
  split
  · exact h
  · split
    · intro P hP _
      simp only [Option.some.injEq] at hP
      subst hP
      rfl
    · intro P hP hne
      simp only [Option.some.injEq] at hP
      exact absurd hP.symm hne

theorem durationConsistent_migrateCompleted (e : Entry) (h : durationConsistent e) :
    durationConsistent (migrateCompleted e) := by
  unfold migrateCompleted
  split
  · exact durationConsistent_congr h rfl rfl
  · exact h

theorem durationConsistent_migrateEntry (e : Entry) (h : durationConsistent e) :
    durationConsistent (migrateEntry e) :=
  durationConsistent_migrateCompleted _ (durationConsistent_migratePeriods _
    (durationConsistent_migrateBase _ (durationConsistent_migrateActualStart _
      (durationConsistent_migrateTimer e h))))

theorem durationConsistent_migratePeriods_of_none (e : Entry) (h : e.timePeriods = none) :
    durationConsistent (migratePeriods e) := by
  unfold migratePeriods
  rw [h]
  simp only
  split
  · intro P hP _
    simp only [Option.some.injEq] at hP
    subst hP
    rfl
  · intro P hP hne
    simp only [Option.some.injEq] at hP
    exact absurd hP.symm hne

theorem migrate_prefix_timePeriods (e : Entry) :
    (migrateBase (migrateActualStart (migrateTimer e))).timePeriods = e.timePeriods := by
  unfold migrateBase migrateActualStart migrateTimer
  split <;> split <;> split <;> rfl

theorem durationConsistent_migrateEntry_of_none (e : Entry) (h : e.timePeriods = none) :
    durationConsistent (migrateEntry e) :=
  durationConsistent_migrateCompleted _
    (durationConsistent_migratePeriods_of_none _ ((migrate_prefix_timePeriods e).trans h))

theorem storeConsistent_migrate (s : Store) (h : storeConsistent s) :
    storeConsistent (migrate s) := by
  intro e he
  simp only [migrate, List.mem_map] at he
  obtain ⟨e0, h0, rfl⟩ := he
  exact durationConsistent_migrateEntry e0 (h e0 h0)

theorem storeConsistent_step (pf : Platform) {s t : Store} (hstep : Step pf s t)
    (h : storeConsistent s) : storeConsistent t := by
  cases hstep with
  | addEntry now form => exact storeConsistent_addEntry pf now form s h
  | saveInlineEdit id form => exact storeConsistent_saveInlineEdit pf id form s h
  | toggleCompletion id => exact forall_updateById (fun _ _ he => he) h
  | deleteEntry now id => exact storeConsistent_deleteEntry pf now id s h
  | startEntryTimer now id =>
    exact forall_updateById (fun e _ he => durationConsistent_startEntry pf now e he) h
  | pauseEntryTimer now id =>
    exact forall_updateById (fun e _ he => durationConsistent_pauseEntry now e he) h
  | resumeEntryTimer now id =>
    exact forall_updateById (fun e _ he => durationConsistent_resumeEntry pf now e he) h
  | stopEntryTimer now id => exact storeConsistent_stopEntryTimer pf now id s h
  | startStopwatch now => exact storeConsistent_startStopwatch pf now s h
  | stopwatchTick now => exact storeConsistent_stopwatchTick pf now s h
  | pauseStopwatch now => exact storeConsistent_pauseStopwatch pf now s h
  | stopStopwatch now d => exact storeConsistent_stopStopwatch pf now d s h
  | resetStopwatch => exact storeConsistent_resetStopwatch s h
  | migrate => exact storeConsistent_migrate s h

theorem sumPeriods_acc (P : List Period) (acc : Int) :
    sumPeriods P acc = acc +
      ((P.filter (fun p => truthyStr p.startTime && truthyStr p.endTime)).map
        (fun p => ((calculateDuration p.startTime p.endTime).totalSeconds).getD 0)).sum := by
  induction P generalizing acc with
  | nil => simp [sumPeriods]
  | cons p ps ih =>
    unfold sumPeriods
    by_cases hp : (truthyStr p.startTime && truthyStr p.endTime) = true
    · rw [if_pos hp, ih, List.filter_cons, if_pos hp, List.map_cons, List.sum_cons]
      omega
    · rw [if_neg hp, ih, List.filter_cons, if_neg hp]

theorem reachable_storeConsistent (pf : Platform) (s : Store) (hs : Reachable pf s) :
    storeConsistent s := by
  induction hs with
  | init => intro e he; simp [emptyStore] at he
  | step _ hstep ih => exact storeConsistent_step pf hstep ih

/-! ## Clock strings -/

theorem pad2_facts : ∀ n, n < 60 → ':' ∉ (pad2 n).data ∧ jsNumber (pad2 n).data = some n := by
  decide

theorem splitOnColon_ne_nil (l : List Char) : splitOnColon l ≠ [] := by
  cases l with
  | nil => simp [splitOnColon]
  | cons c cs =>
    unfold splitOnColon
    split
    · simp
    · split <;> simp

theorem splitOnColon_of_not_mem (l : List Char) (h : ':' ∉ l) : splitOnColon l = [l] := by
  induction l with
  | nil => rfl
  | cons c cs ih =>
    have hc : c ≠ ':' := fun hc => h (hc ▸ List.mem_cons_self _ _)
    have hcs : ':' ∉ cs := fun hcs => h (List.mem_cons_of_mem _ hcs)
    rw [splitOnColon, if_neg hc, ih hcs]

theorem splitOnColon_append (l rest : List Char) (h : ':' ∉ l) :
    splitOnColon (l ++ ':' :: rest) = l :: splitOnColon rest := by
  induction l with
  | nil => simp [splitOnColon]
  | cons c cs ih =>
    have hc : c ≠ ':' := fun hc => h (hc ▸ List.mem_cons_self _ _)
    have hcs : ':' ∉ cs := fun hcs => h (List.mem_cons_of_mem _ hcs)
    rw [List.cons_append, splitOnColon, if_neg hc, ih hcs]

theorem formatHMS_data (t : TimeOfDay) :
    (formatHMS t).data =
      (pad2 t.hours.val).data ++ ':' :: ((pad2 t.minutes.val).data ++ ':' :: (pad2 t.seconds.val).data) := by
  simp [formatHMS, String.data_append]

theorem splitOnColon_formatHMS (t : TimeOfDay) :
    splitOnColon (formatHMS t).data =
      [(pad2 t.hours.val).data, (pad2 t.minutes.val).data, (pad2 t.seconds.val).data] := by
  have hh := (pad2_facts t.hours.val (by omega)).1
  have hm := (pad2_facts t.minutes.val (by omega)).1
  have hs := (pad2_facts t.seconds.val (by omega)).1
  rw [formatHMS_data, splitOnColon_append _ _ hh, splitOnColon_append _ _ hm,
    splitOnColon_of_not_mem _ hs]

theorem timeToSeconds_formatHMS (t : TimeOfDay) :
    timeToSeconds (formatHMS t) = secondsOfDay t := by
  have hh := (pad2_facts t.hours.val (by omega)).2
  have hm := (pad2_facts t.minutes.val (by omega)).2
  have hs := (pad2_facts t.seconds.val (by omega)).2
  simp only [timeToSeconds, splitOnColon_formatHMS, component, secondsOfDay]
  simp [hh, hm, hs]
  ring

theorem truthyStr_formatHMS (t : TimeOfDay) : truthyStr (formatHMS t) = true := by
  have h : formatHMS t ≠ "" := by
    intro h
    have h2 := congrArg String.data h
    rw [formatHMS_data] at h2
    simp at h2
  simp [truthyStr, h]

theorem length_splitOnColon_formatHMS (t : TimeOfDay) :
    (splitOnColon (formatHMS t).data).length = 3 := by
  rw [splitOnColon_formatHMS]
  rfl

/-! ## Lookup after an in-place update -/

theorem findEntry_updateById (id : Int) (f : Entry → Entry) (hf : ∀ e, (f e).id = e.id)
    (es : List Entry) : findEntry id (updateById id f es) = (findEntry id es).map f := by
  induction es with
  | nil => rfl
  | cons a as ih =>
    by_cases ha : a.id = id
    · have hfa : (f a).id = id := (hf a).trans ha
      simp [updateById, findEntry, ha, hfa]
    · simp [updateById, findEntry, ha, ih]

theorem updateById_eq_self (id : Int) (f : Entry → Entry) (es : List Entry)
    (h : ∀ e, findEntry id es = some e → f e = e) : updateById id f es = es := by
  induction es with
  | nil => rfl
  | cons a as ih =>
    by_cases ha : a.id = id
    · have := h a (by simp [findEntry, ha])
      simp [updateById, ha, this]
    · have h2 : ∀ e, findEntry id as = some e → f e = e := by
        intro e he
        exact h e (by simp [findEntry, ha, he])
      simp [updateById, ha, ih h2]

theorem map_id_updateById (id : Int) (f : Entry → Entry) (hf : ∀ e, (f e).id = e.id)
    (es : List Entry) : (updateById id f es).map (fun e => e.id) = es.map (fun e => e.id) := by
  induction es with
  | nil => rfl
  | cons a as ih =>
    by_cases ha : a.id = id
    · simp [updateById, ha, hf a]
    · simp [updateById, ha, ih]

theorem getElem?_updateById_of_ne (id : Int) (f : Entry → Entry) (es : List Entry) (i : Nat)
    (e : Entry) (h : es[i]? = some e) (hne : e.id ≠ id) : (updateById id f es)[i]? = some e := by
  induction es generalizing i with
  | nil => simp at h
  | cons a as ih =>
    by_cases ha : a.id = id
    · cases i with
      | zero =>
        simp at h
        exact absurd (h ▸ ha) hne
      | succ k =>
        simp at h
        simp [updateById, ha, h]
    · cases i with
      | zero =>
        simp at h
        subst h
        simp [updateById, ha]
      | succ k =>
        simp at h
        simp [updateById, ha, ih k h]

theorem recomputeDuration_of_ne_nil {e : Entry} {Q : List Period} (h : e.timePeriods = some Q)
    (hne : Q ≠ []) :
    recomputeDuration e = { e with duration := some (calculateDurationFromPeriods Q) } := by
  cases Q with
  | nil => exact absurd rfl hne
  | cons p ps => simp [recomputeDuration, h]

theorem recomputeDuration_of_empty {e : Entry}
    (h : e.timePeriods = none ∨ e.timePeriods = some []) : recomputeDuration e = e := by
  rcases h with h | h <;> simp [recomputeDuration, h]

theorem startEntry_id (pf : Platform) (now : Int) (e : Entry) : (startEntry pf now e).id = e.id :=
  rfl

theorem pauseEntry_id (now : Int) (e : Entry) : (pauseEntry now e).id = e.id := by
  unfold pauseEntry recomputeDuration
  split
  · rfl
  · simp only
    split <;> split <;> rfl

theorem resumeEntry_id (pf : Platform) (now : Int) (e : Entry) :
    (resumeEntry pf now e).id = e.id := by
  unfold resumeEntry
  split
  · rfl
  · simp only
    split <;> rfl

/-! ## Entry-level facts about pause and stop -/

theorem pauseEntry_timePeriods (now : Int) (e : Entry) :
    (pauseEntry now e).timePeriods = e.timePeriods := by
  unfold pauseEntry recomputeDuration
  split
  · rfl
  · simp only
    split <;> split <;> simp_all

theorem pauseEntry_duration_of_empty (now : Int) (e : Entry)
    (h : e.timePeriods = none ∨ e.timePeriods = some []) :
    (pauseEntry now e).duration = e.duration := by
  unfold pauseEntry
  split
  · rfl
  · simp only
    rw [recomputeDuration_of_empty]
    · split <;> rfl
    · split <;> exact h

theorem recomputeDuration_eq (e : Entry) :
    recomputeDuration e = { e with duration := (recomputeDuration e).duration } := by
  unfold recomputeDuration
  split <;> rfl

theorem foldRunning_eq (now : Int) (e : Entry) :
    foldRunning now e = { e with timerElapsed := (foldRunning now e).timerElapsed } := by
  unfold foldRunning
  split <;> rfl

theorem flushPeriod_of_truthy (pf : Platform) (now : Int) (e : Entry) (actual : String)
    (h : e.timerActualStartTime = .val actual) (ht : truthyStr actual = true) :
    flushPeriod pf now e =
      { e with
        timePeriods := some (e.timePeriods.getD [] ++
          [{ startTime := stopStartTime pf now e actual
             endTime := formatHMS (pf.localTime now) }])
        timerActualStartTime := .null
        timerElapsed := 0 } := by
  unfold flushPeriod
  rw [h]
  simp [ht]

theorem flushPeriod_of_not_truthy (pf : Platform) (now : Int) (e : Entry)
    (h : e.timerActualStartTime.truthy = false) : flushPeriod pf now e = e := by
  unfold flushPeriod
  split
  · rename_i actual heq
    rw [heq] at h
    simp only [Nullable.truthy] at h
    simp [h]
  · rfl

theorem actualStart_cases (e : Entry) :
    (∃ actual, e.timerActualStartTime = .val actual ∧ truthyStr actual = true) ∨
      e.timerActualStartTime.truthy = false := by
  cases h : e.timerActualStartTime with
  | undefined => exact Or.inr rfl
  | null => exact Or.inr rfl
  | val a =>
    cases ht : truthyStr a with
    | true => exact Or.inl ⟨a, rfl, ht⟩
    | false => exact Or.inr (by simp [Nullable.truthy, ht])

theorem stopEntry_id (pf : Platform) (now : Int) (e : Entry) : (stopEntry pf now e).id = e.id := by
  unfold stopEntry
  simp only
  rw [recomputeDuration_eq]
  rcases actualStart_cases (foldRunning now e) with ⟨a, h1, h2⟩ | h
  · rw [flushPeriod_of_truthy pf now _ a h1 h2, foldRunning_eq]
  · rw [flushPeriod_of_not_truthy pf now _ h, foldRunning_eq]

theorem stopEntry_duration_of_empty (pf : Platform) (now : Int) (e : Entry)
    (h : (stopEntry pf now e).timePeriods = none ∨ (stopEntry pf now e).timePeriods = some []) :
    (stopEntry pf now e).duration = e.duration := by
  unfold stopEntry at h ⊢
  simp only at h ⊢
  rw [recomputeDuration_eq] at h
  simp only at h
  rw [recomputeDuration_of_empty h]
  rcases actualStart_cases (foldRunning now e) with ⟨a, h1, h2⟩ | h3
  · rw [flushPeriod_of_truthy pf now _ a h1 h2] at h
    simp at h
  · rw [flushPeriod_of_not_truthy pf now _ h3, foldRunning_eq]

theorem stopEntry_of_truthy (pf : Platform) (now : Int) (e : Entry) (actual : String)
    (h : e.timerActualStartTime = .val actual) (ht : truthyStr actual = true) :
    stopEntry pf now e =
      { e with
        timePeriods := some (e.timePeriods.getD [] ++
          [{ startTime := stopStartTime pf now (foldRunning now e) actual
             endTime := formatHMS (pf.localTime now) }])
        duration := some (calculateDurationFromPeriods (e.timePeriods.getD [] ++
          [{ startTime := stopStartTime pf now (foldRunning now e) actual
             endTime := formatHMS (pf.localTime now) }]))
        timerActualStartTime := .null
        timerElapsed := 0
        timerState := some .stopped
        timerStartTime := none } := by
  have h1 : (foldRunning now e).timerActualStartTime = .val actual := by
    rw [foldRunning_eq]
    exact h
  have h2 : (foldRunning now e).timePeriods = e.timePeriods := by
    rw [foldRunning_eq]
  unfold stopEntry
  simp only
  rw [flushPeriod_of_truthy pf now _ actual h1 ht,
    recomputeDuration_of_ne_nil (Q := e.timePeriods.getD [] ++
      [{ startTime := stopStartTime pf now (foldRunning now e) actual
         endTime := formatHMS (pf.localTime now) }]) (by simp only [h2]) (by simp)]
  simp only [h2]
  rw [foldRunning_eq]

theorem stopEntry_of_not_truthy (pf : Platform) (now : Int) (e : Entry)
    (h : e.timerActualStartTime.truthy = false) :
    stopEntry pf now e =
      { recomputeDuration (foldRunning now e) with
        timerState := some .stopped, timerStartTime := none } := by
  have h1 : (foldRunning now e).timerActualStartTime.truthy = false := by
    rw [foldRunning_eq]
    exact h
  unfold stopEntry
  simp only
  rw [flushPeriod_of_not_truthy pf now _ h1]

theorem stopStartTime_of_length_ne (pf : Platform) (now : Int) (e : Entry) (actual : String)
    (h : (splitOnColon actual.data).length ≠ 2) : stopStartTime pf now e actual = actual := by
  unfold stopStartTime
  rw [if_neg h]

theorem sumPeriods_append_singleton (P : List Period) (a b : String)
    (ha : truthyStr a = true) (hb : truthyStr b = true) :
    sumPeriods (P ++ [{ startTime := a, endTime := b }]) 0 =
      sumPeriods P 0 + (timeToSeconds b - timeToSeconds a) := by
  rw [sumPeriods_acc, sumPeriods_acc P]
  simp [List.filter_append, List.filter_cons, ha, hb, calculateDuration, decompose]

theorem recomputeDuration_duration_congr (e e1 : Entry) (h : e1.timePeriods = e.timePeriods)
    (hd : e1.duration = e.duration) :
    (recomputeDuration e1).duration = (recomputeDuration e).duration := by
  unfold recomputeDuration
  rw [h]
  split <;> simp [hd]

theorem pauseEntry_running (now : Int) (e : Entry) (st : Int)
    (h : e.timerState = some .running) (hs : e.timerStartTime = some st) (h0 : st ≠ 0) :
    pauseEntry now e =
      { e with
        timerElapsed := e.timerElapsed + (now - st)
        timerStartTime := none
        duration := (recomputeDuration e).duration
        timerState := some .paused } := by
  unfold pauseEntry
  rw [if_neg (not_not.mpr h)]
  have ht : truthyNum e.timerStartTime = true := by simp [hs, truthyNum, h0]
  have hd := recomputeDuration_duration_congr e
    { e with timerElapsed := e.timerElapsed + (now - st), timerStartTime := none } rfl rfl
  simp only [ht, if_true]
  rw [recomputeDuration_eq]
  simp only [hs, Option.getD_some, hd]

theorem sameExceptEntry_updateById (id : Int) (f : Entry → Entry)
    (hf : ∀ e, (f e).id = e.id) (s : Store) :
    sameExceptEntry id s { s with entries := updateById id f s.entries } :=
  ⟨map_id_updateById id f hf s.entries,
    fun i e h hne => getElem?_updateById_of_ne id f s.entries i e h hne,
    rfl, rfl, rfl, rfl, rfl, rfl⟩

theorem findEntry_filter_ne (id : Int) (es : List Entry) :
    findEntry id (es.filter (fun x => x.id != id)) = none := by
  induction es with
  | nil => rfl
  | cons a as ih =>
    by_cases ha : a.id = id
    · simp [List.filter_cons, ha, ih]
    · simp [List.filter_cons, ha, findEntry, ih]

theorem findEntry_updateById_of (id : Int) (f : Entry → Entry)
    (hf : ∀ e, e.id = id → (f e).id = id) (es : List Entry) :
    findEntry id (updateById id f es) = (findEntry id es).map f := by
  induction es with
  | nil => rfl
  | cons a as ih =>
    by_cases ha : a.id = id
    · simp [updateById, findEntry, ha, hf a ha]
    · simp [updateById, findEntry, ha, ih]

theorem map_id_updateById_of (id : Int) (f : Entry → Entry)
    (hf : ∀ e, e.id = id → (f e).id = id) (es : List Entry) :
    (updateById id f es).map (fun e => e.id) = es.map (fun e => e.id) := by
  induction es with
  | nil => rfl
  | cons a as ih =>
    by_cases ha : a.id = id
    · simp [updateById, ha, hf a ha]
    · simp [updateById, ha, ih]

theorem sameExceptEntry_updateById_of (id : Int) (f : Entry → Entry)
    (hf : ∀ e, e.id = id → (f e).id = id) (s : Store) :
    sameExceptEntry id s { s with entries := updateById id f s.entries } :=
  ⟨map_id_updateById_of id f hf s.entries,
    fun i e h hne => getElem?_updateById_of_ne id f s.entries i e h hne,
    rfl, rfl, rfl, rfl, rfl, rfl⟩

/-! ## Migration blocks -/

theorem migrateTimer_eq (e : Entry) :
    migrateTimer e =
      { e with
        timerState := (migrateTimer e).timerState
        timerElapsed := (migrateTimer e).timerElapsed
        timerStartTime := (migrateTimer e).timerStartTime
        timerActualStartTime := (migrateTimer e).timerActualStartTime } := by
  unfold migrateTimer
  split <;> rfl

theorem migrateActualStart_eq (e : Entry) :
    migrateActualStart e =
      { e with timerActualStartTime := (migrateActualStart e).timerActualStartTime } := by
  unfold migrateActualStart
  split <;> rfl

theorem migrateBase_eq (e : Entry) :
    migrateBase e = { e with baseDurationMinutes := (migrateBase e).baseDurationMinutes } := by
  unfold migrateBase
  split <;> rfl

theorem migratePeriods_eq (e : Entry) :
    migratePeriods e =
      { e with
        timePeriods := (migratePeriods e).timePeriods
        duration := (migratePeriods e).duration } := by
  unfold migratePeriods
  split
  · rfl
  · split <;> rfl

theorem migrateCompleted_eq (e : Entry) :
    migrateCompleted e = { e with completed := (migrateCompleted e).completed } := by
  unfold migrateCompleted
  split <;> rfl

theorem migrateTimer_timerState (e : Entry) : (migrateTimer e).timerState.isNone = false := by
  unfold migrateTimer
  cases h : e.timerState <;> simp [h]

theorem migrateActualStart_ne (e : Entry) :
    (migrateActualStart e).timerActualStartTime ≠ .undefined := by
  unfold migrateActualStart
  split
  · simp
  · assumption

theorem migrateBase_isSome (e : Entry) : (migrateBase e).baseDurationMinutes.isNone = false := by
  unfold migrateBase
  cases h : e.baseDurationMinutes <;> simp [h]

theorem migratePeriods_isSome (e : Entry) : (migratePeriods e).timePeriods.isSome = true := by
  unfold migratePeriods
  split
  · rename_i h
    simp [h]
  · split <;> rfl

theorem migrateCompleted_isSome (e : Entry) : (migrateCompleted e).completed.isNone = false := by
  unfold migrateCompleted
  cases h : e.completed <;> simp [h]

theorem migrateTimer_of_some (e : Entry) (h : e.timerState.isNone = false) :
    migrateTimer e = e := by
  unfold migrateTimer
  simp [h]

theorem migrateActualStart_of_ne (e : Entry) (h : e.timerActualStartTime ≠ .undefined) :
    migrateActualStart e = e := by
  unfold migrateActualStart
  rw [if_neg h]

theorem migrateBase_of_some (e : Entry) (h : e.baseDurationMinutes.isNone = false) :
    migrateBase e = e := by
  unfold migrateBase
  simp [h]

theorem migratePeriods_of_some (e : Entry) (h : e.timePeriods.isSome = true) :
    migratePeriods e = e := by
  unfold migratePeriods
  cases hp : e.timePeriods with
  | none => simp [hp] at h
  | some P => rfl

theorem migrateCompleted_of_some (e : Entry) (h : e.completed.isNone = false) :
    migrateCompleted e = e := by
  unfold migrateCompleted
  simp [h]

theorem migrateEntry_fixed (e : Entry) :
    (migrateEntry e).timerState.isNone = false ∧
    (migrateEntry e).timerActualStartTime ≠ .undefined ∧
    (migrateEntry e).baseDurationMinutes.isNone = false ∧
    (migrateEntry e).timePeriods.isSome = true ∧
    (migrateEntry e).completed.isNone = false := by
  unfold migrateEntry
  refine ⟨?_, ?_, ?_, ?_, ?_⟩
  · rw [migrateCompleted_eq, migratePeriods_eq, migrateBase_eq, migrateActualStart_eq]
    exact migrateTimer_timerState e
  · rw [migrateCompleted_eq, migratePeriods_eq, migrateBase_eq]
    exact migrateActualStart_ne _
  · rw [migrateCompleted_eq, migratePeriods_eq]
    exact migrateBase_isSome _
  · rw [migrateCompleted_eq]
    exact migratePeriods_isSome _
  · exact migrateCompleted_isSome _

/-! ## The dedup key is unambiguous -/

theorem hexVal_hexDigit : ∀ n, n < 16 → hexVal (hexDigit n) = n := by
  decide

theorem jsonUnescape_jsonEscape (c : Char) (rest : List Char) :
    jsonUnescape (jsonEscape c ++ rest) = some (c, rest) := by
  unfold jsonEscape
  split_ifs with h1 h2 h3 h4 h5 h6 h7 h8
  · subst h1; rfl
  · subst h2; rfl
  · subst h3; rfl
  · subst h4; rfl
  · subst h5; rfl
  · subst h6; rfl
  · subst h7; rfl
  · have hd : c.toNat / 16 < 16 := by omega
    have hm : c.toNat % 16 < 16 := by omega
    have hu : jsonUnescape ('\\' :: 'u' :: '0' :: '0' :: hexDigit (c.toNat / 16) ::
        hexDigit (c.toNat % 16) :: rest) =
        some (Char.ofNat (16 * hexVal (hexDigit (c.toNat / 16)) +
          hexVal (hexDigit (c.toNat % 16))), rest) := rfl
    show jsonUnescape ('\\' :: 'u' :: '0' :: '0' :: hexDigit (c.toNat / 16) ::
        hexDigit (c.toNat % 16) :: rest) = some (c, rest)
    rw [hu, hexVal_hexDigit _ hd, hexVal_hexDigit _ hm, Nat.div_add_mod, Char.ofNat_toNat]
  · show jsonUnescape (c :: rest) = some (c, rest)
    simp only [jsonUnescape, if_neg h2]

theorem jsonEscape_append_inj (c d : Char) (r1 r2 : List Char)
    (h : jsonEscape c ++ r1 = jsonEscape d ++ r2) : c = d ∧ r1 = r2 := by
  have h2 := congrArg jsonUnescape h
  rw [jsonUnescape_jsonEscape, jsonUnescape_jsonEscape] at h2
  simpa using h2

theorem jsonEscape_append_ne_quote (c : Char) (r1 r2 : List Char) :
    jsonEscape c ++ r1 ≠ '"' :: r2 := by
  intro h
  have h2 := congrArg jsonUnescape h
  rw [jsonUnescape_jsonEscape] at h2
  have h3 : jsonUnescape ('"' :: r2) = some ('"', r2) := rfl
  rw [h3] at h2
  simp only [Option.some.injEq, Prod.mk.injEq] at h2
  obtain ⟨hc, _⟩ := h2
  subst hc
  have h4 : jsonEscape '"' = ['\\', '"'] := rfl
  rw [h4] at h
  simp at h

theorem jsonBody_cancel (a b : List Char) (r1 r2 : List Char)
    (h : jsonBody a ++ '"' :: r1 = jsonBody b ++ '"' :: r2) : a = b ∧ r1 = r2 := by
  induction a generalizing b with
  | nil =>
    cases b with
    | nil => simpa [jsonBody] using h
    | cons d ds =>
      simp only [jsonBody, List.nil_append, List.append_assoc] at h
      exact absurd h.symm (jsonEscape_append_ne_quote d _ _)
  | cons c cs ih =>
    cases b with
    | nil =>
      simp only [jsonBody, List.nil_append, List.append_assoc] at h
      exact absurd h (jsonEscape_append_ne_quote c _ _)
    | cons d ds =>
      simp only [jsonBody, List.append_assoc] at h
      obtain ⟨hcd, hrest⟩ := jsonEscape_append_inj c d _ _ h
      obtain ⟨h1, h2⟩ := ih ds hrest
      exact ⟨by rw [hcd, h1], h2⟩

theorem jsonQuote_cancel (a b : String) (r1 r2 : List Char)
    (h : jsonQuote a ++ r1 = jsonQuote b ++ r2) : a = b ∧ r1 = r2 := by
  simp only [jsonQuote, List.cons_append, List.append_assoc, List.cons.injEq, true_and,
    List.singleton_append] at h
  obtain ⟨h1, h2⟩ := jsonBody_cancel a.data b.data r1 r2 h
  exact ⟨String.ext h1, h2⟩

theorem jsonPeriod_cancel (p q : Period) (r1 r2 : List Char)
    (h : jsonPeriod p ++ r1 = jsonPeriod q ++ r2) : p = q ∧ r1 = r2 := by
  simp only [jsonPeriod, List.append_assoc] at h
  have h1 := List.append_cancel_left h
  obtain ⟨hs, h2⟩ := jsonQuote_cancel _ _ _ _ h1
  have h3 := List.append_cancel_left h2
  obtain ⟨he, h4⟩ := jsonQuote_cancel _ _ _ _ h3
  have h5 := List.append_cancel_left h4
  refine ⟨?_, h5⟩
  cases p
  cases q
  simp only at hs he
  rw [hs, he]

theorem jsonPeriod_append_ne (p : Period) (r1 r2 : List Char) :
    jsonPeriod p ++ r1 ≠ ']' :: r2 := by
  intro h
  simp [jsonPeriod] at h

theorem jsonItems_cancel (ps qs : List Period) (r1 r2 : List Char)
    (h : jsonItems ps ++ ']' :: r1 = jsonItems qs ++ ']' :: r2) : ps = qs ∧ r1 = r2 := by
  induction ps generalizing qs with
  | nil =>
    cases qs with
    | nil => simpa [jsonItems] using h
    | cons q qs =>
      cases qs with
      | nil =>
        simp only [jsonItems, List.nil_append] at h
        exact absurd h.symm (jsonPeriod_append_ne q _ _)
      | cons q2 qs =>
        simp only [jsonItems, List.nil_append, List.append_assoc] at h
        exact absurd h.symm (jsonPeriod_append_ne q _ _)
  | cons p ps ih =>
    cases qs with
    | nil =>
      cases ps with
      | nil =>
        simp only [jsonItems, List.nil_append] at h
        exact absurd h (jsonPeriod_append_ne p _ _)
      | cons p2 ps =>
        simp only [jsonItems, List.nil_append, List.append_assoc] at h
        exact absurd h (jsonPeriod_append_ne p _ _)
    | cons q qs =>
      cases ps with
      | nil =>
        cases qs with
        | nil =>
          simp only [jsonItems] at h
          obtain ⟨h1, h2⟩ := jsonPeriod_cancel p q _ _ h
          simp only [List.cons.injEq, true_and] at h2
          exact ⟨by rw [h1], h2⟩
        | cons q2 qs =>
          simp only [jsonItems, List.append_assoc] at h
          obtain ⟨_, h2⟩ := jsonPeriod_cancel p q _ _ h
          simp at h2
      | cons p2 ps =>
        cases qs with
        | nil =>
          simp only [jsonItems, List.append_assoc] at h
          obtain ⟨_, h2⟩ := jsonPeriod_cancel p q _ _ h
          simp at h2
        | cons q2 qs =>
          simp only [jsonItems, List.append_assoc, List.cons_append] at h
          obtain ⟨h1, h2⟩ := jsonPeriod_cancel p q _ _ h
          simp only [List.cons.injEq, true_and] at h2
          obtain ⟨h3, h4⟩ := ih (q2 :: qs) h2
          exact ⟨by rw [h1, h3], h4⟩

theorem buildEntryKey_inj (a b : Entry) (h : buildEntryKey a = buildEntryKey b) :
    a.date = b.date ∧ a.description = b.description ∧
      a.timePeriods.getD [] = b.timePeriods.getD [] := by
  have h0 := congrArg String.data h
  simp only [buildEntryKey] at h0
  have h1 := List.append_cancel_left h0
  obtain ⟨hd, h2⟩ := jsonQuote_cancel _ _ _ _ h1
  have h3 := List.append_cancel_left h2
  obtain ⟨hdesc, h4⟩ := jsonQuote_cancel _ _ _ _ h3
  have h5 := List.append_cancel_left h4
  simp only [jsonPeriods, List.cons_append, List.append_assoc, List.cons.injEq, true_and,
    List.singleton_append] at h5
  obtain ⟨hp, _⟩ := jsonItems_cancel _ _ _ _ h5
  exact ⟨hd, hdesc, hp⟩

/-! ## The merge loop -/

theorem foldl_mergeStep_sublist (I : List Entry) (st : MergeState) :
    ∃ sub : List Entry, sub.Sublist I ∧
      (I.foldl mergeStep st).entries = st.entries ++ sub ∧
      (I.foldl mergeStep st).addedCount = st.addedCount + sub.length ∧
      (I.foldl mergeStep st).addedCount + (I.foldl mergeStep st).skippedCount =
        st.addedCount + st.skippedCount + I.length := by
  induction I generalizing st with
  | nil => exact ⟨[], List.Sublist.refl _, by simp, by simp, by simp⟩
  | cons e rest ih =>
    rw [List.foldl_cons]
    obtain ⟨sub, h1, h2, h3, h4⟩ := ih (mergeStep st e)
    by_cases hk : buildEntryKey e ∈ st.existingKeys
    · have hstep : mergeStep st e = { st with skippedCount := st.skippedCount + 1 } := by
        simp [mergeStep, hk]
      rw [hstep] at h2 h3 h4 ⊢
      refine ⟨sub, h1.cons e, h2, h3, ?_⟩
      simp only [List.length_cons] at h4 ⊢
      omega
    · have hstep : mergeStep st e =
          { existingKeys := st.existingKeys ++ [buildEntryKey e]
            entries := st.entries ++ [e]
            addedCount := st.addedCount + 1
            skippedCount := st.skippedCount } := by
        simp [mergeStep, hk]
      rw [hstep] at h2 h3 h4 ⊢
      refine ⟨e :: sub, h1.cons₂ e, ?_, ?_, ?_⟩
      · simpa using h2
      · simp only [List.length_cons] at h3 ⊢
        omega
      · simp only [List.length_cons] at h4 ⊢
        omega

theorem mem_foldl_mergeStep_keys (I : List Entry) (st : MergeState) (k : String) :
    k ∈ (I.foldl mergeStep st).existingKeys ↔
      k ∈ st.existingKeys ∨ k ∈ I.map buildEntryKey := by
  induction I generalizing st with
  | nil => simp
  | cons e rest ih =>
    rw [List.foldl_cons, ih]
    by_cases hk : buildEntryKey e ∈ st.existingKeys
    · have hstep : (mergeStep st e).existingKeys = st.existingKeys := by
        simp [mergeStep, hk]
      rw [hstep]
      simp only [List.map_cons, List.mem_cons]
      constructor
      · rintro (h | h)
        · exact Or.inl h
        · exact Or.inr (Or.inr h)
      · rintro (h | h | h)
        · exact Or.inl h
        · exact Or.inl (h ▸ hk)
        · exact Or.inr h
    · have hstep : (mergeStep st e).existingKeys = st.existingKeys ++ [buildEntryKey e] := by
        simp [mergeStep, hk]
      rw [hstep]
      simp only [List.map_cons, List.mem_cons, List.mem_append, List.mem_singleton]
      tauto

theorem foldl_mergeStep_all_skipped (I : List Entry) (st : MergeState)
    (h : ∀ e ∈ I, buildEntryKey e ∈ st.existingKeys) :
    I.foldl mergeStep st = { st with skippedCount := st.skippedCount + I.length } := by
  induction I generalizing st with
  | nil => rfl
  | cons e rest ih =>
    have hk : buildEntryKey e ∈ st.existingKeys := h e (List.mem_cons_self _ _)
    have hstep : mergeStep st e = { st with skippedCount := st.skippedCount + 1 } := by
      simp [mergeStep, hk]
    rw [List.foldl_cons, hstep,
      ih { st with skippedCount := st.skippedCount + 1 }
        (fun x hx => h x (List.mem_cons_of_mem _ hx))]
    simp only [List.length_cons, MergeState.mk.injEq, true_and]
    omega

theorem foldl_mergeStep_all_added (I : List Entry) (st : MergeState)
    (hnd : (I.map buildEntryKey).Nodup) (h : ∀ e ∈ I, buildEntryKey e ∉ st.existingKeys) :
    I.foldl mergeStep st =
      { existingKeys := st.existingKeys ++ I.map buildEntryKey
        entries := st.entries ++ I
        addedCount := st.addedCount + I.length
        skippedCount := st.skippedCount } := by
  induction I generalizing st with
  | nil => simp
  | cons e rest ih =>
    have hk : buildEntryKey e ∉ st.existingKeys := h e (List.mem_cons_self _ _)
    have hstep : mergeStep st e =
        { existingKeys := st.existingKeys ++ [buildEntryKey e]
          entries := st.entries ++ [e]
          addedCount := st.addedCount + 1
          skippedCount := st.skippedCount } := by
      simp [mergeStep, hk]
    rw [List.map_cons, List.nodup_cons] at hnd
    rw [List.foldl_cons, hstep, ih _ hnd.2]
    · simp only [List.append_assoc, List.singleton_append, List.map_cons, List.length_cons,
        MergeState.mk.injEq, true_and, and_true]
      omega
    · intro x hx hmem
      simp only [List.mem_append, List.mem_singleton] at hmem
      rcases hmem with hmem | hmem
      · exact h x (List.mem_cons_of_mem _ hx) hmem
      · exact hnd.1 (hmem ▸ List.mem_map_of_mem _ hx)

/-! ## Form validation and the sort of `addEntry` -/

theorem collectPeriods_of_valid (ps : List Period)
    (h : ∀ p ∈ ps, p.startTime ≠ "" ∧ p.endTime ≠ "" ∧ compare p.startTime p.endTime = .lt) :
    collectPeriods ps = some ps := by
  induction ps with
  | nil => rfl
  | cons p rest ih =>
    obtain ⟨h1, h2, h3⟩ := h p (List.mem_cons_self _ _)
    have ih2 := ih (fun q hq => h q (List.mem_cons_of_mem _ hq))
    simp [collectPeriods, truthyStr, h1, h2, h3, ih2]

theorem collectPeriods_of_invalid (ps : List Period)
    (h : ∃ p ∈ ps, p.startTime = "" ∨ p.endTime = "" ∨ compare p.startTime p.endTime ≠ .lt) :
    collectPeriods ps = none ∧ (periodsAlert ps).isSome = true := by
  induction ps with
  | nil =>
    obtain ⟨p, hp, _⟩ := h
    simp at hp
  | cons q rest ih =>
    unfold collectPeriods periodsAlert
    by_cases h1 : (!truthyStr q.startTime || !truthyStr q.endTime) = true
    · simp [h1]
    · rw [if_neg h1, if_neg h1]
      by_cases h2 : compare q.startTime q.endTime ≠ .lt
      · simp [h2]
      · rw [if_neg h2, if_neg h2]
        obtain ⟨p, hp, hbad⟩ := h
        rcases List.mem_cons.mp hp with hpq | hpr
        · subst hpq
          simp only [truthyStr, Bool.or_eq_true, Bool.not_eq_true', bne_eq_false_iff_eq,
            not_or] at h1
          rcases hbad with hb | hb | hb
          · exact absurd hb h1.1
          · exact absurd hb h1.2
          · exact absurd hb h2
        · obtain ⟨ih1, ih2⟩ := ih ⟨p, hpr, hbad⟩
          simp [ih1, ih2]

theorem addEntry_of_collect (pf : Platform) (now : Int) (form : EntryForm) (s : Store)
    (p : Period) (ps : List Period) (h : collectPeriods form.periods = some (p :: ps)) :
    addEntry pf now form s =
      { s with entries := sortEntries (s.entries ++
        [newEntry pf now form (p :: ps)]) } := by
  unfold addEntry
  rw [h]
  rfl

theorem formatHM_data (t : TimeOfDay) :
    (formatHM t).data = (pad2 t.hours.val).data ++ ':' :: (pad2 t.minutes.val).data := by
  simp [formatHM, String.data_append]

theorem timeToSeconds_formatHM (t : TimeOfDay) :
    timeToSeconds (formatHM t) = 3600 * (t.hours.val : Int) + 60 * (t.minutes.val : Int) := by
  have hh := pad2_facts t.hours.val (by omega)
  have hm := pad2_facts t.minutes.val (by omega)
  have hsplit : splitOnColon (formatHM t).data =
      [(pad2 t.hours.val).data, (pad2 t.minutes.val).data] := by
    rw [formatHM_data, splitOnColon_append _ _ hh.1, splitOnColon_of_not_mem _ hm.1]
  simp only [timeToSeconds, hsplit, component]
  simp [hh.2, hm.2]
  ring

theorem addEntry_of_valid (pf : Platform) (now : Int) (form : EntryForm) (s : Store)
    (hne : form.periods ≠ [])
    (hvalid : ∀ p ∈ form.periods,
      p.startTime ≠ "" ∧ p.endTime ≠ "" ∧ compare p.startTime p.endTime = .lt) :
    addEntry pf now form s =
      { s with entries := sortEntries (s.entries ++
        [newEntry pf now form form.periods]) } := by
  have hc := collectPeriods_of_valid form.periods hvalid
  cases hp : form.periods with
  | nil => exact absurd hp hne
  | cons p ps =>
    rw [hp] at hc
    rw [addEntry_of_collect pf now form s p ps (hp ▸ hc)]

/-! ## Grouping by date -/

theorem foldl_groupStep_none (es : List Entry) : es.foldl groupStep none = none := by
  induction es with
  | nil => rfl
  | cons e rest ih => simpa [List.foldl_cons, groupStep] using ih

theorem foldl_groupStep_of_ok (es : List Entry) (g : List (String × List Entry))
    (h : ∀ e ∈ es, inheritedProperty e.date = false) :
    es.foldl groupStep (some g) =
      some (es.foldl (fun acc e => pushToGroup e.date e acc) g) := by
  induction es generalizing g with
  | nil => rfl
  | cons e rest ih =>
    have he := h e (List.mem_cons_self _ _)
    simp only [List.foldl_cons, groupStep, he, Bool.false_eq_true, if_false]
    exact ih _ (fun x hx => h x (List.mem_cons_of_mem _ hx))

theorem map_fst_pushToGroup (d : String) (e : Entry) (g : List (String × List Entry)) :
    (pushToGroup d e g).map Prod.fst =
      if d ∈ g.map Prod.fst then g.map Prod.fst else g.map Prod.fst ++ [d] := by
  induction g with
  | nil => simp [pushToGroup]
  | cons kv rest ih =>
    obtain ⟨k, grp⟩ := kv
    by_cases hk : k = d
    · simp [pushToGroup, hk]
    · have hk2 : ¬ d = k := fun h => hk h.symm
      simp only [pushToGroup, hk, if_false, List.map_cons, ih, List.mem_cons, hk2, false_or]
      split <;> simp

theorem mem_pushToGroup (d : String) (e : Entry) (g : List (String × List Entry))
    (hnd : (g.map Prod.fst).Nodup) (k : String) (grp : List Entry)
    (h : (k, grp) ∈ pushToGroup d e g) :
    (k ≠ d ∧ (k, grp) ∈ g) ∨
      (k = d ∧ ∃ grp0, grp = grp0 ++ [e] ∧
        ((d, grp0) ∈ g ∨ (grp0 = [] ∧ d ∉ g.map Prod.fst))) := by
  induction g with
  | nil =>
    simp only [pushToGroup, List.mem_singleton, Prod.mk.injEq] at h
    exact Or.inr ⟨h.1, [], by simp [h.2], Or.inr ⟨rfl, by simp⟩⟩
  | cons kv rest ih =>
    obtain ⟨k0, g0⟩ := kv
    simp only [List.map_cons, List.nodup_cons] at hnd
    by_cases hk : k0 = d
    · simp only [pushToGroup, hk, if_true, List.mem_cons, Prod.mk.injEq] at h
      rcases h with ⟨h1, h2⟩ | h
      · exact Or.inr ⟨h1, g0, h2, Or.inl (by simp [hk])⟩
      · left
        refine ⟨?_, List.mem_cons_of_mem _ h⟩
        intro hkd
        apply hnd.1
        rw [hk, ← hkd]
        exact List.mem_map_of_mem Prod.fst h
    · simp only [pushToGroup, hk, if_false, List.mem_cons, Prod.mk.injEq] at h
      rcases h with ⟨h1, h2⟩ | h
      · left
        exact ⟨by rw [h1]; exact hk, by simp [h1, h2]⟩
      · rcases ih hnd.2 h with ⟨h1, h2⟩ | ⟨h1, grp0, h2, h3⟩
        · exact Or.inl ⟨h1, List.mem_cons_of_mem _ h2⟩
        · right
          refine ⟨h1, grp0, h2, ?_⟩
          rcases h3 with h3 | ⟨h3, h4⟩
          · exact Or.inl (List.mem_cons_of_mem _ h3)
          · right
            refine ⟨h3, ?_⟩
            simp only [List.map_cons, List.mem_cons, not_or]
            exact ⟨fun hd => hk hd.symm, h4⟩

theorem groupFold_invariant (es : List Entry) :
    ((es.foldl (fun acc e => pushToGroup e.date e acc) []).map Prod.fst).Nodup ∧
    (∀ kv ∈ es.foldl (fun acc e => pushToGroup e.date e acc) [],
      kv.2 ≠ [] ∧ kv.2 = es.filter (fun e => e.date = kv.1)) ∧
    (∀ e ∈ es, e.date ∈ (es.foldl (fun acc e => pushToGroup e.date e acc) []).map Prod.fst) := by
  induction es using List.reverseRecOn with
  | nil => simp
  | append_singleton pr e ih =>
    obtain ⟨hnd, hgrp, hkeys⟩ := ih
    rw [List.foldl_append, List.foldl_cons, List.foldl_nil]
    generalize pr.foldl (fun acc e => pushToGroup e.date e acc) [] = g at hnd hgrp hkeys ⊢
    have hmap := map_fst_pushToGroup e.date e g
    refine ⟨?_, ?_, ?_⟩
    · rw [hmap]
      split
      · exact hnd
      · rename_i hd
        rw [List.nodup_append]
        refine ⟨hnd, List.nodup_singleton _, ?_⟩
        intro x hx hx2
        rw [List.mem_singleton] at hx2
        exact hd (hx2 ▸ hx)
    · rintro ⟨k, grp⟩ hmem
      simp only
      rcases mem_pushToGroup e.date e g hnd k grp hmem with ⟨h1, h2⟩ | ⟨h1, grp0, h2, h3⟩
      · obtain ⟨h3, h4⟩ := hgrp (k, grp) h2
        simp only at h3 h4
        refine ⟨h3, ?_⟩
        have hne : ¬ e.date = k := fun h => h1 h.symm
        rw [List.filter_append, h4]
        simp [hne]
      · subst h1
        refine ⟨by simp [h2], ?_⟩
        rw [List.filter_append, h2]
        rcases h3 with h3 | ⟨h3, h4⟩
        · obtain ⟨_, h5⟩ := hgrp (e.date, grp0) h3
          simp only at h5
          rw [← h5]
          simp
        · have hnone : pr.filter (fun x => x.date = e.date) = [] := by
            rw [List.filter_eq_nil_iff]
            intro x hx hxd
            simp only [decide_eq_true_eq] at hxd
            exact h4 (hxd ▸ hkeys x hx)
          rw [hnone, h3]
          simp
    · intro x hx
      rw [hmap]
      rcases List.mem_append.mp hx with hx | hx
      · split
        · exact hkeys x hx
        · exact List.mem_append_left _ (hkeys x hx)
      · rw [List.mem_singleton] at hx
        subst hx
        split
        · assumption
        · simp

theorem rangeStartGe_total (a b : Entry) : rangeStartGe a b ∨ rangeStartGe b a := by
  unfold rangeStartGe
  have h1 : ∀ x y : String, compare x y ≠ .gt ↔ x ≤ y := fun x y => compare_le_iff_le
  rw [h1, h1]
  exact le_total _ _

theorem rangeStartGe_trans (a b c : Entry) (h1 : rangeStartGe a b) (h2 : rangeStartGe b c) :
    rangeStartGe a c := by
  unfold rangeStartGe at h1 h2 ⊢
  have hc : ∀ x y : String, compare x y ≠ .gt ↔ x ≤ y := fun x y => compare_le_iff_le
  rw [hc] at h1 h2 ⊢
  exact le_trans h2 h1

/-! ## Claims -/

/-- C1: each operation that changes an entry's `timePeriods` (manual creation,
inline edit, timer stop, stopwatch entry creation, stopwatch tick, legacy fold
of the migration) leaves the entry it built or changed with `duration` equal to
`calculateDurationFromPeriods(timePeriods)` whenever `timePeriods` is
non-empty, from any state; and in every store reachable from the empty store
through the operations of the application every entry satisfies this. -/
theorem duration_eq_periods_invariant (pf : Platform) :
    (∀ (now : Int) (form : EntryForm) (s : Store) (e : Entry),
      e ∈ (addEntry pf now form s).entries → e ∈ s.entries ∨ durationConsistent e) ∧
    (∀ (id : Int) (form : EntryForm) (s : Store) (e : Entry),
      e ∈ (saveInlineEdit pf id form s).entries → e ∈ s.entries ∨ durationConsistent e) ∧
    (∀ (now : Int) (e : Entry), durationConsistent (stopEntry pf now e)) ∧
    (∀ now : Int, durationConsistent (newStopwatchEntry pf now)) ∧
    (∀ (now : Int) (started : Option Int) (e e1 : Entry),
      tickEntry pf now started e = some e1 → durationConsistent e1) ∧
    (∀ e : Entry, e.timePeriods = none → durationConsistent (migrateEntry e)) ∧
    (∀ s : Store, Reachable pf s → ∀ e ∈ s.entries, ∀ P : List Period,
      e.timePeriods = some P → P ≠ [] → e.duration = some (calculateDurationFromPeriods P)) :=
  ⟨mem_addEntry pf, mem_saveInlineEdit pf, durationConsistent_stopEntry pf,
    durationConsistent_newStopwatchEntry pf, durationConsistent_tickEntry pf,
    durationConsistent_migrateEntry_of_none,
    fun s hs e he P hP hne => reachable_storeConsistent pf s hs e he P hP hne⟩

/-- Witness for C1: the stopwatch started at 10:00:00 and ticked at 10:00:30. -/
theorem duration_eq_periods_invariant_witness :
    (demoStopwatchEntry ∈ demoStopwatchStore.entries ∧
      demoStopwatchEntry.timePeriods = some [{ startTime := "10:00", endTime := "10:00:30" }]) ∧
    demoStopwatchEntry.duration =
      some (calculateDurationFromPeriods [{ startTime := "10:00", endTime := "10:00:30" }]) :=
  ⟨⟨by decide, rfl⟩,
    (duration_eq_periods_invariant utcPlatform).2.2.2.2.2.2 demoStopwatchStore
      (Reachable.step (Reachable.step Reachable.init (Step.startStopwatch 36000000 emptyStore))
        (Step.stopwatchTick 36030000 _))
      demoStopwatchEntry (by decide) _ rfl (by decide)⟩

/-- C3, counterexample: a period whose start is the empty string is skipped by
`calculateDurationFromPeriods` although `calculateDuration` gives it 36000 s. -/
theorem calculateDurationFromPeriods_sum_all_counterexample :
    (calculateDurationFromPeriods [{ startTime := "", endTime := "10:00" }]).totalSeconds ≠
      some (([{ startTime := "", endTime := "10:00" }] : List Period).map
        (fun p => ((calculateDuration p.startTime p.endTime).totalSeconds).getD 0)).sum := by
  decide

/-- C3, amended: `calculateDurationFromPeriods(P).totalSeconds` is the sum of
`calculateDuration(p.startTime, p.endTime).totalSeconds` over the periods of `P`
whose `startTime` and `endTime` are both non-empty. -/
theorem calculateDurationFromPeriods_totalSeconds (P : List Period) :
    (calculateDurationFromPeriods P).totalSeconds =
      some ((P.filter (fun p => truthyStr p.startTime && truthyStr p.endTime)).map
        (fun p => ((calculateDuration p.startTime p.endTime).totalSeconds).getD 0)).sum := by
  simp [calculateDurationFromPeriods, decompose, sumPeriods_acc]

/-- C2, counterexample: a legacy record with a stored duration and no periods is
migrated, its timer is started and paused; the stored duration is still the
legacy one, not `calculateDurationFromPeriods([])`. -/
theorem pause_duration_empty_counterexample :
    (findEntry 7
        (pauseEntryTimer 36030000 7
          (startEntryTimer utcPlatform 36000000 7 (migrate (storeOf [legacyEntry])))).entries).map
      (fun e => (e.timerState, e.timePeriods,
        decide (e.duration = some (calculateDurationFromPeriods (e.timePeriods.getD []))))) =
      some (some .paused, some [], false) := by
  decide

/-- C2, amended: after `pauseEntryTimer` from `running` and after
`stopEntryTimer`, an entry whose `timePeriods` is then non-empty has `duration`
equal to `calculateDurationFromPeriods(timePeriods)`; an entry whose
`timePeriods` is then empty or absent keeps the duration it had. -/
theorem pause_stop_duration (pf : Platform) (now id : Int) (s : Store) (e : Entry)
    (h : findEntry id s.entries = some e) :
    (e.timerState = some .running →
      ∃ e1, findEntry id (pauseEntryTimer now id s).entries = some e1 ∧
        e1.timerState = some .paused ∧
        (∀ P, e1.timePeriods = some P → P ≠ [] →
          e1.duration = some (calculateDurationFromPeriods P)) ∧
        (e1.timePeriods = none ∨ e1.timePeriods = some [] → e1.duration = e.duration)) ∧
    (∃ e1, findEntry id (stopEntryTimer pf now id s).entries = some e1 ∧
        e1.timerState = some .stopped ∧
        (∀ P, e1.timePeriods = some P → P ≠ [] →
          e1.duration = some (calculateDurationFromPeriods P)) ∧
        (e1.timePeriods = none ∨ e1.timePeriods = some [] → e1.duration = e.duration)) := by
  constructor
  · intro hrun
    refine ⟨pauseEntry now e, ?_, ?_, ?_, ?_⟩
    · simp [pauseEntryTimer, findEntry_updateById id _ (pauseEntry_id now), h]
    · simp [pauseEntry, hrun]
    · have hc : durationConsistent (pauseEntry now e) := by
        unfold pauseEntry
        rw [if_neg (not_not.mpr hrun)]
        exact durationConsistent_recompute _
      exact hc
    · intro hemp
      rw [pauseEntry_timePeriods] at hemp
      exact pauseEntry_duration_of_empty now e hemp
  · refine ⟨stopEntry pf now e, ?_, rfl, ?_, ?_⟩
    · simp [stopEntryTimer, findEntry_updateById id _ (stopEntry_id pf now), h]
    · exact durationConsistent_stopEntry pf now e
    · exact stopEntry_duration_of_empty pf now e

/-- Witness for C2: a running entry with one period, paused and stopped. -/
theorem pause_stop_duration_witness :
    findEntry 7 (storeOf [startEntry utcPlatform 36000000
        (demoEntry 7 [{ startTime := "09:00", endTime := "10:00" }])]).entries =
      some (startEntry utcPlatform 36000000
        (demoEntry 7 [{ startTime := "09:00", endTime := "10:00" }])) ∧
    (∃ e1, findEntry 7 (pauseEntryTimer 36030000 7 (storeOf [startEntry utcPlatform 36000000
        (demoEntry 7 [{ startTime := "09:00", endTime := "10:00" }])])).entries = some e1 ∧
      e1.timerState = some .paused ∧
      (∀ P, e1.timePeriods = some P → P ≠ [] →
        e1.duration = some (calculateDurationFromPeriods P)) ∧
      (e1.timePeriods = none ∨ e1.timePeriods = some [] →
        e1.duration = (startEntry utcPlatform 36000000
          (demoEntry 7 [{ startTime := "09:00", endTime := "10:00" }])).duration)) :=
  ⟨by decide,
    (pause_stop_duration utcPlatform 36030000 7 _ _ (by decide)).1 (by decide)⟩

/-- C4: for an entry with period list `P`, `startEntryTimer` at `t1` followed by
`stopEntryTimer` at `t2` leaves `timePeriods = P ++ [{t1 as HH:MM:SS, t2 as
HH:MM:SS}]`, `duration.totalSeconds` equal to the total of `P` plus the
difference of the seconds-of-day of `t2` and `t1`, `timerElapsed = 0`,
`timerActualStartTime = null` and `timerState = 'stopped'`. -/
theorem start_then_stop (pf : Platform) (t1 t2 id : Int) (s : Store) (e : Entry)
    (P : List Period) (h : findEntry id s.entries = some e) (hP : e.timePeriods = some P) :
    ∃ e1 n, findEntry id (stopEntryTimer pf t2 id (startEntryTimer pf t1 id s)).entries = some e1 ∧
      e1.timePeriods = some (P ++
        [{ startTime := formatHMS (pf.localTime t1), endTime := formatHMS (pf.localTime t2) }]) ∧
      (calculateDurationFromPeriods P).totalSeconds = some n ∧
      (∃ d, e1.duration = some d ∧ d.totalSeconds =
        some (n + (secondsOfDay (pf.localTime t2) - secondsOfDay (pf.localTime t1)))) ∧
      e1.timerElapsed = 0 ∧ e1.timerActualStartTime = .null ∧
      e1.timerState = some .stopped ∧ e1.timerStartTime = none := by
  have hfind : findEntry id (stopEntryTimer pf t2 id (startEntryTimer pf t1 id s)).entries =
      some (stopEntry pf t2 (startEntry pf t1 e)) := by
    simp [stopEntryTimer, startEntryTimer, findEntry_updateById id _ (stopEntry_id pf t2),
      findEntry_updateById id _ (startEntry_id pf t1), h]
  have hstop := stopEntry_of_truthy pf t2 (startEntry pf t1 e) (formatHMS (pf.localTime t1)) rfl
    (truthyStr_formatHMS _)
  rw [stopStartTime_of_length_ne pf t2 _ _ (by rw [length_splitOnColon_formatHMS]; decide)] at hstop
  have hP1 : (startEntry pf t1 e).timePeriods = some P := hP
  rw [hP1] at hstop
  simp only [Option.getD_some] at hstop
  refine ⟨stopEntry pf t2 (startEntry pf t1 e), sumPeriods P 0, hfind, ?_, rfl, ?_, ?_, ?_, ?_, ?_⟩
  · rw [hstop]
  · refine ⟨_, by rw [hstop], ?_⟩
    simp only [calculateDurationFromPeriods, decompose]
    rw [sumPeriods_append_singleton P _ _ (truthyStr_formatHMS _) (truthyStr_formatHMS _),
      timeToSeconds_formatHMS, timeToSeconds_formatHMS]
  · rw [hstop]
  · rw [hstop]
  · rw [hstop]
  · rw [hstop]

/-- Witness for C4: no prior periods, start at 10:00:00, stop at 10:00:30; the
single period is 10:00:00 to 10:00:30 and the total is 30 seconds. -/
theorem start_then_stop_witness :
    (findEntry 7 (storeOf [demoEntry 7 []]).entries = some (demoEntry 7 []) ∧
      (demoEntry 7 []).timePeriods = some []) ∧
    (∃ e1 n, findEntry 7 (stopEntryTimer utcPlatform 36030000 7
        (startEntryTimer utcPlatform 36000000 7 (storeOf [demoEntry 7 []]))).entries = some e1 ∧
      e1.timePeriods = some ([] ++
        [{ startTime := formatHMS (utcPlatform.localTime 36000000)
           endTime := formatHMS (utcPlatform.localTime 36030000) }]) ∧
      (calculateDurationFromPeriods []).totalSeconds = some n ∧
      (∃ d, e1.duration = some d ∧ d.totalSeconds =
        some (n + (secondsOfDay (utcPlatform.localTime 36030000) -
          secondsOfDay (utcPlatform.localTime 36000000)))) ∧
      e1.timerElapsed = 0 ∧ e1.timerActualStartTime = .null ∧
      e1.timerState = some .stopped ∧ e1.timerStartTime = none) ∧
    (findEntry 7 (stopEntryTimer utcPlatform 36030000 7
        (startEntryTimer utcPlatform 36000000 7 (storeOf [demoEntry 7 []]))).entries).map
      (fun e => (e.timePeriods, e.duration.map (fun d => d.totalSeconds))) =
      some (some [{ startTime := "10:00:00", endTime := "10:00:30" }], some (some 30)) :=
  ⟨⟨by decide, rfl⟩,
    start_then_stop utcPlatform 36000000 36030000 7 (storeOf [demoEntry 7 []]) (demoEntry 7 []) []
      (by decide) rfl,
    by decide⟩

/-- C5, counterexample: a legacy record paused with five seconds on its timer
and no `timerActualStartTime` is migrated and stopped; `timerElapsed` is still
5000, not 0. -/
theorem stop_keeps_elapsed_counterexample :
    (findEntry 8
        (stopEntryTimer utcPlatform 36030000 8 (migrate (storeOf [legacyPausedEntry]))).entries).map
      (fun e => (e.timerState, e.timerActualStartTime, e.timerElapsed)) =
      some (some .stopped, .null, 5000) := by
  decide

/-- C5, amended: after `stopEntryTimer` the entry has `timerState = 'stopped'`,
`timerStartTime = null` and no `timerActualStartTime`; when
`timerActualStartTime` was set, `timerElapsed` is 0 and exactly one period is
appended, ending now (HH:MM:SS) and starting at the previous
`timerActualStartTime`, which is given a two-digit seconds component when it
has only hours and minutes; when it was not set, `timePeriods` is unchanged. -/
theorem stopEntryTimer_spec (pf : Platform) (now id : Int) (s : Store) (e : Entry)
    (h : findEntry id s.entries = some e) :
    ∃ e1, findEntry id (stopEntryTimer pf now id s).entries = some e1 ∧
      e1.timerState = some .stopped ∧ e1.timerStartTime = none ∧
      e1.timerActualStartTime.truthy = false ∧
      (∀ actual, e.timerActualStartTime = .val actual → truthyStr actual = true →
        e1.timerElapsed = 0 ∧ e1.timerActualStartTime = .null ∧
        ∃ start, e1.timePeriods = some (e.timePeriods.getD [] ++
            [{ startTime := start, endTime := formatHMS (pf.localTime now) }]) ∧
          ((splitOnColon actual.data).length ≠ 2 → start = actual) ∧
          ((splitOnColon actual.data).length = 2 →
            ∃ sec : Fin 60, start = actual ++ ":" ++ pad2 sec.val)) ∧
      (e.timerActualStartTime.truthy = false → e1.timePeriods = e.timePeriods) := by
  refine ⟨stopEntry pf now e, ?_, rfl, rfl, ?_, ?_, ?_⟩
  · simp [stopEntryTimer, findEntry_updateById id _ (stopEntry_id pf now), h]
  · rcases actualStart_cases e with ⟨a, h1, h2⟩ | h3
    · rw [stopEntry_of_truthy pf now e a h1 h2]
      rfl
    · rw [stopEntry_of_not_truthy pf now e h3, recomputeDuration_eq, foldRunning_eq]
      exact h3
  · intro actual h1 h2
    rw [stopEntry_of_truthy pf now e actual h1 h2]
    refine ⟨rfl, rfl, stopStartTime pf now (foldRunning now e) actual, rfl, ?_, ?_⟩
    · exact stopStartTime_of_length_ne pf now _ actual
    · intro hlen
      unfold stopStartTime
      rw [if_pos hlen]
      exact ⟨_, rfl⟩
  · intro h3
    rw [stopEntry_of_not_truthy pf now e h3, recomputeDuration_eq, foldRunning_eq]

/-- Witness for C5: an entry with one period whose timer was started at
10:00:00 is stopped at 10:00:30. -/
theorem stopEntryTimer_spec_witness :
    findEntry 7 (storeOf [startEntry utcPlatform 36000000
        (demoEntry 7 [{ startTime := "09:00", endTime := "10:00" }])]).entries =
      some (startEntry utcPlatform 36000000
        (demoEntry 7 [{ startTime := "09:00", endTime := "10:00" }])) ∧
    (∃ e1, findEntry 7 (stopEntryTimer utcPlatform 36030000 7
        (storeOf [startEntry utcPlatform 36000000
          (demoEntry 7 [{ startTime := "09:00", endTime := "10:00" }])])).entries = some e1 ∧
      e1.timerState = some .stopped ∧ e1.timerStartTime = none ∧
      e1.timerActualStartTime.truthy = false ∧
      (∀ actual, (startEntry utcPlatform 36000000
          (demoEntry 7 [{ startTime := "09:00", endTime := "10:00" }])).timerActualStartTime =
            .val actual → truthyStr actual = true →
        e1.timerElapsed = 0 ∧ e1.timerActualStartTime = .null ∧
        ∃ start, e1.timePeriods = some ((startEntry utcPlatform 36000000
            (demoEntry 7 [{ startTime := "09:00", endTime := "10:00" }])).timePeriods.getD [] ++
            [{ startTime := start, endTime := formatHMS (utcPlatform.localTime 36030000) }]) ∧
          ((splitOnColon actual.data).length ≠ 2 → start = actual) ∧
          ((splitOnColon actual.data).length = 2 →
            ∃ sec : Fin 60, start = actual ++ ":" ++ pad2 sec.val)) ∧
      ((startEntry utcPlatform 36000000
          (demoEntry 7 [{ startTime := "09:00", endTime := "10:00" }])).timerActualStartTime.truthy =
            false →
        e1.timePeriods = (startEntry utcPlatform 36000000
          (demoEntry 7 [{ startTime := "09:00", endTime := "10:00" }])).timePeriods)) ∧
    (findEntry 7 (stopEntryTimer utcPlatform 36030000 7 (storeOf [startEntry utcPlatform 36000000
        (demoEntry 7 [{ startTime := "09:00", endTime := "10:00" }])])).entries).map
      (fun e => (e.timerState, e.timerElapsed, e.timePeriods)) =
      some (some .stopped, 0,
        some [{ startTime := "09:00", endTime := "10:00" },
          { startTime := "10:00:00", endTime := "10:00:30" }]) :=
  ⟨by decide,
    stopEntryTimer_spec utcPlatform 36030000 7
      (storeOf [startEntry utcPlatform 36000000
        (demoEntry 7 [{ startTime := "09:00", endTime := "10:00" }])])
      (startEntry utcPlatform 36000000
        (demoEntry 7 [{ startTime := "09:00", endTime := "10:00" }])) (by decide),
    by decide⟩

/-- C6, evaluation at the failing input: `startEntryTimer` on an entry whose
timer has been running since 10:00:00 restarts it at 10:00:30: the start
timestamp and the recorded start time are overwritten and the thirty seconds
already run are not added to `timerElapsed`. -/
theorem startEntryTimer_on_running_restarts :
    (findEntry 7 (startEntryTimer utcPlatform 36000000 7
        (storeOf [demoEntry 7 [{ startTime := "09:00", endTime := "10:00" }]])).entries).map
      (fun e => (e.timerState, e.timerStartTime, e.timerActualStartTime, e.timerElapsed)) =
      some (some .running, some 36000000, .val "10:00:00", 0) ∧
    (findEntry 7 (startEntryTimer utcPlatform 36030000 7 (startEntryTimer utcPlatform 36000000 7
        (storeOf [demoEntry 7 [{ startTime := "09:00", endTime := "10:00" }]]))).entries).map
      (fun e => (e.timerState, e.timerStartTime, e.timerActualStartTime, e.timerElapsed)) =
      some (some .running, some 36030000, .val "10:00:30", 0) := by
  decide

/-- C7: `pauseEntryTimer` leaves the store unchanged unless the entry is
running; from `running` with `timerStartTime = st` (a non-zero timestamp) it
yields `timerState = 'paused'`, `timerElapsed` increased by `now - st`,
`timerStartTime = null`, and the same `timePeriods` and `timerActualStartTime`. -/
theorem pauseEntryTimer_spec (now id : Int) (s : Store) (e : Entry)
    (h : findEntry id s.entries = some e) :
    (e.timerState ≠ some .running → pauseEntryTimer now id s = s) ∧
    (∀ st, e.timerState = some .running → e.timerStartTime = some st → st ≠ 0 →
      ∃ e1, findEntry id (pauseEntryTimer now id s).entries = some e1 ∧
        e1.timerState = some .paused ∧
        e1.timerElapsed = e.timerElapsed + (now - st) ∧
        e1.timerStartTime = none ∧
        e1.timePeriods = e.timePeriods ∧
        e1.timerActualStartTime = e.timerActualStartTime) := by
  constructor
  · intro hne
    unfold pauseEntryTimer
    rw [updateById_eq_self]
    intro e2 h2
    rw [h] at h2
    cases h2
    unfold pauseEntry
    rw [if_pos hne]
  · intro st hrun hst h0
    refine ⟨pauseEntry now e, ?_, ?_⟩
    · simp [pauseEntryTimer, findEntry_updateById id _ (pauseEntry_id now), h]
    · rw [pauseEntry_running now e st hrun hst h0]
      exact ⟨rfl, rfl, rfl, rfl, rfl⟩

/-- Witness for C7: a timer started at 10:00:00 is paused at 10:00:30. -/
theorem pauseEntryTimer_spec_witness :
    findEntry 7 (storeOf [startEntry utcPlatform 36000000
        (demoEntry 7 [{ startTime := "09:00", endTime := "10:00" }])]).entries =
      some (startEntry utcPlatform 36000000
        (demoEntry 7 [{ startTime := "09:00", endTime := "10:00" }])) ∧
    (∃ e1, findEntry 7 (pauseEntryTimer 36030000 7 (storeOf [startEntry utcPlatform 36000000
        (demoEntry 7 [{ startTime := "09:00", endTime := "10:00" }])])).entries = some e1 ∧
      e1.timerState = some .paused ∧
      e1.timerElapsed = 0 + (36030000 - 36000000) ∧
      e1.timerStartTime = none ∧
      e1.timePeriods = some [{ startTime := "09:00", endTime := "10:00" }] ∧
      e1.timerActualStartTime = .val (formatHMS (utcPlatform.localTime 36000000))) :=
  ⟨by decide,
    (pauseEntryTimer_spec 36030000 7
      (storeOf [startEntry utcPlatform 36000000
        (demoEntry 7 [{ startTime := "09:00", endTime := "10:00" }])])
      (startEntry utcPlatform 36000000
        (demoEntry 7 [{ startTime := "09:00", endTime := "10:00" }])) (by decide)).2
      36000000 rfl rfl (by decide)⟩

/-- C8: `resumeEntryTimer` leaves the store unchanged unless the entry is
paused; from `paused` it yields `timerState = 'running'` and `timerStartTime =
now`, keeps `timerElapsed` and `timePeriods`, keeps `timerActualStartTime` when
it was set and sets it to now (HH:MM:SS) when it was not. -/
theorem resumeEntryTimer_spec (pf : Platform) (now id : Int) (s : Store) (e : Entry)
    (h : findEntry id s.entries = some e) :
    (e.timerState ≠ some .paused → resumeEntryTimer pf now id s = s) ∧
    (e.timerState = some .paused →
      ∃ e1, findEntry id (resumeEntryTimer pf now id s).entries = some e1 ∧
        e1.timerState = some .running ∧
        e1.timerStartTime = some now ∧
        e1.timerElapsed = e.timerElapsed ∧
        e1.timePeriods = e.timePeriods ∧
        (e.timerActualStartTime.truthy = true →
          e1.timerActualStartTime = e.timerActualStartTime) ∧
        (e.timerActualStartTime.truthy = false →
          e1.timerActualStartTime = .val (formatHMS (pf.localTime now)))) := by
  constructor
  · intro hne
    unfold resumeEntryTimer
    rw [updateById_eq_self]
    intro e2 h2
    rw [h] at h2
    cases h2
    unfold resumeEntry
    rw [if_pos hne]
  · intro hp
    refine ⟨resumeEntry pf now e, ?_, ?_⟩
    · simp [resumeEntryTimer, findEntry_updateById id _ (resumeEntry_id pf now), h]
    · unfold resumeEntry
      rw [if_neg (not_not.mpr hp)]
      simp only
      cases ht : e.timerActualStartTime.truthy with
      | true => simp
      | false => simp

/-- Witness for C8: a timer started at 10:00:00 and paused at 10:00:30 is
resumed at 10:01:00. -/
theorem resumeEntryTimer_spec_witness :
    findEntry 7 (storeOf [pauseEntry 36030000 (startEntry utcPlatform 36000000
        (demoEntry 7 [{ startTime := "09:00", endTime := "10:00" }]))]).entries =
      some (pauseEntry 36030000 (startEntry utcPlatform 36000000
        (demoEntry 7 [{ startTime := "09:00", endTime := "10:00" }]))) ∧
    (findEntry 7 (resumeEntryTimer utcPlatform 36060000 7
        (storeOf [pauseEntry 36030000 (startEntry utcPlatform 36000000
          (demoEntry 7 [{ startTime := "09:00", endTime := "10:00" }]))])).entries).map
      (fun e => (e.timerState, e.timerStartTime, e.timerElapsed, e.timerActualStartTime)) =
      some (some .running, some 36060000, 30000, .val "10:00:00") := by
  refine ⟨by decide, ?_⟩
  have hw := (resumeEntryTimer_spec utcPlatform 36060000 7
    (storeOf [pauseEntry 36030000 (startEntry utcPlatform 36000000
      (demoEntry 7 [{ startTime := "09:00", endTime := "10:00" }]))])
    (pauseEntry 36030000 (startEntry utcPlatform 36000000
      (demoEntry 7 [{ startTime := "09:00", endTime := "10:00" }]))) (by decide)).2 (by decide)
  obtain ⟨e1, h1, h2, h3, h4, _, h6, _⟩ := hw
  rw [h1, Option.map_some', h2, h3, h4, h6 (by decide)]
  decide

/-- C9: `startEntryTimer`, `pauseEntryTimer`, `resumeEntryTimer` and
`stopEntryTimer` called with `id` keep the ids of the entries and their order,
leave every entry with another id unchanged at its position, and leave the
stopwatch fields unchanged. -/
theorem entry_timers_frame (pf : Platform) (now id : Int) (s : Store) :
    sameExceptEntry id s (startEntryTimer pf now id s) ∧
    sameExceptEntry id s (pauseEntryTimer now id s) ∧
    sameExceptEntry id s (resumeEntryTimer pf now id s) ∧
    sameExceptEntry id s (stopEntryTimer pf now id s) :=
  ⟨sameExceptEntry_updateById id _ (startEntry_id pf now) s,
    sameExceptEntry_updateById id _ (pauseEntry_id now) s,
    sameExceptEntry_updateById id _ (resumeEntry_id pf now) s,
    sameExceptEntry_updateById id _ (stopEntry_id pf now) s⟩

/-- C10: `resetStopwatch` with a tracked entry: when the entry's
`duration.totalSeconds` is 0 every entry with the tracked id is removed and the
other entries are kept in order; when it is greater than 0 the entries are
unchanged; in both cases the call returns with `stopwatchEntryId = null`,
`stopwatchElapsed = 0`, `isRunning = false` and `isPaused = false`. -/
theorem resetStopwatch_tracked (s : Store) (id : Int) (e : Entry) (d : Duration)
    (hid : s.stopwatchEntryId = some id) (hid0 : id ≠ 0)
    (hfind : findEntry id s.entries = some e) (hd : e.duration = some d) :
    (d.totalSeconds = some 0 →
      ∃ t, resetStopwatch s = .ok t ∧
        t.entries = s.entries.filter (fun x => x.id != id) ∧
        findEntry id t.entries = none ∧
        t.stopwatchEntryId = none ∧ t.stopwatchElapsed = 0 ∧
        t.isRunning = false ∧ t.isPaused = false) ∧
    (∀ n, d.totalSeconds = some n → 0 < n →
      ∃ t, resetStopwatch s = .ok t ∧
        t.entries = s.entries ∧
        findEntry id t.entries = some e ∧
        t.stopwatchEntryId = none ∧ t.stopwatchElapsed = 0 ∧
        t.isRunning = false ∧ t.isPaused = false) := by
  have htr : truthyNum (some id) = true := by simp [truthyNum, hid0]
  constructor
  · intro h0
    refine ⟨{ emptyStore with entries := s.entries.filter (fun x => x.id != id) },
      ?_, rfl, ?_, rfl, rfl, rfl, rfl⟩
    · simp [resetStopwatch, hid, htr, hfind, hd, h0, removeById, emptyStore]
    · exact findEntry_filter_ne id s.entries
  · intro n hn hpos
    have hne : n ≠ 0 := by omega
    refine ⟨{ emptyStore with entries := s.entries }, ?_, rfl, hfind, rfl, rfl, rfl, rfl⟩
    simp [resetStopwatch, hid, htr, hfind, hd, hn, hne, emptyStore]

/-- Witness for C10: the stopwatch is started and reset before any tick; the
placeholder entry has zero duration and is removed. -/
theorem resetStopwatch_tracked_witness :
    ((startStopwatch utcPlatform 36000000 emptyStore).stopwatchEntryId = some 36000000 ∧
      findEntry 36000000 (startStopwatch utcPlatform 36000000 emptyStore).entries =
        some (newStopwatchEntry utcPlatform 36000000)) ∧
    (∃ t, resetStopwatch (startStopwatch utcPlatform 36000000 emptyStore) = .ok t ∧
      t.entries = (startStopwatch utcPlatform 36000000 emptyStore).entries.filter
        (fun x => x.id != 36000000) ∧
      findEntry 36000000 t.entries = none ∧
      t.stopwatchEntryId = none ∧ t.stopwatchElapsed = 0 ∧
      t.isRunning = false ∧ t.isPaused = false) ∧
    outcome (resetStopwatch (startStopwatch utcPlatform 36000000 emptyStore)) = emptyStore :=
  ⟨⟨by decide, by decide⟩,
    (resetStopwatch_tracked (startStopwatch utcPlatform 36000000 emptyStore) 36000000
      (newStopwatchEntry utcPlatform 36000000) _ (by decide) (by decide) (by decide) rfl).1 rfl,
    by decide⟩

/-- C11: `startStopwatch` appends an entry exactly when the stopwatch is not
running and no entry is tracked; the appended entry is the only new one, has
description 'Stopwatch Entry', one period whose start and end are the current
HH:MM, zero duration and `stopwatchPeriodIndex` 0, and becomes the tracked
entry. When the stopwatch is running the call changes nothing; when an entry is
tracked the entries and the binding are unchanged. -/
theorem startStopwatch_spec (pf : Platform) (now : Int) (s : Store) :
    (s.isRunning = false → truthyNum s.stopwatchEntryId = false →
      ∃ e p, (startStopwatch pf now s).entries = s.entries ++ [e] ∧
        (startStopwatch pf now s).stopwatchEntryId = some e.id ∧
        e.id = now ∧
        e.description = "Stopwatch Entry" ∧
        e.timePeriods = some [p] ∧
        p.startTime = p.endTime ∧
        p.startTime = formatHM (pf.localTime now) ∧
        e.duration = some
          { hours := 0, minutes := 0, seconds := 0, totalSeconds := some 0, totalMinutes := 0 } ∧
        e.stopwatchPeriodIndex = some 0 ∧
        e.timerState = some .stopped) ∧
    (s.isRunning = true → startStopwatch pf now s = s) ∧
    (s.isRunning = false → truthyNum s.stopwatchEntryId = true →
      (startStopwatch pf now s).entries = s.entries ∧
      (startStopwatch pf now s).stopwatchEntryId = s.stopwatchEntryId ∧
      (startStopwatch pf now s).isRunning = true) ∧
    ((startStopwatch pf now s).entries.length = s.entries.length + 1 ↔
      s.isRunning = false ∧ truthyNum s.stopwatchEntryId = false) := by
  refine ⟨?_, ?_, ?_, ?_⟩
  · intro hr ht
    refine ⟨newStopwatchEntry pf now,
      Period.mk (formatHM (pf.localTime now)) (formatHM (pf.localTime now)),
      ?_, ?_, rfl, rfl, rfl, rfl, rfl, rfl, rfl, rfl⟩
    · simp [startStopwatch, hr, ht, createStopwatchEntry]
    · simp [startStopwatch, hr, ht, createStopwatchEntry, newStopwatchEntry]
  · intro hr
    simp [startStopwatch, hr]
  · intro hr ht
    simp [startStopwatch, hr, ht]
  · cases hr : s.isRunning with
    | true => simp [startStopwatch, hr]
    | false =>
      cases ht : truthyNum s.stopwatchEntryId with
      | true => simp [startStopwatch, hr, ht]
      | false => simp [startStopwatch, hr, ht, createStopwatchEntry]

/-- C12: `updateStopwatchEntry` on a tracked entry with periods `P` and a
`stopwatchPeriodIndex` that points at a period of `P` returns normally; the
period at that index gets `endTime` = now (HH:MM:SS) and keeps its `startTime`,
the number of periods and every other period are unchanged, `duration` becomes
`calculateDurationFromPeriods(timePeriods)`, the other fields of the entry, the
other entries and the stopwatch fields are unchanged. -/
theorem updateStopwatchEntry_frame (pf : Platform) (now : Int) (s : Store) (id : Int)
    (e : Entry) (P : List Period) (idx : Nat) (p : Period)
    (hid : s.stopwatchEntryId = some id) (hid0 : id ≠ 0)
    (hfind : findEntry id s.entries = some e) (hP : e.timePeriods = some P)
    (hidx : e.stopwatchPeriodIndex = some idx) (hp : P[idx]? = some p) :
    ∃ t e1 P1, updateStopwatchEntry pf now s = .ok t ∧
      findEntry id t.entries = some e1 ∧
      e1.timePeriods = some P1 ∧
      P1.length = P.length ∧
      P1[idx]? = some { startTime := p.startTime, endTime := formatHMS (pf.localTime now) } ∧
      (∀ j, j ≠ idx → P1[j]? = P[j]?) ∧
      e1.duration = some (calculateDurationFromPeriods P1) ∧
      e1 = { e with timePeriods := some P1, duration := some (calculateDurationFromPeriods P1) } ∧
      sameExceptEntry id s t := by
  have htr : truthyNum (some id) = true := by simp [truthyNum, hid0]
  have hlt : idx < P.length := by
    rcases Nat.lt_or_ge idx P.length with h | h
    · exact h
    · rw [List.getElem?_eq_none h] at hp
      cases hp
  have htick : tickEntry pf now s.stopwatchStartTime e =
      some { e with
        timePeriods := some (P.set idx { p with endTime := formatHMS (pf.localTime now) })
        duration := some (calculateDurationFromPeriods
          (P.set idx { p with endTime := formatHMS (pf.localTime now) })) } := by
    unfold tickEntry
    cases P with
    | nil => simp at hp
    | cons q qs => simp [hP, hidx, hp]
  have hf : ∀ x : Entry, x.id = id →
      ((fun _ : Entry => ({ e with
        timePeriods := some (P.set idx { p with endTime := formatHMS (pf.localTime now) })
        duration := some (calculateDurationFromPeriods
          (P.set idx { p with endTime := formatHMS (pf.localTime now) })) } : Entry)) x).id = id :=
    fun _ _ => (findEntry_some hfind).2
  refine ⟨{ s with entries := updateById id (fun _ => { e with
        timePeriods := some (P.set idx { p with endTime := formatHMS (pf.localTime now) })
        duration := some (calculateDurationFromPeriods
          (P.set idx { p with endTime := formatHMS (pf.localTime now) })) }) s.entries },
    { e with
        timePeriods := some (P.set idx { p with endTime := formatHMS (pf.localTime now) })
        duration := some (calculateDurationFromPeriods
          (P.set idx { p with endTime := formatHMS (pf.localTime now) })) },
    P.set idx { p with endTime := formatHMS (pf.localTime now) }, ?_, ?_, rfl, ?_, ?_,
    ?_, rfl, rfl, ?_⟩
  · simp [updateStopwatchEntry, hid, htr, hfind, htick]
  · show findEntry id (updateById id _ s.entries) = _
    rw [findEntry_updateById_of id _ hf, hfind]
    rfl
  · simp
  · simp [List.getElem?_set, hlt]
  · intro j hj
    simp [List.getElem?_set, Ne.symm hj]
  · exact sameExceptEntry_updateById_of id _ hf s

/-- Witness for C12: the stopwatch started at 10:00:00 ticks at 10:00:30. -/
theorem updateStopwatchEntry_frame_witness :
    ((startStopwatch utcPlatform 36000000 emptyStore).stopwatchEntryId = some 36000000 ∧
      findEntry 36000000 (startStopwatch utcPlatform 36000000 emptyStore).entries =
        some (newStopwatchEntry utcPlatform 36000000) ∧
      (newStopwatchEntry utcPlatform 36000000).timePeriods =
        some [{ startTime := "10:00", endTime := "10:00" }]) ∧
    (∃ t e1 P1, updateStopwatchEntry utcPlatform 36030000
        (startStopwatch utcPlatform 36000000 emptyStore) = .ok t ∧
      findEntry 36000000 t.entries = some e1 ∧
      e1.timePeriods = some P1 ∧
      P1.length = [({ startTime := "10:00", endTime := "10:00" } : Period)].length ∧
      P1[0]? = some { startTime := "10:00"
                      endTime := formatHMS (utcPlatform.localTime 36030000) } ∧
      (∀ j, j ≠ 0 → P1[j]? = [({ startTime := "10:00", endTime := "10:00" } : Period)][j]?) ∧
      e1.duration = some (calculateDurationFromPeriods P1) ∧
      e1 = { newStopwatchEntry utcPlatform 36000000 with
        timePeriods := some P1, duration := some (calculateDurationFromPeriods P1) } ∧
      sameExceptEntry 36000000 (startStopwatch utcPlatform 36000000 emptyStore) t) :=
  ⟨⟨by decide, by decide, by decide⟩,
    updateStopwatchEntry_frame utcPlatform 36030000
      (startStopwatch utcPlatform 36000000 emptyStore) 36000000
      (newStopwatchEntry utcPlatform 36000000) [{ startTime := "10:00", endTime := "10:00" }] 0
      { startTime := "10:00", endTime := "10:00" }
      (by decide) (by decide) (by decide) (by decide) rfl rfl⟩

/-- C16: the migration of an entry is idempotent, `migrate(migrate(e)) =
migrate(e)` in every field, and so is the migration loop over the store. -/
theorem migrateEntry_idempotent :
    (∀ e : Entry, migrateEntry (migrateEntry e) = migrateEntry e) ∧
    (∀ s : Store, migrate (migrate s) = migrate s) := by
  have h1 : ∀ e : Entry, migrateEntry (migrateEntry e) = migrateEntry e := by
    intro e
    obtain ⟨ht, ha, hb, hp, hc⟩ := migrateEntry_fixed e
    generalize migrateEntry e = m at ht ha hb hp hc
    unfold migrateEntry
    rw [migrateTimer_of_some m ht, migrateActualStart_of_ne m ha, migrateBase_of_some m hb,
      migratePeriods_of_some m hp, migrateCompleted_of_some m hc]
  refine ⟨h1, ?_⟩
  intro s
  simp [migrate, h1]

/-- C13: when the keys of the imported entries are pairwise distinct and none is
the key of an entry of the store, `mergeEntries` appends all of them and returns
`addedCount = N`, `skippedCount = 0`; merging the same list again returns
`addedCount = 0`, `skippedCount = N` and leaves the store unchanged. -/
theorem mergeEntries_twice (s : Store) (I : List Entry)
    (hnd : (I.map buildEntryKey).Nodup)
    (hfresh : ∀ e ∈ I, buildEntryKey e ∉ s.entries.map buildEntryKey) :
    (mergeEntries I s).addedCount = I.length ∧
    (mergeEntries I s).skippedCount = 0 ∧
    (mergeEntries I s).store.entries = s.entries ++ I ∧
    (mergeEntries I (mergeEntries I s).store).addedCount = 0 ∧
    (mergeEntries I (mergeEntries I s).store).skippedCount = I.length ∧
    (mergeEntries I (mergeEntries I s).store).store = (mergeEntries I s).store := by
  have h1 : mergeRun s I =
      { existingKeys := s.entries.map buildEntryKey ++ I.map buildEntryKey
        entries := s.entries ++ I
        addedCount := 0 + I.length
        skippedCount := 0 } :=
    foldl_mergeStep_all_added I (mergeInit s) hnd hfresh
  have hstore : (mergeEntries I s).store = { s with entries := s.entries ++ I } := by
    simp [mergeEntries, h1]
  have h2 : mergeRun { s with entries := s.entries ++ I } I =
      { mergeInit { s with entries := s.entries ++ I } with skippedCount := 0 + I.length } := by
    apply foldl_mergeStep_all_skipped
    intro e he
    simp only [mergeInit, List.map_append, List.mem_append]
    exact Or.inr (List.mem_map_of_mem _ he)
  refine ⟨?_, ?_, ?_, ?_, ?_, ?_⟩
  · simp [mergeEntries, h1]
  · simp [mergeEntries, h1]
  · simp [mergeEntries, h1]
  · rw [hstore]
    simp [mergeEntries, h2, mergeInit]
  · rw [hstore]
    simp [mergeEntries, h2, mergeInit]
  · rw [hstore]
    simp [mergeEntries, h2, mergeInit]

/-- Witness for C13: two entries with different periods are imported twice into
a store that holds a third one. -/
theorem mergeEntries_twice_witness :
    ((([demoEntry 1 [{ startTime := "09:00", endTime := "10:00" }],
        demoEntry 2 [{ startTime := "11:00", endTime := "12:00" }]]).map buildEntryKey).Nodup ∧
      (∀ e ∈ [demoEntry 1 [{ startTime := "09:00", endTime := "10:00" }],
          demoEntry 2 [{ startTime := "11:00", endTime := "12:00" }]],
        buildEntryKey e ∉ (storeOf [demoEntry 3 []]).entries.map buildEntryKey)) ∧
    ((mergeEntries [demoEntry 1 [{ startTime := "09:00", endTime := "10:00" }],
        demoEntry 2 [{ startTime := "11:00", endTime := "12:00" }]]
        (storeOf [demoEntry 3 []])).addedCount = 2 ∧
      (mergeEntries [demoEntry 1 [{ startTime := "09:00", endTime := "10:00" }],
        demoEntry 2 [{ startTime := "11:00", endTime := "12:00" }]]
        (storeOf [demoEntry 3 []])).skippedCount = 0) :=
  ⟨⟨by decide, by decide⟩,
    (mergeEntries_twice (storeOf [demoEntry 3 []])
      [demoEntry 1 [{ startTime := "09:00", endTime := "10:00" }],
        demoEntry 2 [{ startTime := "11:00", endTime := "12:00" }]] (by decide) (by decide)).1,
    (mergeEntries_twice (storeOf [demoEntry 3 []])
      [demoEntry 1 [{ startTime := "09:00", endTime := "10:00" }],
        demoEntry 2 [{ startTime := "11:00", endTime := "12:00" }]] (by decide) (by decide)).2.1⟩

/-- C14: `mergeEntries` is append-only: the store after the merge is the store
before followed by a subsequence of the imported list in import order; every
entry of the store keeps its position and its content, the other fields of the
store are unchanged, `addedCount` is the number of appended entries and the two
counters add up to the number of imported entries. -/
theorem mergeEntries_append_only (s : Store) (I : List Entry) :
    ∃ sub : List Entry, sub.Sublist I ∧
      (mergeEntries I s).store = { s with entries := s.entries ++ sub } ∧
      (∀ (i : Nat) (e : Entry), s.entries[i]? = some e →
        (mergeEntries I s).store.entries[i]? = some e) ∧
      (mergeEntries I s).addedCount = sub.length ∧
      (mergeEntries I s).addedCount + (mergeEntries I s).skippedCount = I.length := by
  obtain ⟨sub, h1, h2, h3, h4⟩ := foldl_mergeStep_sublist I (mergeInit s)
  have he : (mergeEntries I s).store.entries = s.entries ++ sub := h2
  refine ⟨sub, h1, ?_, ?_, ?_, ?_⟩
  · simp only [mergeEntries, mergeRun, h2]
    rfl
  · intro i e hi
    rw [he]
    have hlt : i < s.entries.length := by
      rcases Nat.lt_or_ge i s.entries.length with h | h
      · exact h
      · rw [List.getElem?_eq_none h] at hi
        cases hi
    rw [List.getElem?_append_left hlt]
    exact hi
  · simpa [mergeEntries, mergeRun, mergeInit] using h3
  · simpa [mergeEntries, mergeRun, mergeInit] using h4

/-- C15: two entries have the same `buildEntryKey` exactly when their dates,
their descriptions and their period lists (an absent list counting as empty)
are equal; and `mergeEntries` skips an imported entry exactly when its key is
the key of an entry of the store or of an entry earlier in the imported list:
in that case only `skippedCount` grows, otherwise the entry is appended and
`addedCount` grows. -/
theorem buildEntryKey_eq_iff_and_skip :
    (∀ a b : Entry, buildEntryKey a = buildEntryKey b ↔
      a.date = b.date ∧ a.description = b.description ∧
        a.timePeriods.getD [] = b.timePeriods.getD []) ∧
    (∀ (s : Store) (pre : List Entry) (e : Entry),
      ((∃ x ∈ s.entries ++ pre, buildEntryKey x = buildEntryKey e) →
        (mergeEntries (pre ++ [e]) s).store.entries = (mergeEntries pre s).store.entries ∧
        (mergeEntries (pre ++ [e]) s).skippedCount = (mergeEntries pre s).skippedCount + 1 ∧
        (mergeEntries (pre ++ [e]) s).addedCount = (mergeEntries pre s).addedCount) ∧
      ((¬ ∃ x ∈ s.entries ++ pre, buildEntryKey x = buildEntryKey e) →
        (mergeEntries (pre ++ [e]) s).store.entries =
          (mergeEntries pre s).store.entries ++ [e] ∧
        (mergeEntries (pre ++ [e]) s).skippedCount = (mergeEntries pre s).skippedCount ∧
        (mergeEntries (pre ++ [e]) s).addedCount = (mergeEntries pre s).addedCount + 1)) := by
  constructor
  · intro a b
    constructor
    · exact buildEntryKey_inj a b
    · rintro ⟨h1, h2, h3⟩
      simp only [buildEntryKey, h1, h2, h3]
  · intro s pre e
    have hrun : mergeRun s (pre ++ [e]) = mergeStep (mergeRun s pre) e := by
      simp [mergeRun, List.foldl_append]
    have hmem : buildEntryKey e ∈ (mergeRun s pre).existingKeys ↔
        ∃ x ∈ s.entries ++ pre, buildEntryKey x = buildEntryKey e := by
      rw [mergeRun, mem_foldl_mergeStep_keys]
      simp only [mergeInit, List.mem_map, List.mem_append]
      constructor
      · rintro (⟨x, hx, hk⟩ | ⟨x, hx, hk⟩)
        · exact ⟨x, Or.inl hx, hk⟩
        · exact ⟨x, Or.inr hx, hk⟩
      · rintro ⟨x, hx | hx, hk⟩
        · exact Or.inl ⟨x, hx, hk⟩
        · exact Or.inr ⟨x, hx, hk⟩
    constructor
    · intro hex
      have hk := hmem.mpr hex
      simp [mergeEntries, hrun, mergeStep, hk]
    · intro hex
      have hk : buildEntryKey e ∉ (mergeRun s pre).existingKeys := fun h => hex (hmem.mp h)
      simp [mergeEntries, hrun, mergeStep, hk]

/-- C17: `addEntry` with a form whose period list is non-empty and whose periods
all have a start and an end with start < end (comparison of strings) adds
exactly one entry: it has the form's date and periods, `duration =
calculateDurationFromPeriods(periods)`, the trimmed description or 'No
description' when that is empty, `timerState = 'stopped'`, `timerElapsed = 0`
and `completed = false`; for a single HH:MM period `totalSeconds` is the
difference of end and start in seconds. -/
theorem addEntry_valid (pf : Platform) (now : Int) (form : EntryForm) (s : Store)
    (hne : form.periods ≠ [])
    (hvalid : ∀ p ∈ form.periods,
      p.startTime ≠ "" ∧ p.endTime ≠ "" ∧ compare p.startTime p.endTime = .lt) :
    ∃ e, (addEntry pf now form s).entries.Perm (s.entries ++ [e]) ∧
      addEntry pf now form s = { s with entries := (addEntry pf now form s).entries } ∧
      e.id = now ∧
      e.date = form.date ∧
      e.timePeriods = some form.periods ∧
      e.duration = some (calculateDurationFromPeriods form.periods) ∧
      e.description = (if form.description = "" then "No description" else form.description) ∧
      e.timerState = some .stopped ∧
      e.timerElapsed = 0 ∧
      e.completed = some false ∧
      (∀ a b : TimeOfDay,
        form.periods = [{ startTime := formatHM a, endTime := formatHM b }] →
        (calculateDurationFromPeriods form.periods).totalSeconds =
          some ((3600 * (b.hours.val : Int) + 60 * (b.minutes.val : Int)) -
            (3600 * (a.hours.val : Int) + 60 * (a.minutes.val : Int)))) := by
  have hadd := addEntry_of_valid pf now form s hne hvalid
  refine ⟨newEntry pf now form form.periods, ?_, ?_, rfl, rfl, rfl, rfl, ?_, rfl, rfl, rfl, ?_⟩
  · rw [hadd]
    exact List.perm_insertionSort entryLe _
  · rw [hadd]
  · simp only [newEntry, descriptionOrDefault, truthyStr]
    by_cases hd : form.description = "" <;> simp [hd]
  · intro a b hab
    have hv := hvalid _ (by rw [hab]; exact List.mem_singleton_self _)
    have ha : truthyStr (formatHM a) = true := by simpa [truthyStr] using hv.1
    have hb : truthyStr (formatHM b) = true := by simpa [truthyStr] using hv.2.1
    have hsum := sumPeriods_append_singleton [] (formatHM a) (formatHM b) ha hb
    rw [hab]
    simp only [List.nil_append] at hsum
    show some (sumPeriods [{ startTime := formatHM a, endTime := formatHM b }] 0) = _
    rw [hsum, timeToSeconds_formatHM, timeToSeconds_formatHM]
    simp [sumPeriods]

/-- Witness for C17: date 2024-01-01 and the single period 09:00 to 12:00 give
an entry of 10800 seconds. -/
theorem addEntry_valid_witness :
    (([{ startTime := "09:00", endTime := "12:00" }] : List Period) ≠ [] ∧
      ∀ p ∈ ([{ startTime := "09:00", endTime := "12:00" }] : List Period),
        p.startTime ≠ "" ∧ p.endTime ≠ "" ∧ compare p.startTime p.endTime = .lt) ∧
    (∃ e, (addEntry utcPlatform 5
        { date := "2024-01-01", description := ""
          periods := [{ startTime := "09:00", endTime := "12:00" }] } emptyStore).entries.Perm
          (emptyStore.entries ++ [e]) ∧
      e.date = "2024-01-01" ∧
      e.timePeriods = some [{ startTime := "09:00", endTime := "12:00" }] ∧
      e.duration = some (calculateDurationFromPeriods
        [{ startTime := "09:00", endTime := "12:00" }]) ∧
      e.description = "No description") ∧
    (calculateDurationFromPeriods [{ startTime := "09:00", endTime := "12:00" }]).totalSeconds =
      some 10800 := by
  have hv : ∀ p ∈ ([{ startTime := "09:00", endTime := "12:00" }] : List Period),
      p.startTime ≠ "" ∧ p.endTime ≠ "" ∧ compare p.startTime p.endTime = .lt := by decide
  obtain ⟨e, h1, _, _, h4, h5, h6, h7, _⟩ := addEntry_valid utcPlatform 5
    { date := "2024-01-01", description := ""
      periods := [{ startTime := "09:00", endTime := "12:00" }] } emptyStore (by decide) hv
  exact ⟨⟨by decide, hv⟩, ⟨e, h1, h4, h5, h6, h7⟩, by decide⟩

/-- C18, evaluation at the failing input: a form with an empty date and one valid
period raises no alert and `addEntry` stores an entry whose date is the empty
string. -/
theorem addEntry_missing_date_accepted :
    formAlert { date := "", description := ""
                periods := [{ startTime := "09:00", endTime := "12:00" }] } = none ∧
    (addEntry utcPlatform 5
      { date := "", description := ""
        periods := [{ startTime := "09:00", endTime := "12:00" }] } emptyStore).entries.map
      (fun e => (e.id, e.date, e.timePeriods)) =
      [(5, "", some [{ startTime := "09:00", endTime := "12:00" }])] := by
  decide

/-- Validation of the periods: when some period of the form lacks a start or an
end time, or has start >= end, or the period list is empty, `addEntry` (and
`saveInlineEdit`) raises an alert and leaves the store unchanged. -/
theorem addEntry_invalid (pf : Platform) (now id : Int) (form : EntryForm) (s : Store)
    (h : (∃ p ∈ form.periods,
        p.startTime = "" ∨ p.endTime = "" ∨ compare p.startTime p.endTime ≠ .lt) ∨
      form.periods = []) :
    (formAlert form).isSome = true ∧ addEntry pf now form s = s ∧
      saveInlineEdit pf id form s = s := by
  rcases h with h | h
  · obtain ⟨h1, h2⟩ := collectPeriods_of_invalid form.periods h
    refine ⟨?_, ?_, ?_⟩
    · unfold formAlert
      cases hp : periodsAlert form.periods with
      | none => simp [hp] at h2
      | some m => rfl
    · simp [addEntry, h1]
    · unfold saveInlineEdit
      rw [h1]
      cases findEntry id s.entries <;> rfl
  · refine ⟨?_, ?_, ?_⟩
    · simp [formAlert, h, periodsAlert]
    · simp [addEntry, h, collectPeriods]
    · unfold saveInlineEdit
      rw [h]
      cases findEntry id s.entries <;> rfl

/-- An instance of the validation of the periods: a period that ends before it
starts. -/
theorem addEntry_invalid_witness :
    ((∃ p ∈ ([{ startTime := "12:00", endTime := "09:00" }] : List Period),
        p.startTime = "" ∨ p.endTime = "" ∨ compare p.startTime p.endTime ≠ .lt) ∨
      ([{ startTime := "12:00", endTime := "09:00" }] : List Period) = []) ∧
    ((formAlert { date := "2024-01-01", description := ""
                  periods := [{ startTime := "12:00", endTime := "09:00" }] }).isSome = true ∧
      addEntry utcPlatform 5 { date := "2024-01-01", description := ""
                               periods := [{ startTime := "12:00", endTime := "09:00" }] }
        emptyStore = emptyStore ∧
      saveInlineEdit utcPlatform 7 { date := "2024-01-01", description := ""
                                     periods := [{ startTime := "12:00", endTime := "09:00" }] }
        emptyStore = emptyStore) :=
  ⟨by decide,
    addEntry_invalid utcPlatform 5 7
      { date := "2024-01-01", description := ""
        periods := [{ startTime := "12:00", endTime := "09:00" }] } emptyStore (by decide)⟩

/-- C19 (refuted at a concrete input): an entry with the periods 14:00-15:00 and
08:00-09:00 is stored before an entry of the same date that starts at 10:00,
although its earliest period start is 08:00: after `addEntry` the store is not
sorted by date descending and then by earliest period start descending. -/
theorem addEntry_earliest_start_counterexample :
    ¬ List.Pairwise (dateThenStartDesc earliestStart)
      (addEntry utcPlatform 5
        { date := "2024-01-01", description := ""
          periods := [{ startTime := "10:00", endTime := "12:00" }] }
        (addEntry utcPlatform 2
          { date := "2024-01-01", description := ""
            periods := [{ startTime := "14:00", endTime := "15:00" },
              { startTime := "08:00", endTime := "09:00" }] }
          emptyStore)).entries := by
  decide

/-! ## Well-formed clock strings -/

theorem digitVal_colon : digitVal ':' = none := by decide

theorem readDigits_not_colon (cs : List Char) (acc n : Nat) (h : readDigits cs acc = some n) :
    ':' ∉ cs := by
  induction cs generalizing acc with
  | nil => simp
  | cons c cs ih =>
    unfold readDigits at h
    cases hd : digitVal c with
    | none => rw [hd] at h; cases h
    | some d =>
      rw [hd] at h
      intro hmem
      rcases List.mem_cons.mp hmem with h1 | h1
      · rw [← h1, digitVal_colon] at hd
        cases hd
      · exact ih _ h h1

theorem jsNumber_not_colon {cs : List Char} {n : Nat} (h : jsNumber cs = some n) : ':' ∉ cs :=
  readDigits_not_colon cs 0 n h

theorem timeToSeconds_clockString (h m : List Char) (s : Option (List Char)) (H M S : Nat)
    (hh : jsNumber h = some H) (hm : jsNumber m = some M) (hs : secondsComponent s = some S) :
    timeToSeconds (clockString h m s) = 3600 * (H : Int) + 60 * (M : Int) + (S : Int) := by
  have nh := jsNumber_not_colon hh
  have nm := jsNumber_not_colon hm
  cases s with
  | none =>
    have hS : S = 0 := by
      simp [secondsComponent] at hs
      exact hs.symm
    have hsplit : splitOnColon (clockString h m none).data = [h, m] := by
      simp only [clockString, List.append_nil]
      rw [splitOnColon_append _ _ nh, splitOnColon_of_not_mem _ nm]
    simp only [timeToSeconds, hsplit, component]
    simp [hh, hm, hS]
    ring
  | some x =>
    have hx : jsNumber x = some S := hs
    have nx := jsNumber_not_colon hx
    have hsplit : splitOnColon (clockString h m (some x)).data = [h, m, x] := by
      simp only [clockString]
      rw [splitOnColon_append _ _ nh, splitOnColon_append _ _ nm, splitOnColon_of_not_mem _ nx]
    simp only [timeToSeconds, hsplit, component]
    simp [hh, hm, hx]
    ring

theorem fdiv_sixty_floor (n : Int) : 60 * Int.fdiv n 60 ≤ n ∧ n < 60 * Int.fdiv n 60 + 60 := by
  rw [Int.fdiv_eq_ediv n (by decide : (0 : Int) ≤ 60)]
  omega

/-! ## Decomposition of a total -/

theorem decompose_nonneg (n : Int) (hn : 0 ≤ n) :
    (decompose n).hours * 3600 + (decompose n).minutes * 60 + (decompose n).seconds = n ∧
    0 ≤ (decompose n).minutes ∧ (decompose n).minutes < 60 ∧
    0 ≤ (decompose n).seconds ∧ (decompose n).seconds < 60 ∧
    (decompose n).totalMinutes = 60 * (decompose n).hours + (decompose n).minutes := by
  have h1 : Int.tmod n 3600 = n % 3600 := Int.tmod_eq_emod hn (by decide)
  have h2 : Int.tmod n 60 = n % 60 := Int.tmod_eq_emod hn (by decide)
  simp only [decompose, h1, h2]
  rw [Int.fdiv_eq_ediv n (by decide : (0 : Int) ≤ 3600),
    Int.fdiv_eq_ediv n (by decide : (0 : Int) ≤ 60),
    Int.fdiv_eq_ediv (n % 3600) (by decide : (0 : Int) ≤ 60)]
  omega

/-! ## Order of the periods -/

theorem sumPeriods_perm {P Q : List Period} (h : P.Perm Q) : sumPeriods Q 0 = sumPeriods P 0 := by
  rw [sumPeriods_acc, sumPeriods_acc]
  exact congrArg (fun x => (0 : Int) + x) (((h.filter _).map _).sum_eq).symm

theorem sumPeriods_append (P R : List Period) :
    sumPeriods (P ++ R) 0 = sumPeriods P 0 + sumPeriods R 0 := by
  rw [sumPeriods_acc, sumPeriods_acc, sumPeriods_acc, List.filter_append, List.map_append,
    List.sum_append]
  omega

/-! ## Durations of well-formed periods -/

theorem clockSeconds_timeToSeconds (time : String) (n : Nat) (h : clockSeconds time = some n) :
    timeToSeconds time = (n : Int) := by
  unfold clockSeconds at h
  unfold timeToSeconds
  split at h
  · rename_i hd m heq
    split at h
    · rename_i H M hH hM
      cases h
      simp only [heq, component]
      simp [hH, hM]
      ring
    · cases h
  · rename_i hd m sc heq
    split at h
    · rename_i H M S hH hM hS
      cases h
      simp only [heq, component]
      simp [hH, hM, hS]
      ring
    · cases h
  · cases h

theorem readingsTotal_bound (P : List Period) (r : Nat) (h : readingsTotal P = some r)
    (acc : Int) : acc - r ≤ sumPeriods P acc ∧ sumPeriods P acc ≤ acc + r := by
  induction P generalizing r acc with
  | nil =>
    simp only [readingsTotal, Option.some.injEq] at h
    subst h
    simp [sumPeriods]
  | cons p ps ih =>
    unfold readingsTotal at h
    unfold sumPeriods
    split at h
    · rename_i hp
      rw [if_pos hp]
      split at h
      · rename_i a b r2 ha hb hr
        cases h
        have := ih r2 hr (acc + ((calculateDuration p.startTime p.endTime).totalSeconds).getD 0)
        simp only [calculateDuration, decompose, Option.getD_some,
          clockSeconds_timeToSeconds _ _ ha, clockSeconds_timeToSeconds _ _ hb] at this ⊢
        push_cast
        omega
      · cases h
    · rename_i hp
      rw [if_neg hp]
      exact ih r h acc

theorem readingsTotal_cons (p : Period) (ps : List Period) :
    readingsTotal (p :: ps) =
      if truthyStr p.startTime && truthyStr p.endTime then
        match clockSeconds p.startTime, clockSeconds p.endTime, readingsTotal ps with
        | some a, some b, some r => some (a + b + r)
        | _, _, _ => none
      else readingsTotal ps := by
  rw [readingsTotal]

theorem readingsTotal_append (P R : List Period) (r : Nat)
    (h : readingsTotal (P ++ R) = some r) :
    ∃ rp rr, readingsTotal P = some rp ∧ readingsTotal R = some rr ∧ rp + rr = r := by
  induction P generalizing r with
  | nil => exact ⟨0, r, rfl, h, by omega⟩
  | cons p ps ih =>
    rw [List.cons_append, readingsTotal_cons] at h
    rw [readingsTotal_cons]
    split at h
    · rename_i hp
      rw [if_pos hp]
      split at h
      · rename_i a b r2 ha hb hr
        cases h
        obtain ⟨rp, rr, h1, h2, h3⟩ := ih r2 hr
        refine ⟨a + b + rp, rr, ?_, h2, by omega⟩
        simp [ha, hb, h1]
      · cases h
    · rename_i hp
      rw [if_neg hp]
      exact ih r h

/-- C21: for well-formed time strings `H1:M1[:S1]` and `H2:M2[:S2]` (components
that are strings of decimal digits, a missing seconds component counting as 0)
whose readings in seconds are at most 2^53, `calculateDuration` returns the
plain difference of the two readings, an integer of magnitude at most 2^53; the
result is not clamped, so it is negative exactly when the end precedes the
start, and `totalMinutes` is the floor of `totalSeconds / 60`. -/
theorem calculateDuration_wellFormed (h1 m1 h2 m2 : List Char) (s1 s2 : Option (List Char))
    (H1 M1 S1 H2 M2 S2 : Nat)
    (hh1 : jsNumber h1 = some H1) (hm1 : jsNumber m1 = some M1)
    (hs1 : secondsComponent s1 = some S1)
    (hh2 : jsNumber h2 = some H2) (hm2 : jsNumber m2 = some M2)
    (hs2 : secondsComponent s2 = some S2)
    (hb1 : 3600 * H1 + 60 * M1 + S1 ≤ maxExactSeconds)
    (hb2 : 3600 * H2 + 60 * M2 + S2 ≤ maxExactSeconds) :
    ∃ total : Int,
      (calculateDuration (clockString h1 m1 s1) (clockString h2 m2 s2)).totalSeconds = some total ∧
      total = (3600 * (H2 : Int) + 60 * M2 + S2) - (3600 * (H1 : Int) + 60 * M1 + S1) ∧
      -(maxExactSeconds : Int) ≤ total ∧ total ≤ (maxExactSeconds : Int) ∧
      (total < 0 ↔ 3600 * (H2 : Int) + 60 * M2 + S2 < 3600 * (H1 : Int) + 60 * M1 + S1) ∧
      60 * (calculateDuration (clockString h1 m1 s1) (clockString h2 m2 s2)).totalMinutes ≤ total ∧
      total <
        60 * (calculateDuration (clockString h1 m1 s1) (clockString h2 m2 s2)).totalMinutes + 60 := by
  have e1 := timeToSeconds_clockString h1 m1 s1 H1 M1 S1 hh1 hm1 hs1
  have e2 := timeToSeconds_clockString h2 m2 s2 H2 M2 S2 hh2 hm2 hs2
  have c1 : 3600 * (H1 : Int) + 60 * M1 + S1 ≤ (maxExactSeconds : Int) := by exact_mod_cast hb1
  have c2 : 3600 * (H2 : Int) + 60 * M2 + S2 ≤ (maxExactSeconds : Int) := by exact_mod_cast hb2
  refine ⟨timeToSeconds (clockString h2 m2 s2) - timeToSeconds (clockString h1 m1 s1), rfl, ?_, ?_,
    ?_, ?_, ?_⟩
  · rw [e1, e2]
  · rw [e1, e2]
    omega
  · rw [e1, e2]
    omega
  · rw [e1, e2]
    omega
  · exact fdiv_sixty_floor _

/-- Witness for C21: start `10:30`, end `09:15:20`; the result is -4480 seconds
and -75 minutes. -/
theorem calculateDuration_wellFormed_witness :
    (jsNumber ['1', '0'] = some 10 ∧ jsNumber ['3', '0'] = some 30 ∧
      secondsComponent none = some 0 ∧ jsNumber ['0', '9'] = some 9 ∧
      jsNumber ['1', '5'] = some 15 ∧ secondsComponent (some ['2', '0']) = some 20 ∧
      3600 * 10 + 60 * 30 + 0 ≤ maxExactSeconds ∧ 3600 * 9 + 60 * 15 + 20 ≤ maxExactSeconds) ∧
    (clockString ['1', '0'] ['3', '0'] none = "10:30" ∧
      clockString ['0', '9'] ['1', '5'] (some ['2', '0']) = "09:15:20" ∧
      (calculateDuration "10:30" "09:15:20").totalSeconds = some (-4480) ∧
      (calculateDuration "10:30" "09:15:20").totalMinutes = -75) ∧
    ∃ total : Int,
      (calculateDuration (clockString ['1', '0'] ['3', '0'] none)
        (clockString ['0', '9'] ['1', '5'] (some ['2', '0']))).totalSeconds = some total ∧
      total = (3600 * ((9 : Nat) : Int) + 60 * (15 : Nat) + (20 : Nat)) -
        (3600 * ((10 : Nat) : Int) + 60 * (30 : Nat) + (0 : Nat)) ∧
      -(maxExactSeconds : Int) ≤ total ∧ total ≤ (maxExactSeconds : Int) ∧
      (total < 0 ↔ 3600 * ((9 : Nat) : Int) + 60 * (15 : Nat) + (20 : Nat) <
        3600 * ((10 : Nat) : Int) + 60 * (30 : Nat) + (0 : Nat)) ∧
      60 * (calculateDuration (clockString ['1', '0'] ['3', '0'] none)
        (clockString ['0', '9'] ['1', '5'] (some ['2', '0']))).totalMinutes ≤ total ∧
      total < 60 * (calculateDuration (clockString ['1', '0'] ['3', '0'] none)
        (clockString ['0', '9'] ['1', '5'] (some ['2', '0']))).totalMinutes + 60 :=
  ⟨by decide, by decide,
    calculateDuration_wellFormed ['1', '0'] ['3', '0'] ['0', '9'] ['1', '5'] none
      (some ['2', '0']) 10 30 0 9 15 20 (by decide) (by decide) (by decide) (by decide)
      (by decide) (by decide) (by decide) (by decide)⟩

/-- C22: for a period list whose counted periods are well-formed time strings
with readings that add up to at most 2^53, and whose total is non-negative, the
duration returned by `calculateDurationFromPeriods` decomposes the total
exactly: the total is at most 2^53, hours, minutes and seconds add up to
`totalSeconds`, minutes and seconds lie in 0..59, and `totalMinutes` is the
floor of `totalSeconds / 60` and equals `60 * hours + minutes`; for the empty
list all five fields are 0. -/
theorem calculateDurationFromPeriods_decomposition (P : List Period) (r : Nat) (n : Int)
    (hr : readingsTotal P = some r) (hb : r ≤ maxExactSeconds)
    (h : (calculateDurationFromPeriods P).totalSeconds = some n) (hn : 0 ≤ n) :
    n ≤ (maxExactSeconds : Int) ∧
    (calculateDurationFromPeriods P).hours * 3600 +
        (calculateDurationFromPeriods P).minutes * 60 +
        (calculateDurationFromPeriods P).seconds = n ∧
    0 ≤ (calculateDurationFromPeriods P).minutes ∧
    (calculateDurationFromPeriods P).minutes < 60 ∧
    0 ≤ (calculateDurationFromPeriods P).seconds ∧
    (calculateDurationFromPeriods P).seconds < 60 ∧
    60 * (calculateDurationFromPeriods P).totalMinutes ≤ n ∧
    n < 60 * (calculateDurationFromPeriods P).totalMinutes + 60 ∧
    (calculateDurationFromPeriods P).totalMinutes =
      60 * (calculateDurationFromPeriods P).hours + (calculateDurationFromPeriods P).minutes ∧
    calculateDurationFromPeriods [] =
      { hours := 0, minutes := 0, seconds := 0, totalSeconds := some 0, totalMinutes := 0 } := by
  have hn2 : sumPeriods P 0 = n := by
    simpa [calculateDurationFromPeriods, decompose] using h
  have hd : calculateDurationFromPeriods P = decompose n := by
    rw [calculateDurationFromPeriods, hn2]
  have hbound := (readingsTotal_bound P r hr 0).2
  have hb2 : (r : Int) ≤ (maxExactSeconds : Int) := by exact_mod_cast hb
  rw [hd]
  obtain ⟨a, b, c, d, e, f⟩ := decompose_nonneg n hn
  have g := fdiv_sixty_floor n
  exact ⟨by omega, a, b, c, d, e, g.1, g.2, f, by decide⟩

/-- Witness for C22: the periods 09:00 to 10:30:15 and 13:00 to 13:45, with a
skipped period between them, total 8115 seconds: 2 hours, 15 minutes and 15
seconds, 135 minutes. -/
theorem calculateDurationFromPeriods_decomposition_witness :
    (readingsTotal demoPeriods = some 166515 ∧ 166515 ≤ maxExactSeconds ∧
      (calculateDurationFromPeriods demoPeriods).totalSeconds = some 8115 ∧ (0 : Int) ≤ 8115) ∧
    calculateDurationFromPeriods demoPeriods =
      { hours := 2, minutes := 15, seconds := 15, totalSeconds := some 8115,
        totalMinutes := 135 } ∧
    ((8115 : Int) ≤ (maxExactSeconds : Int) ∧
    (calculateDurationFromPeriods demoPeriods).hours * 3600 +
        (calculateDurationFromPeriods demoPeriods).minutes * 60 +
        (calculateDurationFromPeriods demoPeriods).seconds = 8115 ∧
    0 ≤ (calculateDurationFromPeriods demoPeriods).minutes ∧
    (calculateDurationFromPeriods demoPeriods).minutes < 60 ∧
    0 ≤ (calculateDurationFromPeriods demoPeriods).seconds ∧
    (calculateDurationFromPeriods demoPeriods).seconds < 60 ∧
    60 * (calculateDurationFromPeriods demoPeriods).totalMinutes ≤ 8115 ∧
    8115 < 60 * (calculateDurationFromPeriods demoPeriods).totalMinutes + 60 ∧
    (calculateDurationFromPeriods demoPeriods).totalMinutes =
      60 * (calculateDurationFromPeriods demoPeriods).hours +
        (calculateDurationFromPeriods demoPeriods).minutes ∧
    calculateDurationFromPeriods [] =
      { hours := 0, minutes := 0, seconds := 0, totalSeconds := some 0, totalMinutes := 0 }) :=
  ⟨by decide, by decide,
    calculateDurationFromPeriods_decomposition demoPeriods 166515 8115 (by decide) (by decide)
      (by decide) (by decide)⟩

/-- C23: for period lists `P` and `R` whose counted periods are well-formed time
strings with readings that add up to at most 2^53, the total does not depend on
the order of the periods: a permutation of `P`, or of `P ++ R`, has the same
duration in all five fields; and the `totalSeconds` of `P ++ R` is the sum of
the `totalSeconds` of `P` and of `R`, all three of magnitude at most 2^53. -/
theorem calculateDurationFromPeriods_perm_append (P R : List Period) (r : Nat)
    (hr : readingsTotal (P ++ R) = some r) (hb : r ≤ maxExactSeconds) :
    (∀ Q : List Period, P.Perm Q →
      calculateDurationFromPeriods Q = calculateDurationFromPeriods P) ∧
    (∀ Q : List Period, (P ++ R).Perm Q →
      calculateDurationFromPeriods Q = calculateDurationFromPeriods (P ++ R)) ∧
    ∃ a b : Int,
      (calculateDurationFromPeriods P).totalSeconds = some a ∧
      (calculateDurationFromPeriods R).totalSeconds = some b ∧
      (calculateDurationFromPeriods (P ++ R)).totalSeconds = some (a + b) ∧
      -(maxExactSeconds : Int) ≤ a ∧ a ≤ (maxExactSeconds : Int) ∧
      -(maxExactSeconds : Int) ≤ b ∧ b ≤ (maxExactSeconds : Int) ∧
      -(maxExactSeconds : Int) ≤ a + b ∧ a + b ≤ (maxExactSeconds : Int) := by
  obtain ⟨rp, rr, hp, hrr, hsum⟩ := readingsTotal_append P R r hr
  have bp := readingsTotal_bound P rp hp 0
  have br := readingsTotal_bound R rr hrr 0
  have hb2 : (r : Int) ≤ (maxExactSeconds : Int) := by exact_mod_cast hb
  have hsum2 : (rp : Int) + (rr : Int) = (r : Int) := by exact_mod_cast hsum
  refine ⟨?_, ?_, sumPeriods P 0, sumPeriods R 0, rfl, rfl, ?_, ?_, ?_, ?_, ?_, ?_, ?_⟩
  · intro Q h
    rw [calculateDurationFromPeriods, calculateDurationFromPeriods, sumPeriods_perm h]
  · intro Q h
    rw [calculateDurationFromPeriods, calculateDurationFromPeriods, sumPeriods_perm h]
  · simp [calculateDurationFromPeriods, decompose, sumPeriods_append]
  all_goals omega

/-- Witness for C23: the three periods of `demoPeriods` followed by 14:00 to
14:30; the totals are 8115, 1800 and 9915 seconds, and the reversed list has
the same duration. -/
theorem calculateDurationFromPeriods_perm_append_witness :
    (readingsTotal (demoPeriods ++ demoAfternoon) =
        some 269115 ∧ 269115 ≤ maxExactSeconds) ∧
    ((calculateDurationFromPeriods demoPeriods).totalSeconds = some 8115 ∧
      (calculateDurationFromPeriods demoAfternoon).totalSeconds = some 1800 ∧
      (calculateDurationFromPeriods
        (demoPeriods ++ demoAfternoon)).totalSeconds =
        some 9915 ∧
      calculateDurationFromPeriods
          (demoPeriods ++ demoAfternoon).reverse =
        calculateDurationFromPeriods
          (demoPeriods ++ demoAfternoon)) ∧
    ((∀ Q : List Period, demoPeriods.Perm Q →
      calculateDurationFromPeriods Q = calculateDurationFromPeriods demoPeriods) ∧
    (∀ Q : List Period, (demoPeriods ++ demoAfternoon).Perm Q →
      calculateDurationFromPeriods Q = calculateDurationFromPeriods
        (demoPeriods ++ demoAfternoon)) ∧
    ∃ a b : Int,
      (calculateDurationFromPeriods demoPeriods).totalSeconds = some a ∧
      (calculateDurationFromPeriods demoAfternoon).totalSeconds = some b ∧
      (calculateDurationFromPeriods
        (demoPeriods ++ demoAfternoon)).totalSeconds =
        some (a + b) ∧
      -(maxExactSeconds : Int) ≤ a ∧ a ≤ (maxExactSeconds : Int) ∧
      -(maxExactSeconds : Int) ≤ b ∧ b ≤ (maxExactSeconds : Int) ∧
      -(maxExactSeconds : Int) ≤ a + b ∧ a + b ≤ (maxExactSeconds : Int)) :=
  ⟨by decide, by decide,
    calculateDurationFromPeriods_perm_append demoPeriods
      demoAfternoon 269115 (by decide) (by decide)⟩

/-! ## Loading and missing ids -/

/-- C24 (as stated, refuted): a persisted document that is present but is not
JSON, here the text of a single opening brace, makes `JSON.parse` throw inside
`loadEntries`; the exception leaves `loadEntries` and the constructor, and no
empty collection is returned. -/
theorem loadEntries_unparsable_counterexample :
    loadEntries (some { text := "\x7b", parsed := none }) = none ∧
    loadEntries (some { text := "\x7b", parsed := none }) ≠ some [] ∧
    newTimeTracker (some { text := "\x7b", parsed := none }) = none := by
  decide

/-- C24 (amended): `loadEntries` returns the empty collection when the
persisted document is absent or is the empty string; for any other document it
returns what `JSON.parse` returns, and when `JSON.parse` throws the exception
leaves `loadEntries` and the constructor. -/
theorem loadEntries_spec (saved : Option StoredDocument) :
    (saved = none → loadEntries saved = some []) ∧
    (∀ doc, saved = some doc → doc.text = "" → loadEntries saved = some []) ∧
    (∀ doc, saved = some doc → doc.text ≠ "" → loadEntries saved = doc.parsed) ∧
    (∀ doc, saved = some doc → doc.text ≠ "" → doc.parsed = none →
      loadEntries saved = none ∧ newTimeTracker saved = none) := by
  refine ⟨?_, ?_, ?_, ?_⟩
  · intro h
    rw [h]
    rfl
  · intro doc h ht
    rw [h]
    simp [loadEntries, truthyStr, ht]
  · intro doc h ht
    rw [h]
    simp [loadEntries, truthyStr, ht]
  · intro doc h ht hp
    rw [h]
    simp [newTimeTracker, loadEntries, truthyStr, ht, hp]

theorem findEntry_eq_none {id : Int} {es : List Entry} (h : findEntry id es = none) :
    ∀ e ∈ es, e.id ≠ id := by
  induction es with
  | nil => simp
  | cons a as ih =>
    unfold findEntry at h
    split at h
    · cases h
    · rename_i ha
      intro e he
      rcases List.mem_cons.mp he with h1 | h1
      · rw [h1]; exact ha
      · exact ih h e h1

theorem removeById_of_missing {id : Int} {es : List Entry} (h : findEntry id es = none) :
    removeById id es = es := by
  unfold removeById
  apply List.filter_eq_self.mpr
  intro e he
  simpa using findEntry_eq_none h e he

theorem updateById_of_missing {id : Int} (f : Entry → Entry) {es : List Entry}
    (h : findEntry id es = none) : updateById id f es = es := by
  apply updateById_eq_self
  intro e he
  rw [h] at he
  cases he

/-! ## PTO ledger -/

theorem saveEntry_nil (eid : Option Int) (now : Int) (iso d t n : String)
    (hd : d ≠ "") (ht : t ≠ "") :
    saveEntry eid now iso d t n [] =
      [{ id := if truthyNum eid then eid.getD 0 else now, date := d, type := t, notes := n,
         createdAt := iso }] := by
  simp [saveEntry, truthyStr, hd, ht, findIndexByDate]

theorem saveEntry_cons (eid : Option Int) (now : Int) (iso d t n : String)
    (hd : d ≠ "") (ht : t ≠ "") (a : PtoEntry) (es : List PtoEntry) :
    saveEntry eid now iso d t n (a :: es) =
      if a.date = d then
        { id := if truthyNum eid then eid.getD 0 else a.id, date := d, type := t, notes := n,
          createdAt := a.createdAt } :: es
      else a :: saveEntry eid now iso d t n es := by
  by_cases ha : a.date = d
  · simp [saveEntry, truthyStr, hd, ht, findIndexByDate, ha]
  · simp only [saveEntry, truthyStr, bne_iff_ne, ne_eq, hd, ht, not_false_eq_true, decide_True,
      Bool.not_true, Bool.or_self, Bool.false_eq_true, ↓reduceIte, findIndexByDate, ha]
    cases hi : findIndexByDate d es with
    | none => simp [hd, ht]
    | some i =>
      simp only [Option.map_some', List.getElem?_cons_succ]
      cases hx : es[i]? with
      | none => simp
      | some x => simp [List.set_cons_succ, hd, ht]

theorem addOrUpdatePtoEntry_eq (now : Int) (iso d t : String) (es : List PtoEntry) :
    addOrUpdatePtoEntry now iso d t es = saveEntry none now iso d t "" es := by
  simp [addOrUpdatePtoEntry, saveEntry, truthyNum]


/-- What a save leaves in the ledger, for any value of `editingId`: the entries
of the other dates, one entry per date, and a single entry for the saved date;
the saved entry replaces the entry that existed for the date, taking its
`createdAt` and, unless an id is under edit, its id. -/
theorem saveEntry_ledger (eid : Option Int) (now : Int) (iso d t n : String)
    (hd : d ≠ "") (ht : t ≠ "") (es : List PtoEntry) (h : onePerDate es) :
    onePerDate (saveEntry eid now iso d t n es) ∧
    (saveEntry eid now iso d t n es).filter (fun e => e.date ≠ d) =
      es.filter (fun e => e.date ≠ d) ∧
    ∃ saved : PtoEntry,
      entriesOn d (saveEntry eid now iso d t n es) = [saved] ∧
      saved.date = d ∧ saved.type = t ∧ saved.notes = n ∧
      (∀ ex ∈ es, ex.date = d →
        (saveEntry eid now iso d t n es).length = es.length ∧
        saved.id = (if truthyNum eid then eid.getD 0 else ex.id) ∧
        saved.createdAt = ex.createdAt) ∧
      ((∀ ex ∈ es, ex.date ≠ d) →
        saveEntry eid now iso d t n es = es ++ [saved] ∧
        saved.id = (if truthyNum eid then eid.getD 0 else now) ∧ saved.createdAt = iso) := by
  induction es with
  | nil =>
    rw [saveEntry_nil eid now iso d t n hd ht]
    refine ⟨by simp [onePerDate], by simp,
      { id := if truthyNum eid then eid.getD 0 else now, date := d, type := t, notes := n,
        createdAt := iso }, by simp [entriesOn], rfl, rfl, rfl, ?_, ?_⟩
    · intro ex hex
      cases hex
    · intro _
      exact ⟨rfl, rfl, rfl⟩
  | cons a es ih =>
    have hnd : a.date ∉ es.map (fun e => e.date) ∧ onePerDate es := by
      simpa [onePerDate] using h
    rw [saveEntry_cons eid now iso d t n hd ht]
    by_cases ha : a.date = d
    · rw [if_pos ha]
      have hrest : ∀ e ∈ es, e.date ≠ d := by
        intro e he hed
        exact hnd.1 (List.mem_map.mpr ⟨e, he, hed.trans ha.symm⟩)
      have hfil : es.filter (fun e => decide (e.date = d)) = [] := by
        apply List.filter_eq_nil_iff.mpr
        intro e he
        simpa using hrest e he
      refine ⟨?_, by simp [List.filter_cons, ha],
        { id := if truthyNum eid then eid.getD 0 else a.id, date := d, type := t, notes := n,
          createdAt := a.createdAt }, ?_, rfl, rfl, rfl, ?_, ?_⟩
      · have : d ∉ es.map (fun e => e.date) := ha ▸ hnd.1
        simpa [onePerDate, hnd.2] using And.intro this hnd.2
      · simp [entriesOn, List.filter_cons, hfil]
      · intro ex hex hexd
        rcases List.mem_cons.mp hex with h1 | h1
        · subst h1
          exact ⟨rfl, rfl, rfl⟩
        · exact absurd hexd (hrest ex h1)
      · intro hall
        exact absurd ha (hall a (List.mem_cons_self _ _))
    · rw [if_neg ha]
      obtain ⟨i1, i2, saved, i3, i4, i5, i6, i7, i8⟩ := ih hnd.2
      refine ⟨?_, ?_, saved, ?_, i4, i5, i6, ?_, ?_⟩
      · have hsub : ∀ x ∈ (saveEntry eid now iso d t n es).map (fun e => e.date),
            x ∈ es.map (fun e => e.date) ∨ x = d := by
          intro x hx
          obtain ⟨e, he, hex⟩ := List.mem_map.mp hx
          by_cases hed : e.date = d
          · exact Or.inr (hex ▸ hed)
          · have : e ∈ (saveEntry eid now iso d t n es).filter (fun e => e.date ≠ d) :=
              List.mem_filter.mpr ⟨he, by simpa using hed⟩
            rw [i2] at this
            exact Or.inl (List.mem_map.mpr ⟨e, (List.mem_filter.mp this).1, hex⟩)
        have hnot : a.date ∉ (saveEntry eid now iso d t n es).map (fun e => e.date) := by
          intro hmem
          rcases hsub _ hmem with h1 | h1
          · exact hnd.1 h1
          · exact ha h1
        simpa [onePerDate] using And.intro hnot i1
      · simp only [List.filter_cons, ha, ne_eq, not_false_eq_true, decide_True, if_true]
        exact congrArg (fun l => a :: l) i2
      · have : entriesOn d (a :: saveEntry eid now iso d t n es) =
            entriesOn d (saveEntry eid now iso d t n es) := by
          simp [entriesOn, List.filter_cons, ha]
        rw [this, i3]
      · intro ex hex hexd
        rcases List.mem_cons.mp hex with h1 | h1
        · subst h1
          exact absurd hexd ha
        · obtain ⟨j1, j2, j3⟩ := i7 ex h1 hexd
          exact ⟨by simp [j1], j2, j3⟩
      · intro hall
        obtain ⟨j1, j2, j3⟩ := i8 (fun ex hex => hall ex (List.mem_cons_of_mem _ hex))
        exact ⟨by rw [j1]; rfl, j2, j3⟩


/-- C26: on a ledger with at most one entry per date, a confirmed save for a
non-empty date and type, by `addOrUpdatePtoEntry` or by `saveEntry` with no
entry under edit (`editingId` is `null`, the case in which the confirmation is
asked), leaves exactly one entry for the date, of the saved type, and at most one
entry per date; an entry that existed for the date is replaced in place, the
number of entries is unchanged and the saved entry keeps its id and its
`createdAt`; the entries of the other dates are unchanged. -/
theorem pto_save_spec (now : Int) (iso d t n : String) (es : List PtoEntry)
    (hd : d ≠ "") (ht : t ≠ "") (h : onePerDate es) :
    ledgerAfterSave d t (fun ex => ex.id) es (addOrUpdatePtoEntry now iso d t es) ∧
    ledgerAfterSave d t (fun ex => ex.id) es (saveEntry none now iso d t n es) := by
  have key : ∀ n : String,
      ledgerAfterSave d t (fun ex => ex.id) es (saveEntry none now iso d t n es) := by
    intro n
    obtain ⟨a, b, saved, c1, _, c3, _, c5, c6⟩ := saveEntry_ledger none now iso d t n hd ht es h
    refine ⟨a, b, saved, c1, c3, ?_, fun hall => (c6 hall).1⟩
    intro ex hex hexd
    obtain ⟨j1, j2, j3⟩ := c5 ex hex hexd
    exact ⟨j1, by simpa [truthyNum] using j2, j3⟩
  refine ⟨?_, key n⟩
  rw [addOrUpdatePtoEntry_eq]
  exact key ""

/-- Witness for C26: 1 June is saved as vacation and then as sick; the ledger
holds the single entry of 1 June, of type sick, with the id and `createdAt` of
the first save. -/
theorem pto_save_spec_witness :
    ("2024-06-01" ≠ "" ∧ "sick" ≠ "" ∧
      onePerDate (addOrUpdatePtoEntry 1 "T1" "2024-06-01" "vacation" [])) ∧
    (addOrUpdatePtoEntry 2 "T2" "2024-06-01" "sick"
        (addOrUpdatePtoEntry 1 "T1" "2024-06-01" "vacation" []) =
      [{ id := 1, date := "2024-06-01", type := "sick", notes := "", createdAt := "T1" }] ∧
    saveEntry none 2 "T2" "2024-06-01" "sick" "flu"
        (saveEntry none 1 "T1" "2024-06-01" "vacation" "" []) =
      [{ id := 1, date := "2024-06-01", type := "sick", notes := "flu", createdAt := "T1" }]) ∧
    (ledgerAfterSave "2024-06-01" "sick" (fun ex => ex.id)
        (addOrUpdatePtoEntry 1 "T1" "2024-06-01" "vacation" [])
        (addOrUpdatePtoEntry 2 "T2" "2024-06-01" "sick"
          (addOrUpdatePtoEntry 1 "T1" "2024-06-01" "vacation" [])) ∧
      ledgerAfterSave "2024-06-01" "sick" (fun ex => ex.id)
        (addOrUpdatePtoEntry 1 "T1" "2024-06-01" "vacation" [])
        (saveEntry none 2 "T2" "2024-06-01" "sick" "flu"
          (addOrUpdatePtoEntry 1 "T1" "2024-06-01" "vacation" []))) :=
  ⟨by decide, by decide,
    pto_save_spec 2 "T2" "2024-06-01" "sick" "flu"
      (addOrUpdatePtoEntry 1 "T1" "2024-06-01" "vacation" []) (by decide) (by decide)
      (by decide)⟩

/-- The edit path of `pto.js`, in which no confirmation is asked: while the
entry with id 1 (1 June) is under edit, a save for 2 June replaces the entry
that existed for 2 June, whose id is 2, by an entry whose id is 1, and leaves
the edited entry at its date, so that two entries share the id 1. -/
theorem saveEntry_edit_onto_other_date :
    onePerDate demoLedger ∧
    (∃ ex ∈ demoLedger, ex.date = "2024-06-02" ∧ ex.id = 2) ∧
    saveEntry (some 1) 99 "C" "2024-06-02" "personal" "" demoLedger =
      [{ id := 1, date := "2024-06-01", type := "vacation", notes := "", createdAt := "A" },
        { id := 1, date := "2024-06-02", type := "personal", notes := "", createdAt := "B" }] := by
  decide

/-! ## Clock strings in the ordering of strings -/

theorem pad2_data : ∀ n, n < 60 →
    (pad2 n).data = [Char.ofNat (48 + n / 10), Char.ofNat (48 + n % 10)] := by
  decide

theorem digit_lt : ∀ a b : Fin 10,
    (Char.ofNat (48 + a.val) < Char.ofNat (48 + b.val) ↔ a.val < b.val) ∧
    (Char.ofNat (48 + a.val) = Char.ofNat (48 + b.val) ↔ a.val = b.val) := by
  decide

theorem string_lt_iff (s e : String) : compare s e = .lt ↔ List.lt s.data e.data := by
  rw [compare_lt_iff_lt, String.lt_iff_toList_lt]
  exact (List.lt_iff_lex_lt _ _).symm

theorem cons_lt_cons_iff (a c : Char) (as cs : List Char) :
    List.lt (a :: as) (c :: cs) ↔ a < c ∨ (a = c ∧ List.lt as cs) := by
  constructor
  · intro h
    cases h with
    | head _ _ h1 => exact Or.inl h1
    | tail h1 h2 h3 => exact Or.inr ⟨le_antisymm (not_lt.mp h2) (not_lt.mp h1), h3⟩
  · intro h
    rcases h with h | ⟨h1, h2⟩
    · exact List.lt.head _ _ h
    · subst h1
      exact List.lt.tail (lt_irrefl _) (lt_irrefl _) h2

theorem digit_pair_lt (a b c d : Nat) (ha : a < 10) (hb : b < 10) (hc : c < 10) (hd : d < 10)
    (rest1 rest2 : List Char) :
    List.lt (Char.ofNat (48 + a) :: Char.ofNat (48 + b) :: rest1)
        (Char.ofNat (48 + c) :: Char.ofNat (48 + d) :: rest2) ↔
      10 * a + b < 10 * c + d ∨ (10 * a + b = 10 * c + d ∧ List.lt rest1 rest2) := by
  have h1 := digit_lt ⟨a, ha⟩ ⟨c, hc⟩
  have h2 := digit_lt ⟨b, hb⟩ ⟨d, hd⟩
  simp only at h1 h2
  rw [cons_lt_cons_iff, cons_lt_cons_iff, h1.1, h1.2, h2.1, h2.2]
  constructor
  · rintro (h | ⟨h, h3 | ⟨h3, h4⟩⟩)
    · left; omega
    · left; omega
    · right; exact ⟨by omega, h4⟩
  · rintro (h | ⟨h, h3⟩)
    · by_cases hac : a < c
      · exact Or.inl hac
      · exact Or.inr ⟨by omega, Or.inl (by omega)⟩
    · exact Or.inr ⟨by omega, Or.inr ⟨by omega, h3⟩⟩

/-- On zero-padded `HH:MM` strings the ordering of strings is the ordering of
the clock readings. -/
theorem compare_formatHM (a b : TimeOfDay) :
    compare (formatHM a) (formatHM b) = .lt ↔
      timeToSeconds (formatHM a) < timeToSeconds (formatHM b) := by
  rw [string_lt_iff, formatHM_data, formatHM_data, timeToSeconds_formatHM, timeToSeconds_formatHM,
    pad2_data _ (by omega : a.hours.val < 60), pad2_data _ (by omega : a.minutes.val < 60),
    pad2_data _ (by omega : b.hours.val < 60), pad2_data _ (by omega : b.minutes.val < 60)]
  simp only [List.cons_append, List.nil_append]
  rw [digit_pair_lt _ _ _ _ (by omega) (by omega) (by omega) (by omega), cons_lt_cons_iff,
    digit_pair_lt _ _ _ _ (by omega) (by omega) (by omega) (by omega)]
  have hnil : ¬ List.lt ([] : List Char) [] := fun h => nomatch h
  have hc : ¬ (':' < ':') := by decide
  simp only [hc, hnil, and_false, or_false, true_and, false_or]
  omega


theorem collectPeriods_some (ps Q : List Period) (h : collectPeriods ps = some Q) :
    Q = ps ∧ ∀ p ∈ ps, p.startTime ≠ "" ∧ p.endTime ≠ "" ∧ compare p.startTime p.endTime = .lt := by
  by_cases hv : ∀ p ∈ ps, p.startTime ≠ "" ∧ p.endTime ≠ "" ∧ compare p.startTime p.endTime = .lt
  · rw [collectPeriods_of_valid ps hv] at h
    cases h
    exact ⟨rfl, hv⟩
  · have hbad : ∃ p ∈ ps, p.startTime = "" ∨ p.endTime = "" ∨
        compare p.startTime p.endTime ≠ .lt := by
      by_contra hcon
      apply hv
      intro p hp
      by_contra hp2
      apply hcon
      refine ⟨p, hp, ?_⟩
      by_cases h1 : p.startTime = ""
      · exact Or.inl h1
      · by_cases h2 : p.endTime = ""
        · exact Or.inr (Or.inl h2)
        · exact Or.inr (Or.inr (fun h3 => hp2 ⟨h1, h2, h3⟩))
    rw [(collectPeriods_of_invalid ps hbad).1] at h
    cases h

theorem sumPeriods_mono (P : List Period) (acc : Int)
    (h : ∀ p ∈ P, 0 < timeToSeconds p.endTime - timeToSeconds p.startTime) :
    acc ≤ sumPeriods P acc := by
  induction P generalizing acc with
  | nil => exact le_refl _
  | cons p ps ih =>
    have hp := h p (List.mem_cons_self _ _)
    have ih2 := fun a => ih a (fun q hq => h q (List.mem_cons_of_mem _ hq))
    unfold sumPeriods
    split
    · have := ih2 (acc + ((calculateDuration p.startTime p.endTime).totalSeconds).getD 0)
      simp only [calculateDuration, decompose, Option.getD_some] at this ⊢
      omega
    · exact ih2 acc

theorem sumPeriods_pos (p : Period) (ps : List Period)
    (h : ∀ q ∈ p :: ps, q.startTime ≠ "" ∧ q.endTime ≠ "" ∧
      0 < timeToSeconds q.endTime - timeToSeconds q.startTime) :
    0 < sumPeriods (p :: ps) 0 := by
  obtain ⟨h1, h2, h3⟩ := h p (List.mem_cons_self _ _)
  have hmono := sumPeriods_mono ps
    (0 + ((calculateDuration p.startTime p.endTime).totalSeconds).getD 0)
    (fun q hq => (h q (List.mem_cons_of_mem _ hq)).2.2)
  have ht : (truthyStr p.startTime && truthyStr p.endTime) = true := by
    simp [truthyStr, h1, h2]
  rw [sumPeriods, if_pos ht]
  simp only [calculateDuration, decompose, Option.getD_some] at hmono ⊢
  omega

/-- The periods a form of `HH:MM` inputs passes on have positive durations. -/
theorem collected_hhmm_positive (clock : List (TimeOfDay × TimeOfDay)) (p : Period)
    (ps : List Period) (h : collectPeriods (clock.map hmPeriod) = some (p :: ps)) :
    (∀ q ∈ p :: ps, ∃ n : Int,
      (calculateDuration q.startTime q.endTime).totalSeconds = some n ∧ 0 < n) ∧
    ∃ n : Int, (calculateDurationFromPeriods (p :: ps)).totalSeconds = some n ∧ 0 < n := by
  obtain ⟨hQ, hv⟩ := collectPeriods_some _ _ h
  have hall : ∀ q ∈ p :: ps, q.startTime ≠ "" ∧ q.endTime ≠ "" ∧
      0 < timeToSeconds q.endTime - timeToSeconds q.startTime := by
    intro q hq
    rw [hQ] at hq
    obtain ⟨h1, h2, h3⟩ := hv q hq
    obtain ⟨ab, _, hab⟩ := List.mem_map.mp hq
    subst hab
    have := (compare_formatHM ab.1 ab.2).mp h3
    exact ⟨h1, h2, by simp only [hmPeriod]; omega⟩
  constructor
  · intro q hq
    exact ⟨_, rfl, (hall q hq).2.2⟩
  · exact ⟨_, rfl, sumPeriods_pos p ps hall⟩


/-- C27: on zero-padded `HH:MM` strings the string comparison of the form
validation agrees with the comparison of `timeToSeconds`; hence an entry that
`addEntry` or `saveInlineEdit` writes from a form of such inputs has a strictly
positive duration in every period and a strictly positive `totalSeconds`: no
manually entered period reaches `calculateDuration` with a negative result. -/
theorem hhmm_validation_positive (pf : Platform) (now id : Int) (form : EntryForm) (s : Store)
    (clock : List (TimeOfDay × TimeOfDay)) (h : form.periods = clock.map hmPeriod) :
    (∀ a b : TimeOfDay, compare (formatHM a) (formatHM b) = .lt ↔
      timeToSeconds (formatHM a) < timeToSeconds (formatHM b)) ∧
    (∀ e ∈ (addEntry pf now form s).entries, e ∈ s.entries ∨ positiveDurations e) ∧
    (∀ e ∈ (saveInlineEdit pf id form s).entries, e ∈ s.entries ∨ positiveDurations e) := by
  refine ⟨compare_formatHM, ?_, ?_⟩
  · intro e he
    unfold addEntry at he
    split at he
    · exact Or.inl he
    · exact Or.inl he
    · rename_i p ps hc
      rw [h] at hc
      obtain ⟨k1, k2⟩ := collected_hhmm_positive clock p ps hc
      simp only [sortEntries] at he
      have he2 := (List.perm_insertionSort entryLe _).mem_iff.mp he
      rcases List.mem_append.mp he2 with h1 | h1
      · exact Or.inl h1
      · right
        rw [List.mem_singleton.mp h1]
        exact ⟨p :: ps, calculateDurationFromPeriods (p :: ps), rfl, rfl, k1, k2⟩
  · intro e he
    unfold saveInlineEdit at he
    split at he
    · exact Or.inl he
    · split at he
      · exact Or.inl he
      · exact Or.inl he
      · rename_i p ps hc
        rw [h] at hc
        obtain ⟨k1, k2⟩ := collected_hhmm_positive clock p ps hc
        rcases mem_updateById he with h1 | ⟨e0, _, _, h3⟩
        · exact Or.inl h1
        · right
          rw [h3]
          exact ⟨p :: ps, calculateDurationFromPeriods (p :: ps), rfl, rfl, k1, k2⟩

/-- Witness for C27: the form with the period 09:00 to 10:30 is accepted by
`addEntry` and the stored total is 5400 seconds. -/
theorem hhmm_validation_positive_witness :
    (demoForm.periods = demoClock.map hmPeriod ∧
      (addEntry utcPlatform 5 demoForm (storeOf [])).entries.map
        (fun e => e.duration.bind (fun d => d.totalSeconds)) = [some 5400]) ∧
    ((∀ a b : TimeOfDay, compare (formatHM a) (formatHM b) = .lt ↔
      timeToSeconds (formatHM a) < timeToSeconds (formatHM b)) ∧
    (∀ e ∈ (addEntry utcPlatform 5 demoForm (storeOf [])).entries,
      e ∈ (storeOf []).entries ∨ positiveDurations e) ∧
    (∀ e ∈ (saveInlineEdit utcPlatform 5 demoForm (storeOf [])).entries,
      e ∈ (storeOf []).entries ∨ positiveDurations e)) :=
  ⟨by decide,
    hhmm_validation_positive utcPlatform 5 5 demoForm (storeOf []) demoClock (by decide)⟩

/-! ## The tracked entry of the stopwatch -/

theorem findEntry_updateById_ne (id j : Int) (f : Entry → Entry)
    (hf : ∀ e, e.id = j → (f e).id = j) (hne : j ≠ id) (es : List Entry) :
    findEntry id (updateById j f es) = findEntry id es := by
  induction es with
  | nil => rfl
  | cons a as ih =>
    by_cases ha : a.id = j
    · have h1 : ¬ (f a).id = id := by rw [hf a ha]; exact hne
      have h2 : ¬ a.id = id := by rw [ha]; exact hne
      simp [updateById, findEntry, ha, h1, hne]
    · by_cases hb : a.id = id
      · have hne2 : ¬ id = j := fun h => hne h.symm
        simp [updateById, findEntry, hb, hne2]
      · simp [updateById, findEntry, ha, hb, ih]

theorem boundAt_updateById (id j : Int) (f : Entry → Entry)
    (hf : ∀ e, e.id = j → (f e).id = j) (hb : ∀ e, stopwatchBound e → stopwatchBound (f e))
    (es : List Entry) (h : boundAt id es) : boundAt id (updateById j f es) := by
  obtain ⟨e, he, hbe⟩ := h
  by_cases hj : j = id
  · subst hj
    refine ⟨f e, ?_, hb e hbe⟩
    rw [findEntry_updateById_of j f hf, he]
    rfl
  · exact ⟨e, by rw [findEntry_updateById_ne id j f hf hj, he], hbe⟩

theorem findEntry_removeById_ne (id j : Int) (hne : j ≠ id) (es : List Entry) :
    findEntry id (removeById j es) = findEntry id es := by
  induction es with
  | nil => rfl
  | cons a as ih =>
    unfold removeById at ih ⊢
    by_cases ha : a.id = j
    · have h2 : ¬ a.id = id := by rw [ha]; exact hne
      simp [List.filter_cons, findEntry, ha, hne, ih]
    · by_cases hb : a.id = id
      · have hne2 : ¬ id = j := fun h => hne h.symm
        simp [List.filter_cons, findEntry, hb, hne2]
      · simp [List.filter_cons, findEntry, ha, hb, ih]

theorem findEntry_of_mem_nodup {es : List Entry} (hnd : (es.map (fun e => e.id)).Nodup)
    {e : Entry} (he : e ∈ es) : findEntry e.id es = some e := by
  induction es with
  | nil => cases he
  | cons a as ih =>
    have hnd2 : a.id ∉ as.map (fun e => e.id) ∧ (as.map (fun e => e.id)).Nodup := by
      simpa using hnd
    rcases List.mem_cons.mp he with h1 | h1
    · subst h1
      simp [findEntry]
    · have hne : ¬ a.id = e.id := by
        intro heq
        exact hnd2.1 (List.mem_map.mpr ⟨e, h1, heq.symm⟩)
      simp [findEntry, hne, ih hnd2.2 h1]

theorem boundAt_of_subset {es es2 : List Entry} (hsub : ∀ e ∈ es, e ∈ es2)
    (hnd : (es2.map (fun e => e.id)).Nodup) (id : Int) (h : boundAt id es) : boundAt id es2 := by
  obtain ⟨e, he, hbe⟩ := h
  obtain ⟨hmem, hid⟩ := findEntry_some he
  refine ⟨e, ?_, hbe⟩
  rw [← hid]
  exact findEntry_of_mem_nodup hnd (hsub e hmem)

theorem findEntry_map (id : Int) (f : Entry → Entry) (hf : ∀ e, (f e).id = e.id)
    (es : List Entry) : findEntry id (es.map f) = (findEntry id es).map f := by
  induction es with
  | nil => rfl
  | cons a as ih =>
    by_cases ha : a.id = id
    · simp [findEntry, ha, hf a]
    · simp [findEntry, ha, hf a, ih]

/-! ### Operations on an entry keep it bound -/

theorem stopwatchBound_startEntry (pf : Platform) (now : Int) (e : Entry)
    (h : stopwatchBound e) : stopwatchBound (startEntry pf now e) := h

theorem stopwatchBound_recomputeDuration (e : Entry) (h : stopwatchBound e) :
    stopwatchBound (recomputeDuration e) := by
  unfold recomputeDuration
  split
  · exact ⟨h.1, h.2.1, rfl⟩
  · exact h

theorem stopwatchBound_pauseEntry (now : Int) (e : Entry) (h : stopwatchBound e) :
    stopwatchBound (pauseEntry now e) := by
  unfold pauseEntry
  split
  · exact h
  · simp only
    split
    · exact stopwatchBound_recomputeDuration _ h
    · exact stopwatchBound_recomputeDuration _ h

theorem stopwatchBound_resumeEntry (pf : Platform) (now : Int) (e : Entry)
    (h : stopwatchBound e) : stopwatchBound (resumeEntry pf now e) := by
  unfold resumeEntry
  split
  · exact h
  · simp only
    split
    · exact h
    · exact h

theorem stopwatchBound_foldRunning (now : Int) (e : Entry) (h : stopwatchBound e) :
    stopwatchBound (foldRunning now e) := by
  unfold foldRunning
  split
  · exact h
  · exact h

theorem stopwatchBound_flushPeriod (pf : Platform) (now : Int) (e : Entry)
    (h : stopwatchBound e) : stopwatchBound (flushPeriod pf now e) := by
  unfold flushPeriod
  split
  · rename_i actual _
    split
    · obtain ⟨h1, ⟨p, ps, h2⟩, h3⟩ := h
      refine ⟨h1, ⟨p, ps ++ [{ startTime := stopStartTime pf now e actual
                               endTime := formatHMS (pf.localTime now) }], ?_⟩, h3⟩
      simp only [h2, Option.getD_some, List.cons_append]
    · exact h
  · exact h

theorem stopwatchBound_stopEntry (pf : Platform) (now : Int) (e : Entry)
    (h : stopwatchBound e) : stopwatchBound (stopEntry pf now e) :=
  stopwatchBound_recomputeDuration _
    (stopwatchBound_flushPeriod pf now _ (stopwatchBound_foldRunning now e h))

theorem stopwatchBound_migrateEntry (e : Entry) (h : stopwatchBound e) :
    stopwatchBound (migrateEntry e) := by
  have h1 : stopwatchBound (migrateTimer e) := by
    unfold migrateTimer
    split
    · exact h
    · exact h
  have h2 : stopwatchBound (migrateActualStart (migrateTimer e)) := by
    unfold migrateActualStart
    split
    · exact h1
    · exact h1
  have h3 : stopwatchBound (migrateBase (migrateActualStart (migrateTimer e))) := by
    unfold migrateBase
    split
    · exact h2
    · exact h2
  have h4 : stopwatchBound
      (migratePeriods (migrateBase (migrateActualStart (migrateTimer e)))) := by
    obtain ⟨p, ps, hp⟩ := h3.2.1
    unfold migratePeriods
    split
    · exact h3
    · rename_i hnone
      rw [hp] at hnone
      cases hnone
  unfold migrateEntry migrateCompleted
  split
  · exact h4
  · exact h4

theorem migrateEntry_id (e : Entry) : (migrateEntry e).id = e.id := by
  rw [migrateEntry, migrateCompleted_eq, migratePeriods_eq, migrateBase_eq, migrateActualStart_eq,
    migrateTimer_eq]

/-! ### Operations on the store keep the tracked entry bound -/

theorem trackedBound_of_boundAt (s t : Store) (hid : t.stopwatchEntryId = s.stopwatchEntryId)
    (hb : ∀ id, boundAt id s.entries → boundAt id t.entries) (h : trackedBound s) :
    trackedBound t := by
  intro id hidt h0
  rw [hid] at hidt
  exact hb id (h id hidt h0)

theorem trackedBound_updateById (s : Store) (j : Int) (f : Entry → Entry)
    (hf : ∀ e, e.id = j → (f e).id = j) (hb : ∀ e, stopwatchBound e → stopwatchBound (f e))
    (h : trackedBound s) : trackedBound { s with entries := updateById j f s.entries } :=
  trackedBound_of_boundAt s _ rfl (fun id hid => boundAt_updateById id j f hf hb s.entries hid) h

theorem trackedBound_startEntryTimer (pf : Platform) (now id : Int) (s : Store)
    (h : trackedBound s) : trackedBound (startEntryTimer pf now id s) :=
  trackedBound_updateById s id _ (fun e he => (startEntry_id pf now e).trans he)
    (stopwatchBound_startEntry pf now) h

theorem trackedBound_pauseEntryTimer (now id : Int) (s : Store) (h : trackedBound s) :
    trackedBound (pauseEntryTimer now id s) :=
  trackedBound_updateById s id _ (fun e he => (pauseEntry_id now e).trans he)
    (stopwatchBound_pauseEntry now) h

theorem trackedBound_resumeEntryTimer (pf : Platform) (now id : Int) (s : Store)
    (h : trackedBound s) : trackedBound (resumeEntryTimer pf now id s) :=
  trackedBound_updateById s id _ (fun e he => (resumeEntry_id pf now e).trans he)
    (stopwatchBound_resumeEntry pf now) h

theorem trackedBound_stopEntryTimer (pf : Platform) (now id : Int) (s : Store)
    (h : trackedBound s) : trackedBound (stopEntryTimer pf now id s) :=
  trackedBound_updateById s id _ (fun e he => (stopEntry_id pf now e).trans he)
    (stopwatchBound_stopEntry pf now) h

theorem trackedBound_toggleCompletion (id : Int) (s : Store) (h : trackedBound s) :
    trackedBound (toggleCompletion id s) :=
  trackedBound_updateById s id _ (fun _ he => he) (fun _ hb => hb) h

theorem trackedBound_saveInlineEdit (pf : Platform) (id : Int) (form : EntryForm) (s : Store)
    (h : trackedBound s) : trackedBound (saveInlineEdit pf id form s) := by
  unfold saveInlineEdit
  split
  · exact h
  · split
    · exact h
    · exact h
    · rename_i p ps _
      exact trackedBound_updateById s id _ (fun _ he => he)
        (fun e hb => ⟨hb.1, ⟨p, ps, rfl⟩, rfl⟩) h

theorem trackedBound_of_subset (s t : Store) (hid : t.stopwatchEntryId = s.stopwatchEntryId)
    (hsub : ∀ e ∈ s.entries, e ∈ t.entries) (hnd : (t.entries.map (fun e => e.id)).Nodup)
    (h : trackedBound s) : trackedBound t :=
  trackedBound_of_boundAt s t hid (fun id hb => boundAt_of_subset hsub hnd id hb) h

theorem addEntry_frame (pf : Platform) (now : Int) (form : EntryForm) (s : Store) :
    (addEntry pf now form s).stopwatchEntryId = s.stopwatchEntryId ∧
    ∀ e ∈ s.entries, e ∈ (addEntry pf now form s).entries := by
  unfold addEntry
  split
  · exact ⟨rfl, fun _ he => he⟩
  · exact ⟨rfl, fun _ he => he⟩
  · refine ⟨rfl, fun e he => ?_⟩
    simp only [sortEntries]
    exact (List.perm_insertionSort entryLe _).mem_iff.mpr (List.mem_append_left _ he)

theorem trackedBound_addEntry (pf : Platform) (now : Int) (form : EntryForm) (s : Store)
    (hnd : ((addEntry pf now form s).entries.map (fun e => e.id)).Nodup) (h : trackedBound s) :
    trackedBound (addEntry pf now form s) :=
  trackedBound_of_subset s _ (addEntry_frame pf now form s).1 (addEntry_frame pf now form s).2 hnd h

theorem stopwatchBound_newStopwatchEntry (pf : Platform) (now : Int) :
    stopwatchBound (newStopwatchEntry pf now) :=
  ⟨rfl, ⟨_, [], rfl⟩, rfl⟩

theorem startStopwatch_cases (pf : Platform) (now : Int) (s : Store) :
    ((startStopwatch pf now s).entries = s.entries ∧
      (startStopwatch pf now s).stopwatchEntryId = s.stopwatchEntryId) ∨
    ((startStopwatch pf now s).entries = s.entries ++ [newStopwatchEntry pf now] ∧
      (startStopwatch pf now s).stopwatchEntryId = some now) := by
  unfold startStopwatch
  split
  · exact Or.inl ⟨rfl, rfl⟩
  · cases ht : truthyNum s.stopwatchEntryId with
    | true => exact Or.inl (by simp [ht])
    | false => exact Or.inr (by simp [ht, createStopwatchEntry])

theorem trackedBound_startStopwatch (pf : Platform) (now : Int) (s : Store)
    (hnd : ((startStopwatch pf now s).entries.map (fun e => e.id)).Nodup) (h : trackedBound s) :
    trackedBound (startStopwatch pf now s) := by
  rcases startStopwatch_cases pf now s with ⟨h1, h2⟩ | ⟨h1, h2⟩
  · exact trackedBound_of_boundAt s _ h2 (fun id hb => by rw [h1]; exact hb) h
  · intro id hid _
    rw [h2] at hid
    cases hid
    have hmem : newStopwatchEntry pf now ∈ (startStopwatch pf now s).entries := by
      rw [h1]
      simp
    exact ⟨newStopwatchEntry pf now, findEntry_of_mem_nodup hnd hmem,
      stopwatchBound_newStopwatchEntry pf now⟩

theorem tickEntry_bound (pf : Platform) (now : Int) (st : Option Int) (e : Entry)
    (h : stopwatchBound e) :
    ∃ e1, tickEntry pf now st e = some e1 ∧ e1.id = e.id ∧ stopwatchBound e1 := by
  obtain ⟨h1, ⟨p, ps, h2⟩, _⟩ := h
  refine ⟨{ e with
      timePeriods := some ({ p with endTime := formatHMS (pf.localTime now) } :: ps)
      duration := some (calculateDurationFromPeriods
        ({ p with endTime := formatHMS (pf.localTime now) } :: ps)) }, ?_, rfl,
    ⟨h1, ⟨_, ps, rfl⟩, rfl⟩⟩
  simp [tickEntry, h1, h2]

theorem truthyNum_some {o : Option Int} (h : truthyNum o = true) :
    ∃ id, o = some id ∧ id ≠ 0 := by
  cases o with
  | none => cases h
  | some n => exact ⟨n, rfl, by simpa [truthyNum] using h⟩

theorem updateStopwatchEntry_bound (pf : Platform) (now : Int) (s : Store)
    (h : trackedBound s) :
    ∃ t, updateStopwatchEntry pf now s = .ok t ∧
      t.stopwatchEntryId = s.stopwatchEntryId ∧ trackedBound t := by
  unfold updateStopwatchEntry
  cases ht : truthyNum s.stopwatchEntryId with
  | false => exact ⟨s, by simp, rfl, h⟩
  | true =>
    obtain ⟨id, hid, h0⟩ := truthyNum_some ht
    obtain ⟨e, he, hbe⟩ := h id hid h0
    obtain ⟨e1, hte, hid1, hb1⟩ := tickEntry_bound pf now s.stopwatchStartTime e hbe
    have heid : e.id = id := (findEntry_some he).2
    refine ⟨{ s with entries := updateById id (fun _ => e1) s.entries }, ?_, rfl, ?_⟩
    · simp [hid, he, hte]
    · intro id2 hid2 _
      have : id2 = id := by
        have h3 : s.stopwatchEntryId = some id2 := hid2
        rw [hid] at h3
        exact (Option.some.inj h3).symm
      subst this
      refine ⟨e1, ?_, hb1⟩
      have hf : ∀ x : Entry, x.id = id2 → ((fun _ => e1) x : Entry).id = id2 :=
        fun _ _ => hid1.trans heid
      rw [findEntry_updateById_of id2 (fun _ => e1) hf, he]
      rfl

theorem stopwatchTick_bound (pf : Platform) (now : Int) (s : Store) (h : trackedBound s) :
    ∃ t, stopwatchTick pf now s = .ok t ∧ trackedBound t := by
  unfold stopwatchTick
  split
  · obtain ⟨t, ht, _, hb⟩ := updateStopwatchEntry_bound pf now
      { s with stopwatchElapsed := now - s.stopwatchStartTime.getD 0 } h
    exact ⟨t, ht, hb⟩
  · exact ⟨s, rfl, h⟩

theorem pauseStopwatch_bound (pf : Platform) (now : Int) (s : Store) (h : trackedBound s) :
    ∃ t, pauseStopwatch pf now s = .ok t ∧ trackedBound t := by
  unfold pauseStopwatch
  split
  · exact ⟨s, rfl, h⟩
  · obtain ⟨t, ht, _, hb⟩ := updateStopwatchEntry_bound pf now
      { s with isRunning := false, isPaused := true, stopwatchInterval := false } h
    exact ⟨t, ht, hb⟩

theorem stopStopwatch_bound (pf : Platform) (now : Int) (d : String) (s : Store)
    (h : trackedBound s) : ∃ t, stopStopwatch pf now d s = .ok t ∧ trackedBound t := by
  unfold stopStopwatch
  split
  · exact ⟨s, rfl, h⟩
  · simp only
    split
    · exact ⟨_, rfl, h⟩
    · have h1 : trackedBound
          { s with isRunning := false, isPaused := false, stopwatchInterval := false } := h
      split
      · rename_i s3 heq
        exfalso
        split at heq
        · obtain ⟨t, ht, _⟩ := updateStopwatchEntry_bound pf now _
            (trackedBound_updateById _ (s.stopwatchEntryId.getD 0)
              (fun e => { e with description := d }) (fun _ he => he) (fun _ hb => hb) h1)
          rw [ht] at heq
          cases heq
        · obtain ⟨t, ht, _⟩ := updateStopwatchEntry_bound pf now _ h1
          rw [ht] at heq
          cases heq
      · refine ⟨_, rfl, ?_⟩
        intro id hid _
        cases hid

theorem resetStopwatch_error (s t : Store) (h : resetStopwatch s = .error t) :
    t.entries = s.entries ∧ t.stopwatchEntryId = s.stopwatchEntryId := by
  unfold resetStopwatch at h
  simp only at h
  split at h
  · split at h
    · cases h
      exact ⟨rfl, rfl⟩
    · split at h
      · cases h
        exact ⟨rfl, rfl⟩
      · cases h
  · cases h

theorem resetStopwatch_ok (s t : Store) (h : resetStopwatch s = .ok t) :
    (truthyNum s.stopwatchEntryId = true → t.stopwatchEntryId = none) ∧
    (truthyNum s.stopwatchEntryId = false →
      t.entries = s.entries ∧ t.stopwatchEntryId = s.stopwatchEntryId) := by
  unfold resetStopwatch at h
  simp only at h
  split at h
  · rename_i ht
    split at h
    · cases h
    · split at h
      · cases h
      · cases h
        exact ⟨fun _ => rfl, fun hf => by rw [hf] at ht; cases ht⟩
  · rename_i ht
    cases h
    exact ⟨fun hf => absurd hf ht, fun _ => ⟨rfl, rfl⟩⟩

theorem resetStopwatch_bound (s : Store) (h : trackedBound s) :
    ∃ t, resetStopwatch s = .ok t ∧ trackedBound t := by
  cases hr : resetStopwatch s with
  | ok t =>
    refine ⟨t, rfl, ?_⟩
    obtain ⟨k1, k2⟩ := resetStopwatch_ok s t hr
    cases ht : truthyNum s.stopwatchEntryId with
    | true =>
      intro id hid _
      rw [k1 ht] at hid
      cases hid
    | false =>
      exact trackedBound_of_boundAt s t (k2 ht).2 (fun id hb => by rw [(k2 ht).1]; exact hb) h
  | error t =>
    exfalso
    unfold resetStopwatch at hr
    simp only at hr
    split at hr
    · rename_i ht
      obtain ⟨id, hid, h0⟩ := truthyNum_some ht
      obtain ⟨e, he, hbe⟩ := h id hid h0
      have hid2 : s.stopwatchEntryId = some id := hid
      simp only [hid2, Option.getD_some, he] at hr
      obtain ⟨_, _, hd⟩ := hbe
      split at hr
      · rename_i hnone
        rw [hnone] at hd
        cases hd
      · cases hr
    · cases hr

theorem stopIfRunning_bound (pf : Platform) (now id : Int) (s : Store) (h : trackedBound s) :
    trackedBound (stopIfRunning pf now id s) := by
  unfold stopIfRunning
  split
  · split
    · exact trackedBound_stopEntryTimer pf now id s h
    · exact h
  · exact h

theorem deleteEntry_bound (pf : Platform) (now id : Int) (s : Store) (h : trackedBound s) :
    ∃ t, deleteEntry pf now id s = .ok t ∧ trackedBound t := by
  have h1 := stopIfRunning_bound pf now id s h
  unfold deleteEntry resetIfTracked
  by_cases hid : (stopIfRunning pf now id s).stopwatchEntryId = some id
  · rw [if_pos hid]
    obtain ⟨t, ht, hb⟩ := resetStopwatch_bound _ h1
    rw [ht]
    refine ⟨_, rfl, ?_⟩
    obtain ⟨k1, k2⟩ := resetStopwatch_ok _ t ht
    intro id2 hid2 h0
    have hid3 : t.stopwatchEntryId = some id2 := hid2
    cases htr : truthyNum (stopIfRunning pf now id s).stopwatchEntryId with
    | true =>
      rw [k1 htr] at hid3
      cases hid3
    | false =>
      rw [(k2 htr).2, hid] at hid3
      cases hid3
      rw [hid] at htr
      simp [truthyNum] at htr
      exact absurd htr h0
  · rw [if_neg hid]
    refine ⟨_, rfl, ?_⟩
    intro id2 hid2 h0
    have hid3 : (stopIfRunning pf now id s).stopwatchEntryId = some id2 := hid2
    have hne : id ≠ id2 := by
      intro heq
      subst heq
      exact hid hid3
    obtain ⟨e, he, hbe⟩ := h1 id2 hid3 h0
    exact ⟨e, by
      show findEntry id2 (removeById id (stopIfRunning pf now id s).entries) = some e
      rw [findEntry_removeById_ne id2 id hne, he], hbe⟩

theorem trackedBound_migrate (s : Store) (h : trackedBound s) : trackedBound (migrate s) := by
  intro id hid h0
  obtain ⟨e, he, hbe⟩ := h id hid h0
  refine ⟨migrateEntry e, ?_, stopwatchBound_migrateEntry e hbe⟩
  show findEntry id (s.entries.map migrateEntry) = some (migrateEntry e)
  rw [findEntry_map id migrateEntry migrateEntry_id, he]
  rfl

theorem trackedBound_step (pf : Platform) {s t : Store} (hstep : Step pf s t)
    (hnd : (t.entries.map (fun e => e.id)).Nodup) (h : trackedBound s) : trackedBound t := by
  cases hstep with
  | addEntry now form => exact trackedBound_addEntry pf now form s hnd h
  | saveInlineEdit id form => exact trackedBound_saveInlineEdit pf id form s h
  | toggleCompletion id => exact trackedBound_toggleCompletion id s h
  | deleteEntry now id =>
    obtain ⟨t, ht, hb⟩ := deleteEntry_bound pf now id s h
    rw [ht]
    exact hb
  | startEntryTimer now id => exact trackedBound_startEntryTimer pf now id s h
  | pauseEntryTimer now id => exact trackedBound_pauseEntryTimer now id s h
  | resumeEntryTimer now id => exact trackedBound_resumeEntryTimer pf now id s h
  | stopEntryTimer now id => exact trackedBound_stopEntryTimer pf now id s h
  | startStopwatch now => exact trackedBound_startStopwatch pf now s hnd h
  | stopwatchTick now =>
    obtain ⟨t, ht, hb⟩ := stopwatchTick_bound pf now s h
    rw [ht]
    exact hb
  | pauseStopwatch now =>
    obtain ⟨t, ht, hb⟩ := pauseStopwatch_bound pf now s h
    rw [ht]
    exact hb
  | stopStopwatch now d =>
    obtain ⟨t, ht, hb⟩ := stopStopwatch_bound pf now d s h
    rw [ht]
    exact hb
  | resetStopwatch =>
    obtain ⟨t, ht, hb⟩ := resetStopwatch_bound s h
    rw [ht]
    exact hb
  | migrate => exact trackedBound_migrate s h

theorem reachableDistinct_trackedBound (pf : Platform) (s : Store)
    (hs : ReachableDistinct pf s) : trackedBound s := by
  induction hs with
  | init =>
    intro id hid _
    cases hid
  | step _ hstep hnd ih => exact trackedBound_step pf hstep hnd ih

/-- C28: in every state reached from empty storage by entry creation, inline
edit, completion toggle, delete, the per-entry timer transitions, the stopwatch
operations and the migration, along steps that keep the entry ids pairwise
distinct, a tracked `stopwatchEntryId` (one the code does not treat as `null`)
is the id of an entry of the store whose `stopwatchPeriodIndex` is an index into
its `timePeriods` and which has a `duration`; hence `resetStopwatch`,
`updateStopwatchEntry` and `deleteEntry` return without throwing. -/
theorem tracked_entry_valid (pf : Platform) (s : Store) (h : ReachableDistinct pf s) :
    (∀ id, s.stopwatchEntryId = some id → id ≠ 0 →
      ∃ (e : Entry) (P : List Period) (i : Nat), findEntry id s.entries = some e ∧
        e.timePeriods = some P ∧ e.stopwatchPeriodIndex = some i ∧ i < P.length ∧
        e.duration.isSome = true) ∧
    (∃ t, resetStopwatch s = .ok t) ∧
    (∀ now, ∃ t, updateStopwatchEntry pf now s = .ok t) ∧
    (∀ now id, ∃ t, deleteEntry pf now id s = .ok t) := by
  have hb := reachableDistinct_trackedBound pf s h
  refine ⟨?_, ?_, ?_, ?_⟩
  · intro id hid h0
    obtain ⟨e, he, h1, ⟨p, ps, h2⟩, h3⟩ := hb id hid h0
    exact ⟨e, p :: ps, 0, he, h2, h1, by simp, h3⟩
  · obtain ⟨t, ht, _⟩ := resetStopwatch_bound s hb
    exact ⟨t, ht⟩
  · intro now
    obtain ⟨t, ht, _⟩ := updateStopwatchEntry_bound pf now s hb
    exact ⟨t, ht⟩
  · intro now id
    obtain ⟨t, ht, _⟩ := deleteEntry_bound pf now id s hb
    exact ⟨t, ht⟩

/-- Witness for C28: the store after the stopwatch was started at 10:00:00 and
ticked at 10:00:30 is reachable, and its tracked id is 36000000. -/
theorem tracked_entry_valid_witness :
    ReachableDistinct utcPlatform demoStopwatchStore ∧
    demoStopwatchStore.stopwatchEntryId = some 36000000 ∧
    ((∀ id, demoStopwatchStore.stopwatchEntryId = some id → id ≠ 0 →
      ∃ (e : Entry) (P : List Period) (i : Nat),
        findEntry id demoStopwatchStore.entries = some e ∧
        e.timePeriods = some P ∧ e.stopwatchPeriodIndex = some i ∧ i < P.length ∧
        e.duration.isSome = true) ∧
    (∃ t, resetStopwatch demoStopwatchStore = .ok t) ∧
    (∀ now, ∃ t, updateStopwatchEntry utcPlatform now demoStopwatchStore = .ok t) ∧
    (∀ now id, ∃ t, deleteEntry utcPlatform now id demoStopwatchStore = .ok t)) :=
  ⟨ReachableDistinct.step
      (ReachableDistinct.step ReachableDistinct.init (Step.startStopwatch 36000000 emptyStore)
        (by decide))
      (Step.stopwatchTick 36030000 (startStopwatch utcPlatform 36000000 emptyStore)) (by decide),
    by decide,
    tracked_entry_valid utcPlatform demoStopwatchStore
      (ReachableDistinct.step
        (ReachableDistinct.step ReachableDistinct.init (Step.startStopwatch 36000000 emptyStore)
          (by decide))
        (Step.stopwatchTick 36030000 (startStopwatch utcPlatform 36000000 emptyStore))
        (by decide))⟩

/-! ## Operations on a missing id -/

/-- C25: on a store in which no entry has the id `id`, the timer operations and
the completion toggle return the store as it was; the stopwatch update, when
the missing id is the tracked one, returns the store as it was and the tick
returns without touching the entries; the confirmed `deleteEntry` returns the
store as it was whenever the id is not the tracked one, which is the case in
every state reached through the operations of the application. -/
theorem missing_id_noop (pf : Platform) (now id : Int) (s : Store)
    (h : findEntry id s.entries = none) :
    startEntryTimer pf now id s = s ∧ pauseEntryTimer now id s = s ∧
    resumeEntryTimer pf now id s = s ∧ stopEntryTimer pf now id s = s ∧
    toggleCompletion id s = s ∧
    (s.stopwatchEntryId = some id →
      updateStopwatchEntry pf now s = .ok s ∧
      ∃ t, stopwatchTick pf now s = .ok t ∧ t.entries = s.entries ∧
        t.stopwatchEntryId = s.stopwatchEntryId) ∧
    (s.stopwatchEntryId ≠ some id → deleteEntry pf now id s = .ok s) ∧
    (ReachableDistinct pf s → id ≠ 0 → deleteEntry pf now id s = .ok s) := by
  have hstop : stopIfRunning pf now id s = s := by
    simp [stopIfRunning, h]
  have hdel : s.stopwatchEntryId ≠ some id → deleteEntry pf now id s = .ok s := by
    intro ht
    simp [deleteEntry, hstop, resetIfTracked, ht, removeById_of_missing h]
  refine ⟨?_, ?_, ?_, ?_, ?_, ?_, hdel, ?_⟩
  · simp [startEntryTimer, updateById_of_missing _ h]
  · simp [pauseEntryTimer, updateById_of_missing _ h]
  · simp [resumeEntryTimer, updateById_of_missing _ h]
  · simp [stopEntryTimer, updateById_of_missing _ h]
  · simp [toggleCompletion, updateById_of_missing _ h]
  · intro ht
    constructor
    · unfold updateStopwatchEntry
      split
      · rfl
      · simp [ht, h]
    · unfold stopwatchTick
      split
      · refine ⟨{ s with stopwatchElapsed := now - s.stopwatchStartTime.getD 0 }, ?_, rfl, rfl⟩
        unfold updateStopwatchEntry
        split
        · rfl
        · simp [ht, h]
      · exact ⟨s, rfl, rfl, rfl⟩
  · intro hr h0
    apply hdel
    intro ht
    obtain ⟨e, he, _⟩ := reachableDistinct_trackedBound pf s hr id ht h0
    rw [h] at he
    cases he

/-- Witness for C25: no entry of the store with a running stopwatch has the
id 5. -/
theorem missing_id_noop_witness :
    findEntry 5 demoStopwatchStore.entries = none ∧
    (startEntryTimer utcPlatform 36040000 5 demoStopwatchStore = demoStopwatchStore ∧
    pauseEntryTimer 36040000 5 demoStopwatchStore = demoStopwatchStore ∧
    resumeEntryTimer utcPlatform 36040000 5 demoStopwatchStore = demoStopwatchStore ∧
    stopEntryTimer utcPlatform 36040000 5 demoStopwatchStore = demoStopwatchStore ∧
    toggleCompletion 5 demoStopwatchStore = demoStopwatchStore ∧
    (demoStopwatchStore.stopwatchEntryId = some 5 →
      updateStopwatchEntry utcPlatform 36040000 demoStopwatchStore = .ok demoStopwatchStore ∧
      ∃ t, stopwatchTick utcPlatform 36040000 demoStopwatchStore = .ok t ∧
        t.entries = demoStopwatchStore.entries ∧
        t.stopwatchEntryId = demoStopwatchStore.stopwatchEntryId) ∧
    (demoStopwatchStore.stopwatchEntryId ≠ some 5 →
      deleteEntry utcPlatform 36040000 5 demoStopwatchStore = .ok demoStopwatchStore) ∧
    (ReachableDistinct utcPlatform demoStopwatchStore → (5 : Int) ≠ 0 →
      deleteEntry utcPlatform 36040000 5 demoStopwatchStore = .ok demoStopwatchStore)) :=
  ⟨by decide, missing_id_noop utcPlatform 36040000 5 demoStopwatchStore (by decide)⟩

/-- A tracked id without an entry is not a state of the application. On such a
store, here the store without entries whose `stopwatchEntryId` is 5,
`deleteEntry(5)` calls `resetStopwatch`, which reads `entry.duration` of the
entry it did not find and throws. -/
theorem deleteEntry_dangling_throws :
    findEntry 5 ({ emptyStore with stopwatchEntryId := some 5 } : Store).entries = none ∧
    deleteEntry utcPlatform 36000000 5 { emptyStore with stopwatchEntryId := some 5 } =
      .error { emptyStore with stopwatchEntryId := some 5 } := by
  constructor
  · decide
  · rfl

/-! ## A paused timer and the committed span -/

theorem resumeEntry_paused (pf : Platform) (now : Int) (e : Entry) (actual : String)
    (h : e.timerState = some .paused) (ha : e.timerActualStartTime = .val actual)
    (ht : truthyStr actual = true) :
    resumeEntry pf now e = { e with timerState := some .running, timerStartTime := some now } := by
  unfold resumeEntry
  rw [if_neg (not_not.mpr h)]
  have : e.timerActualStartTime.truthy = true := by
    rw [ha]
    exact ht
  simp only [this, if_true]

/-- The entry after start at `t1`, pause at `t2` and resume at `t3`. -/
theorem start_pause_resume_entry (pf : Platform) (t1 t2 t3 : Int) (e : Entry) (h1 : t1 ≠ 0) :
    resumeEntry pf t3 (pauseEntry t2 (startEntry pf t1 e)) =
      { e with
        timerActualStartTime := .val (formatHMS (pf.localTime t1))
        timerElapsed := e.timerElapsed + (t2 - t1)
        duration := (recomputeDuration e).duration
        timerState := some .running
        timerStartTime := some t3 } := by
  have hp := pauseEntry_running t2 (startEntry pf t1 e) t1 rfl rfl h1
  have hd := recomputeDuration_duration_congr e (startEntry pf t1 e) rfl rfl
  rw [hp, resumeEntry_paused pf t3 _ (formatHMS (pf.localTime t1)) rfl rfl (truthyStr_formatHMS _)]
  simp only [hd]
  rfl

/-- C29: an entry with `timerElapsed` 0 is started at `t1`, paused at `t2`,
resumed at `t3` and stopped at `t4`. Just before the stop the timer holds the
running time `(t2 - t1) + (t4 - t3)` milliseconds; the stop appends the single
period from the clock reading of `t1` to the clock reading of `t4`, so the
committed `totalSeconds` grows by the whole span between the two readings,
paused interval included. -/
theorem start_pause_resume_stop (pf : Platform) (t1 t2 t3 t4 id : Int) (s : Store) (e : Entry)
    (P : List Period) (h : findEntry id s.entries = some e) (hP : e.timePeriods = some P)
    (he : e.timerElapsed = 0) (h1 : t1 ≠ 0) (h3 : t3 ≠ 0) :
    ∃ e3 e4 n,
      findEntry id (resumeEntryTimer pf t3 id
        (pauseEntryTimer t2 id (startEntryTimer pf t1 id s))).entries = some e3 ∧
      e3.timerState = some .running ∧ e3.timerElapsed = t2 - t1 ∧
      e3.timerStartTime = some t3 ∧
      (foldRunning t4 e3).timerElapsed = (t2 - t1) + (t4 - t3) ∧
      findEntry id (stopEntryTimer pf t4 id (resumeEntryTimer pf t3 id
        (pauseEntryTimer t2 id (startEntryTimer pf t1 id s)))).entries = some e4 ∧
      e4.timePeriods = some (P ++
        [{ startTime := formatHMS (pf.localTime t1), endTime := formatHMS (pf.localTime t4) }]) ∧
      (calculateDurationFromPeriods P).totalSeconds = some n ∧
      (∃ d, e4.duration = some d ∧ d.totalSeconds =
        some (n + (secondsOfDay (pf.localTime t4) - secondsOfDay (pf.localTime t1)))) ∧
      e4.timerElapsed = 0 ∧ e4.timerState = some .stopped := by
  have hfind3 : findEntry id (resumeEntryTimer pf t3 id
      (pauseEntryTimer t2 id (startEntryTimer pf t1 id s))).entries =
      some (resumeEntry pf t3 (pauseEntry t2 (startEntry pf t1 e))) := by
    simp [resumeEntryTimer, pauseEntryTimer, startEntryTimer,
      findEntry_updateById id _ (resumeEntry_id pf t3),
      findEntry_updateById id _ (pauseEntry_id t2),
      findEntry_updateById id _ (startEntry_id pf t1), h]
  have hfind4 : findEntry id (stopEntryTimer pf t4 id (resumeEntryTimer pf t3 id
      (pauseEntryTimer t2 id (startEntryTimer pf t1 id s)))).entries =
      some (stopEntry pf t4 (resumeEntry pf t3 (pauseEntry t2 (startEntry pf t1 e)))) := by
    rw [stopEntryTimer]
    simp only
    rw [findEntry_updateById id _ (stopEntry_id pf t4), hfind3]
    rfl
  have he3 := start_pause_resume_entry pf t1 t2 t3 e h1
  have hstop := stopEntry_of_truthy pf t4 (resumeEntry pf t3 (pauseEntry t2 (startEntry pf t1 e)))
    (formatHMS (pf.localTime t1)) (by rw [he3]) (truthyStr_formatHMS _)
  rw [stopStartTime_of_length_ne pf t4 _ _ (by rw [length_splitOnColon_formatHMS]; decide)]
    at hstop
  have hP3 : (resumeEntry pf t3 (pauseEntry t2 (startEntry pf t1 e))).timePeriods = some P := by
    rw [he3]
    exact hP
  rw [hP3] at hstop
  simp only [Option.getD_some] at hstop
  refine ⟨resumeEntry pf t3 (pauseEntry t2 (startEntry pf t1 e)),
    stopEntry pf t4 (resumeEntry pf t3 (pauseEntry t2 (startEntry pf t1 e))), sumPeriods P 0,
    hfind3, ?_, ?_, ?_, ?_, hfind4, ?_, rfl, ?_, ?_, ?_⟩
  · rw [he3]
  · rw [he3]
    simp [he]
  · rw [he3]
  · rw [he3]
    simp [foldRunning, truthyNum, h3, he]
  · rw [hstop]
  · refine ⟨_, by rw [hstop], ?_⟩
    simp only [calculateDurationFromPeriods, decompose]
    rw [sumPeriods_append_singleton P _ _ (truthyStr_formatHMS _) (truthyStr_formatHMS _),
      timeToSeconds_formatHMS, timeToSeconds_formatHMS]
  · rw [hstop]
  · rw [hstop]

/-- Witness for C29: start at 10:00:00, pause at 10:00:30, resume at 10:01:00,
stop at 10:01:30; the timer ran for 60 seconds, the committed period
10:00:00 to 10:01:30 counts 90 seconds. -/
theorem start_pause_resume_stop_witness :
    (findEntry 7 (storeOf [demoEntry 7 []]).entries = some (demoEntry 7 []) ∧
      (demoEntry 7 []).timePeriods = some [] ∧ (demoEntry 7 []).timerElapsed = 0 ∧
      (36000000 : Int) ≠ 0 ∧ (36060000 : Int) ≠ 0) ∧
    (∃ e3 e4 n,
      findEntry 7 (resumeEntryTimer utcPlatform 36060000 7
        (pauseEntryTimer 36030000 7
          (startEntryTimer utcPlatform 36000000 7 (storeOf [demoEntry 7 []])))).entries = some e3 ∧
      e3.timerState = some .running ∧ e3.timerElapsed = 36030000 - 36000000 ∧
      e3.timerStartTime = some 36060000 ∧
      (foldRunning 36090000 e3).timerElapsed = (36030000 - 36000000) + (36090000 - 36060000) ∧
      findEntry 7 (stopEntryTimer utcPlatform 36090000 7 (resumeEntryTimer utcPlatform 36060000 7
        (pauseEntryTimer 36030000 7
          (startEntryTimer utcPlatform 36000000 7 (storeOf [demoEntry 7 []]))))).entries = some e4 ∧
      e4.timePeriods = some ([] ++
        [{ startTime := formatHMS (utcPlatform.localTime 36000000)
           endTime := formatHMS (utcPlatform.localTime 36090000) }]) ∧
      (calculateDurationFromPeriods []).totalSeconds = some n ∧
      (∃ d, e4.duration = some d ∧ d.totalSeconds =
        some (n + (secondsOfDay (utcPlatform.localTime 36090000) -
          secondsOfDay (utcPlatform.localTime 36000000)))) ∧
      e4.timerElapsed = 0 ∧ e4.timerState = some .stopped) ∧
    (findEntry 7 (stopEntryTimer utcPlatform 36090000 7 (resumeEntryTimer utcPlatform 36060000 7
        (pauseEntryTimer 36030000 7
          (startEntryTimer utcPlatform 36000000 7 (storeOf [demoEntry 7 []]))))).entries).map
      (fun e => (e.timePeriods, e.duration.map (fun d => d.totalSeconds))) =
      some (some [{ startTime := "10:00:00", endTime := "10:01:30" }], some (some 90)) :=
  ⟨by decide,
    start_pause_resume_stop utcPlatform 36000000 36030000 36060000 36090000 7
      (storeOf [demoEntry 7 []]) (demoEntry 7 []) [] (by decide) rfl rfl (by decide) (by decide),
    by decide⟩

/-! ## The first tick of the stopwatch -/

theorem findEntry_append_of_none {id : Int} {es : List Entry} (h : findEntry id es = none)
    (rest : List Entry) : findEntry id (es ++ rest) = findEntry id rest := by
  induction es with
  | nil => rfl
  | cons a as ih =>
    unfold findEntry at h
    split at h
    · cases h
    · rename_i ha
      simp [findEntry, ha, ih h]

theorem updateById_append_of_none {id : Int} (f : Entry → Entry) {es : List Entry}
    (h : findEntry id es = none) (rest : List Entry) :
    updateById id f (es ++ rest) = es ++ updateById id f rest := by
  induction es with
  | nil => rfl
  | cons a as ih =>
    unfold findEntry at h
    split at h
    · cases h
    · rename_i ha
      simp [updateById, ha, ih h]

/-- The entry written by the first tick, at `t1`, of a stopwatch started at
`t0`. -/
theorem tickEntry_new (pf : Platform) (t0 t1 : Int) (st : Option Int) :
    tickEntry pf t1 st (newStopwatchEntry pf t0) =
      some { newStopwatchEntry pf t0 with
        timePeriods := some [{ startTime := formatHM (pf.localTime t0)
                               endTime := formatHMS (pf.localTime t1) }]
        duration := some (calculateDurationFromPeriods
          [{ startTime := formatHM (pf.localTime t0), endTime := formatHMS (pf.localTime t1) }]) } := by
  simp [tickEntry, newStopwatchEntry]

theorem truthyStr_formatHM (t : TimeOfDay) : truthyStr (formatHM t) = true := by
  have h : formatHM t ≠ "" := by
    intro h
    have h2 := congrArg String.data h
    rw [formatHM_data] at h2
    simp at h2
  simp [truthyStr, h]

theorem minute_floor (t : TimeOfDay) :
    60 * Int.fdiv (secondsOfDay t) 60 = 3600 * (t.hours.val : Int) + 60 * (t.minutes.val : Int) := by
  rw [Int.fdiv_eq_ediv _ (by decide : (0 : Int) ≤ 60)]
  have := t.seconds.isLt
  simp only [secondsOfDay]
  omega

/-- C30: a stopwatch started at `t0` on a store that tracks no entry creates an
entry whose single period starts at the clock reading of `t0` cut to `HH:MM`;
the tick at `t1` sets the end of that period to the reading of `t1` as
`HH:MM:SS`. The stored `totalSeconds` is the seconds of day of `t1` minus the
seconds of day of `t0` rounded down to the minute: the difference of the two
readings plus the seconds component of `t0`, hence positive whenever `t0` is not
on a whole minute and `t1` is not earlier in the day. -/
theorem stopwatch_first_tick (pf : Platform) (t0 t1 : Int) (s : Store)
    (hrun : s.isRunning = false) (hnone : truthyNum s.stopwatchEntryId = false)
    (hfresh : findEntry t0 s.entries = none) (h0 : t0 ≠ 0) :
    ∃ (s2 : Store) (e : Entry) (d : Duration) (n : Int),
      stopwatchTick pf t1 (startStopwatch pf t0 s) = .ok s2 ∧
      s2.stopwatchEntryId = some t0 ∧
      findEntry t0 s2.entries = some e ∧
      e.timePeriods = some [{ startTime := formatHM (pf.localTime t0)
                              endTime := formatHMS (pf.localTime t1) }] ∧
      e.duration = some d ∧ d.totalSeconds = some n ∧
      n = secondsOfDay (pf.localTime t1) - 60 * Int.fdiv (secondsOfDay (pf.localTime t0)) 60 ∧
      n = (secondsOfDay (pf.localTime t1) - secondsOfDay (pf.localTime t0)) +
        ((pf.localTime t0).seconds.val : Int) ∧
      ((pf.localTime t0).seconds.val ≠ 0 →
        secondsOfDay (pf.localTime t0) ≤ secondsOfDay (pf.localTime t1) → 0 < n) := by
  have hstart : startStopwatch pf t0 s =
      { s with
        entries := s.entries ++ [newStopwatchEntry pf t0]
        stopwatchEntryId := some t0
        isRunning := true
        isPaused := false
        stopwatchStartTime := some (t0 - s.stopwatchElapsed)
        stopwatchInterval := true } := by
    simp [startStopwatch, hrun, hnone, createStopwatchEntry]
  have hfind : findEntry t0 (s.entries ++ [newStopwatchEntry pf t0]) =
      some (newStopwatchEntry pf t0) := by
    rw [findEntry_append_of_none hfresh]
    simp [findEntry, newStopwatchEntry]
  have hupd : ∀ e1 : Entry, updateById t0 (fun _ => e1) (s.entries ++ [newStopwatchEntry pf t0]) =
      s.entries ++ [e1] := by
    intro e1
    rw [updateById_append_of_none _ hfresh]
    simp [updateById, newStopwatchEntry]
  have htotal : sumPeriods [{ startTime := formatHM (pf.localTime t0)
                              endTime := formatHMS (pf.localTime t1) }] 0 =
      secondsOfDay (pf.localTime t1) -
        (3600 * ((pf.localTime t0).hours.val : Int) + 60 * ((pf.localTime t0).minutes.val : Int)) := by
    have := sumPeriods_append_singleton [] (formatHM (pf.localTime t0))
      (formatHMS (pf.localTime t1)) (truthyStr_formatHM _) (truthyStr_formatHMS _)
    simp only [List.nil_append] at this
    rw [this, timeToSeconds_formatHMS, timeToSeconds_formatHM]
    simp [sumPeriods]
  have htick : stopwatchTick pf t1 (startStopwatch pf t0 s) = .ok
      { s with
        entries := s.entries ++ [{ newStopwatchEntry pf t0 with
          timePeriods := some [{ startTime := formatHM (pf.localTime t0)
                                 endTime := formatHMS (pf.localTime t1) }]
          duration := some (calculateDurationFromPeriods
            [{ startTime := formatHM (pf.localTime t0)
               endTime := formatHMS (pf.localTime t1) }]) }]
        stopwatchEntryId := some t0
        isRunning := true
        isPaused := false
        stopwatchStartTime := some (t0 - s.stopwatchElapsed)
        stopwatchElapsed := t1 - (t0 - s.stopwatchElapsed)
        stopwatchInterval := true } := by
    rw [hstart]
    have hb : (t0 != 0) = true := by simpa using h0
    simp only [stopwatchTick, updateStopwatchEntry, truthyNum, hb, Bool.and_self, if_true,
      Bool.not_true, Bool.false_eq_true, if_false, Option.getD_some, hfind, tickEntry_new, hupd]
  refine ⟨_, { newStopwatchEntry pf t0 with
      timePeriods := some [{ startTime := formatHM (pf.localTime t0)
                             endTime := formatHMS (pf.localTime t1) }]
      duration := some (calculateDurationFromPeriods
        [{ startTime := formatHM (pf.localTime t0), endTime := formatHMS (pf.localTime t1) }]) },
    calculateDurationFromPeriods
      [{ startTime := formatHM (pf.localTime t0), endTime := formatHMS (pf.localTime t1) }],
    sumPeriods [{ startTime := formatHM (pf.localTime t0)
                  endTime := formatHMS (pf.localTime t1) }] 0, htick, ?_, ?_, rfl, rfl, rfl, ?_, ?_,
    ?_⟩
  · rfl
  · simp [findEntry_append_of_none hfresh, findEntry, newStopwatchEntry]
  · rw [htotal, minute_floor]
  · rw [htotal]
    simp only [secondsOfDay]
    omega
  · intro hsec hle
    rw [htotal]
    simp only [secondsOfDay] at hle ⊢
    omega

/-- Witness for C30: the stopwatch is started at 10:00:15 and ticked at
10:00:30; the period is 10:00 to 10:00:30 and the total is 30 seconds, the 15
seconds elapsed plus the 15 seconds cut from the start. -/
theorem stopwatch_first_tick_witness :
    (emptyStore.isRunning = false ∧ truthyNum emptyStore.stopwatchEntryId = false ∧
      findEntry 36015000 emptyStore.entries = none ∧ (36015000 : Int) ≠ 0) ∧
    (∃ (s2 : Store) (e : Entry) (d : Duration) (n : Int),
      stopwatchTick utcPlatform 36030000 (startStopwatch utcPlatform 36015000 emptyStore) =
        .ok s2 ∧
      s2.stopwatchEntryId = some 36015000 ∧
      findEntry 36015000 s2.entries = some e ∧
      e.timePeriods = some [{ startTime := formatHM (utcPlatform.localTime 36015000)
                              endTime := formatHMS (utcPlatform.localTime 36030000) }] ∧
      e.duration = some d ∧ d.totalSeconds = some n ∧
      n = secondsOfDay (utcPlatform.localTime 36030000) -
        60 * Int.fdiv (secondsOfDay (utcPlatform.localTime 36015000)) 60 ∧
      n = (secondsOfDay (utcPlatform.localTime 36030000) -
          secondsOfDay (utcPlatform.localTime 36015000)) +
        ((utcPlatform.localTime 36015000).seconds.val : Int) ∧
      ((utcPlatform.localTime 36015000).seconds.val ≠ 0 →
        secondsOfDay (utcPlatform.localTime 36015000) ≤
          secondsOfDay (utcPlatform.localTime 36030000) → 0 < n)) ∧
    (findEntry 36015000 (outcome (stopwatchTick utcPlatform 36030000
        (startStopwatch utcPlatform 36015000 emptyStore))).entries).map
      (fun e => (e.timePeriods, e.duration.map (fun d => d.totalSeconds))) =
      some (some [{ startTime := "10:00", endTime := "10:00:30" }], some (some 30)) :=
  ⟨by decide,
    stopwatch_first_tick utcPlatform 36015000 36030000 emptyStore rfl rfl rfl (by decide),
    by decide⟩

/-! ## Clock strings as start times -/

theorem formatHM_append_lt (t u : TimeOfDay) (rx ry : List Char) :
    List.lt ((formatHM t).data ++ rx) ((formatHM u).data ++ ry) ↔
      60 * t.hours.val + t.minutes.val < 60 * u.hours.val + u.minutes.val ∨
      (60 * t.hours.val + t.minutes.val = 60 * u.hours.val + u.minutes.val ∧ List.lt rx ry) := by
  rw [formatHM_data, formatHM_data,
    pad2_data _ (by omega : t.hours.val < 60), pad2_data _ (by omega : t.minutes.val < 60),
    pad2_data _ (by omega : u.hours.val < 60), pad2_data _ (by omega : u.minutes.val < 60)]
  simp only [List.cons_append, List.nil_append]
  rw [digit_pair_lt _ _ _ _ (by omega) (by omega) (by omega) (by omega), cons_lt_cons_iff,
    digit_pair_lt _ _ _ _ (by omega) (by omega) (by omega) (by omega)]
  have hc : ¬ (':' < ':') := by decide
  simp only [hc, true_and, false_or]
  constructor
  · rintro (h | ⟨h, h2 | ⟨h2, h3⟩⟩)
    · left; omega
    · left; omega
    · right; exact ⟨by omega, h3⟩
  · rintro (h | ⟨h, h3⟩)
    · by_cases hh : t.hours.val < u.hours.val
      · left; omega
      · right; exact ⟨by omega, Or.inl (by omega)⟩
    · right; exact ⟨by omega, Or.inr ⟨by omega, h3⟩⟩

theorem not_lt_nil_chars (l : List Char) : ¬ List.lt l [] := by
  intro h
  cases h

theorem seconds_tail_lt (a b : Nat) (ha : a < 60) (hb : b < 60) :
    List.lt (':' :: (pad2 a).data) (':' :: (pad2 b).data) ↔ a < b := by
  rw [cons_lt_cons_iff, pad2_data _ ha, pad2_data _ hb,
    digit_pair_lt _ _ _ _ (by omega) (by omega) (by omega) (by omega)]
  have hc : ¬ (':' < ':') := by decide
  have hnil : ¬ List.lt ([] : List Char) [] := fun h => nomatch h
  simp only [hc, hnil, true_and, false_or, and_false, or_false]
  omega

/-- A non-empty `clockStart` is the clock string of a time of day: its text is
the `HH:MM` part followed by nothing or by the seconds, and `timeToSeconds`
reads it accordingly. -/
theorem clockStart_shape (x : String) (h : clockStart x = true) (hne : x ≠ "") :
    ∃ t : TimeOfDay,
      (x.data = (formatHM t).data ++ [] ∧
        timeToSeconds x = 60 * (60 * (t.hours.val : Int) + t.minutes.val)) ∨
      (x.data = (formatHM t).data ++ ':' :: (pad2 t.seconds.val).data ∧
        timeToSeconds x = 60 * (60 * (t.hours.val : Int) + t.minutes.val) + t.seconds.val) := by
  unfold clockStart at h
  have hx : (x == "") = false := by simpa using hne
  rw [hx, Bool.false_or] at h
  split at h
  · rename_i n _
    simp only [Bool.or_eq_true, beq_iff_eq] at h
    rcases h with h | h
    · refine ⟨timeOfSeconds n, Or.inl ⟨?_, ?_⟩⟩
      · rw [List.append_nil]
        exact congrArg String.data h
      · rw [h, timeToSeconds_formatHM]
        ring
    · refine ⟨timeOfSeconds n, Or.inr ⟨?_, ?_⟩⟩
      · rw [formatHM_data, List.append_assoc, List.cons_append]
        rw [h, formatHMS_data]
      · rw [h, timeToSeconds_formatHMS, secondsOfDay]
        ring
  · cases h

theorem timeToSeconds_empty : timeToSeconds "" = 0 := by decide

theorem clockStart_seconds_nonneg (x : String) (h : clockStart x = true) :
    0 ≤ timeToSeconds x := by
  by_cases hne : x = ""
  · rw [hne, timeToSeconds_empty]
  · obtain ⟨t, ⟨_, h2⟩ | ⟨_, h2⟩⟩ := clockStart_shape x h hne <;> rw [h2] <;> positivity

/-- On start times written by the application the ordering of strings follows
the time of day. -/
theorem clockStart_le_seconds (x y : String) (hx : clockStart x = true)
    (hy : clockStart y = true) (h : x ≤ y) : timeToSeconds x ≤ timeToSeconds y := by
  rcases le_iff_lt_or_eq.mp h with hlt | heq
  · by_cases hxe : x = ""
    · rw [hxe, timeToSeconds_empty]
      exact clockStart_seconds_nonneg y hy
    · have hl : List.lt x.data y.data := (string_lt_iff x y).mp (compare_lt_iff_lt.mpr hlt)
      have hye : y ≠ "" := by
        intro hye
        rw [hye] at hl
        exact not_lt_nil_chars _ hl
      obtain ⟨t, ht⟩ := clockStart_shape x hx hxe
      obtain ⟨u, hu⟩ := clockStart_shape y hy hye
      have hts := t.seconds.isLt
      have hus := u.seconds.isLt
      have htm := t.minutes.isLt
      have hum := u.minutes.isLt
      rcases ht with ⟨dx, sx⟩ | ⟨dx, sx⟩ <;> rcases hu with ⟨dy, sy⟩ | ⟨dy, sy⟩ <;>
        rw [dx, dy, formatHM_append_lt] at hl <;> rw [sx, sy]
      · rcases hl with hl | ⟨_, hl⟩
        · omega
        · exact absurd hl (not_lt_nil_chars _)
      · rcases hl with hl | ⟨he, _⟩
        · omega
        · omega
      · rcases hl with hl | ⟨_, hl⟩
        · omega
        · exact absurd hl (not_lt_nil_chars _)
      · rcases hl with hl | ⟨he, hl⟩
        · omega
        · have := (seconds_tail_lt _ _ hts hus).mp hl
          omega
  · rw [heq]

theorem clockStart_empty : clockStart "" = true := by decide

theorem getEntryTimeRange_clockStart (e : Entry) (h : clockStarts e = true) :
    clockStart (getEntryTimeRange e).startTime = true := by
  unfold clockStarts at h
  rw [Bool.and_eq_true] at h
  obtain ⟨h1, h2⟩ := h
  unfold getEntryTimeRange
  split
  · rename_i p ps heq
    simp only
    cases hh : ((p :: ps).insertionSort periodStartLe).head? with
    | none => exact clockStart_empty
    | some q =>
      have hq : q ∈ (p :: ps).insertionSort periodStartLe := List.mem_of_mem_head? hh
      have hq2 : q ∈ p :: ps := (List.perm_insertionSort periodStartLe _).mem_iff.mp hq
      rw [heq] at h1
      exact List.all_eq_true.mp h1 q hq2
  · split
    · cases hs : e.startTime with
      | none => exact clockStart_empty
      | some s =>
        rw [hs] at h2
        exact h2
    · exact clockStart_empty

/-- C20: for a list of entries whose start times are empty or zero-padded clock
strings and none of whose dates is a property name inherited from
`Object.prototype`, `groupByDate` returns a mapping with one group per date: the
keys are distinct, every input date is a key, no group is empty, each group
holds exactly the input entries of its date (as a permutation), and each group
is sorted by the start time returned by `getEntryTimeRange`, descending, as a
string and as a time of day. -/
theorem groupByDate_spec (entries : List Entry)
    (h : ∀ e ∈ entries, inheritedProperty e.date = false)
    (hc : ∀ e ∈ entries, clockStarts e = true) :
    ∃ grouped, groupByDate entries = some grouped ∧
      (grouped.map Prod.fst).Nodup ∧
      (∀ e ∈ entries, e.date ∈ grouped.map Prod.fst) ∧
      (∀ kv ∈ grouped,
        kv.2 ≠ [] ∧
        kv.2.Perm (entries.filter (fun e => e.date = kv.1)) ∧
        (∀ e ∈ kv.2, e ∈ entries ∧ e.date = kv.1) ∧
        List.Pairwise (fun a b =>
          (getEntryTimeRange b).startTime ≤ (getEntryTimeRange a).startTime ∧
          timeToSeconds (getEntryTimeRange b).startTime ≤
            timeToSeconds (getEntryTimeRange a).startTime) kv.2) := by
  obtain ⟨hnd, hgrp, hkeys⟩ := groupFold_invariant entries
  refine ⟨(entries.foldl (fun acc e => pushToGroup e.date e acc) []).map
    (fun kv => (kv.1, kv.2.insertionSort rangeStartGe)), ?_, ?_, ?_, ?_⟩
  · unfold groupByDate
    rw [foldl_groupStep_of_ok entries [] h]
    rfl
  · simpa [List.map_map, Function.comp_def] using hnd
  · intro e he
    simpa [List.map_map, Function.comp_def] using hkeys e he
  · intro kv hkv
    rw [List.mem_map] at hkv
    obtain ⟨kv0, hkv0, rfl⟩ := hkv
    obtain ⟨h1, h2⟩ := hgrp kv0 hkv0
    have hperm := List.perm_insertionSort rangeStartGe kv0.2
    have hmem : ∀ e ∈ kv0.2.insertionSort rangeStartGe, e ∈ entries ∧ e.date = kv0.1 := by
      intro e he
      have he2 : e ∈ kv0.2 := hperm.mem_iff.mp he
      rw [h2, List.mem_filter] at he2
      exact ⟨he2.1, by simpa using he2.2⟩
    simp only
    refine ⟨?_, ?_, hmem, ?_⟩
    · intro hnil
      rw [hnil] at hperm
      exact h1 (List.perm_nil.mp hperm.symm)
    · rw [h2] at hperm ⊢
      exact hperm
    · have hs := @List.sorted_insertionSort Entry rangeStartGe _ ⟨rangeStartGe_total⟩
        ⟨rangeStartGe_trans⟩ kv0.2
      refine List.Pairwise.imp_of_mem (fun {a b} ha hb hab => ?_) hs
      have hle : (getEntryTimeRange b).startTime ≤ (getEntryTimeRange a).startTime :=
        compare_le_iff_le.mp hab
      exact ⟨hle, clockStart_le_seconds _ _
        (getEntryTimeRange_clockStart b (hc b (hmem b hb).1))
        (getEntryTimeRange_clockStart a (hc a (hmem a ha).1)) hle⟩

/-- Witness for C20: three entries of two dates. -/
theorem groupByDate_spec_witness :
    ((∀ e ∈ demoEntries, inheritedProperty e.date = false) ∧
      ∀ e ∈ demoEntries, clockStarts e = true) ∧
    (∃ grouped, groupByDate demoEntries = some grouped ∧
      (grouped.map Prod.fst).Nodup ∧
      (∀ e ∈ demoEntries, e.date ∈ grouped.map Prod.fst) ∧
      (∀ kv ∈ grouped,
        kv.2 ≠ [] ∧
        kv.2.Perm (demoEntries.filter (fun e => e.date = kv.1)) ∧
        (∀ e ∈ kv.2, e ∈ demoEntries ∧ e.date = kv.1) ∧
        List.Pairwise (fun a b =>
          (getEntryTimeRange b).startTime ≤ (getEntryTimeRange a).startTime ∧
          timeToSeconds (getEntryTimeRange b).startTime ≤
            timeToSeconds (getEntryTimeRange a).startTime) kv.2)) ∧
    (groupByDate demoEntries).map
      (fun g => g.map (fun kv => (kv.1, kv.2.map (fun e => e.id)))) =
      some [("2024-01-01", [3, 1]), ("2024-01-02", [2])] :=
  ⟨by decide, groupByDate_spec demoEntries (by decide) (by decide), by decide⟩

end TimeTracker
